import Mathlib

/-!
Verification of the conference booking coordinator
(src/Motorq-Conference-Booking.cpp) against its specification.

The C++ classes `Conference`, `User`, `Booking` and `ConferenceBookingSystem`
are shallowly embedded below.  `std::map` tables become association lists
with unique keys (`lookupA` / `setA` / `emplaceA` / `eraseA` mirror
`map::find` / `map::operator[]=` / `map::emplace` / `map::erase`),
`std::queue` waitlists become `List String`, `time_t` becomes `Int`, and the
ad-hoc calls to `time(nullptr)` inside an operation become a single `now`
argument of that operation.  C++ `throw` becomes the `Res.rErr` constructor;
every public operation returns its result together with the state of the
tables at the moment the operation returned or threw, so that partial
mutation before a throw is observable exactly as it is in the source.
-/

/-- Booking lifecycle states, from the C++ `enum class BookingStatus`. -/
inductive BookingStatus where
  | CONFIRMED
  | WAITLISTED
  | CANCELED
deriving DecidableEq, Repr

/-- Association-list lookup, mirroring `std::map::find` / `std::map::at`. -/
def lookupA {α : Type} : List (String × α) → String → Option α
  | [], _ => none
  | (k', v) :: rest, k => if k' = k then some v else lookupA rest k

/-- Association-list insert-or-assign, mirroring `std::map::operator[] = v`. -/
def setA {α : Type} : List (String × α) → String → α → List (String × α)
  | [], k, v => [(k, v)]
  | (k', v') :: rest, k, v =>
    if k' = k then (k, v) :: rest else (k', v') :: setA rest k v

/-- Association-list insert-if-absent, mirroring `std::map::emplace`:
when the key is already present the map is left unchanged and nothing is
inserted. -/
def emplaceA {α : Type} (m : List (String × α)) (k : String) (v : α) :
    List (String × α) :=
  if (lookupA m k).isSome then m else m ++ [(k, v)]

/-- Association-list erase, mirroring `std::map::erase` of a single key. -/
def eraseA {α : Type} : List (String × α) → String → List (String × α)
  | [], _ => []
  | (k', v) :: rest, k => if k' = k then rest else (k', v) :: eraseA rest k

/-- Remove every occurrence of `id` from a queue, preserving the relative
order of all other entries: the `while (!waitlist.empty()) { pop; push }`
rebuild loops of the source. -/
def removeId : List String → String → List String
  | [], _ => []
  | x :: rest, id => if x = id then removeId rest id else x :: removeId rest id

/-- A `Conference`: named time window with slot counters
(class `Conference`, src lines 30-121). -/
structure Conference where
  name : String
  location : String
  topics : List String
  startTime : Int
  endTime : Int
  totalSlots : Int
  availableSlots : Int
deriving DecidableEq, Repr

/-- `Conference::decreaseAvailableSlots` (src lines 65-71): decrement and
report success only when a slot is available. -/
def Conference.decreaseAvailableSlots (c : Conference) : Bool × Conference :=
  if c.availableSlots > 0 then
    (true, { c with availableSlots := c.availableSlots - 1 })
  else (false, c)

/-- `Conference::increaseAvailableSlots` (src lines 73-77): increment,
capped at `totalSlots`. -/
def Conference.increaseAvailableSlots (c : Conference) : Conference :=
  if c.availableSlots < c.totalSlots then
    { c with availableSlots := c.availableSlots + 1 }
  else c

/-- `Conference::hasStarted` (src lines 79-81), with the wall clock passed
explicitly. -/
def Conference.hasStarted (c : Conference) (now : Int) : Bool :=
  now ≥ c.startTime

/-- `Conference::hasSlotAvailable` (src lines 110-112). -/
def Conference.hasSlotAvailable (c : Conference) : Bool :=
  c.availableSlots > 0

/-- `Conference::isTimeOverlapping` (src lines 114-117):
`!(end <= startTime || start >= endTime)`. -/
def Conference.isTimeOverlapping (c : Conference) (s e : Int) : Bool :=
  !(e ≤ c.startTime || s ≥ c.endTime)

/-- The `Conference` constructor (src lines 83-108) with its four
validation throws, in source order. -/
def mkConference (name location : String) (topics : List String)
    (start stop : Int) (slots : Int) : Except String Conference :=
  if topics.length > 10 then .error "Maximum 10 topics allowed"
  else if slots ≤ 0 then .error "Slots must be greater than 0"
  else if stop - start > 12 * 3600 then
    .error "Conference duration cannot exceed 12 hours"
  else if start ≥ stop then .error "Start time must be before end time"
  else .ok { name := name, location := location, topics := topics,
             startTime := start, endTime := stop,
             totalSlots := slots, availableSlots := slots }

/-- A `User`: per-user ledger `bookingStatuses : bookingId -> status`
(class `User`, src lines 129-174). -/
structure User where
  userId : String
  interestedTopics : List String
  bookingStatuses : List (String × BookingStatus)
deriving DecidableEq, Repr

/-- The `User` constructor (src lines 135-142) with its validation throw. -/
def mkUser (id : String) (topics : List String) : Except String User :=
  if topics.length > 50 then .error "Maximum 50 interested topics allowed"
  else .ok { userId := id, interestedTopics := topics, bookingStatuses := [] }

/-- `User::addBooking` (src lines 144-146): insert or overwrite. -/
def User.addBooking (u : User) (bookingId : String) (status : BookingStatus) :
    User :=
  { u with bookingStatuses := setA u.bookingStatuses bookingId status }

/-- `User::updateBookingStatus` (src lines 148-152): no-op when absent. -/
def User.updateBookingStatus (u : User) (bookingId : String)
    (status : BookingStatus) : User :=
  if (lookupA u.bookingStatuses bookingId).isSome then
    { u with bookingStatuses := setA u.bookingStatuses bookingId status }
  else u

/-- `User::removeBooking` (src lines 154-159). -/
def User.removeBooking (u : User) (bookingId : String) : User :=
  { u with bookingStatuses := eraseA u.bookingStatuses bookingId }

/-- `User::getActiveBookings` (src lines 161-169): ids of ledger entries
whose stored status is not CANCELED. -/
def User.getActiveBookings (u : User) : List String :=
  (u.bookingStatuses.filter
    (fun p => decide (p.2 ≠ BookingStatus.CANCELED))).map (fun p => p.1)

/-- A `Booking` (class `Booking`, src lines 198-244).  The C++ two-argument
constructor leaves `confirmationDeadline` uninitialized (an indeterminate
`time_t`); it is modelled as `Option Int`, `none` until
`setWaitlistConfirmationDeadline` stores a value. -/
structure Booking where
  bookingId : String
  userId : String
  conferenceName : String
  status : BookingStatus
  confirmationDeadline : Option Int
deriving DecidableEq, Repr

/-- The `Booking(userId, confName)` constructor (src lines 225-232):
default status CONFIRMED, booking id
`userId + "_" + confName + "_" + to_string(time(nullptr))`. -/
def mkBooking (userId confName : String) (now : Int) : Booking :=
  { bookingId := userId ++ "_" ++ confName ++ "_" ++ toString now
    userId := userId
    conferenceName := confName
    status := BookingStatus.CONFIRMED
    confirmationDeadline := none }

/-- The deadline test of `confirmWaitlistedBooking` (src line 629):
`time(nullptr) > booking.getConfirmationDeadline().time`.  When no deadline
was ever stored the source reads an uninitialized `time_t`; that unset case
is modelled as already expired (the value a zero-initialized `time_t` would
give for any positive clock), so a booking never granted a deadline by the
promotion trigger cannot be confirmed, only requeued. -/
def deadlineExpired (now : Int) : Option Int → Bool
  | some d => now > d
  | none => true

/-- The four tables of `ConferenceBookingSystem` (src lines 246-259). -/
structure SystemState where
  conferences : List (String × Conference)
  users : List (String × User)
  bookings : List (String × Booking)
  waitlists : List (String × List String)
deriving DecidableEq, Repr

/-- The empty system a default-constructed `ConferenceBookingSystem` holds. -/
def initState : SystemState :=
  { conferences := [], users := [], bookings := [], waitlists := [] }

/-- Read `waitlists[conferenceName]`: `operator[]` yields an empty queue for
an absent key. -/
def getWaitlist (st : SystemState) (cn : String) : List String :=
  (lookupA st.waitlists cn).getD []

/-- Assign `waitlists[conferenceName] = q`. -/
def setWaitlist (st : SystemState) (cn : String) (q : List String) :
    SystemState :=
  { st with waitlists := setA st.waitlists cn q }

/-- Write through `bookings.at(id).setStatus(s)`.  On an absent id the
source `map::at` would throw; such ids never occur in the states the
operations are run on, and the write is modelled as a no-op there. -/
def setBookingStatus (st : SystemState) (id : String) (s : BookingStatus) :
    SystemState :=
  { st with
    bookings :=
      match lookupA st.bookings id with
      | some b => setA st.bookings id { b with status := s }
      | none => st.bookings }

/-- Result of one coordinator call: normal returns or a thrown
`runtime_error` message. -/
inductive Res where
  | rUnit
  | rId (bookingId : String)
  | rBool (b : Bool)
  | rErr (msg : String)
deriving DecidableEq, Repr

/-- `ConferenceBookingSystem::hasConflictingBooking` (src lines 338-358):
scan the user's active ledger ids and report whether any of them is a
CONFIRMED booking whose conference overlaps the new conference's window. -/
def hasConflictingBooking (st : SystemState) (userId : String)
    (newConference : Conference) : Bool :=
  match lookupA st.users userId with
  | none => false
  | some user =>
    user.getActiveBookings.any fun bookingId =>
      match lookupA st.bookings bookingId with
      | none => false
      | some booking =>
        if booking.status = BookingStatus.CANCELED then false
        else if booking.status ≠ BookingStatus.CONFIRMED then false
        else
          match lookupA st.conferences booking.conferenceName with
          | none => false
          | some existingConf =>
            existingConf.isTimeOverlapping
              newConference.startTime newConference.endTime

/-- The queue-rebuild loop of `removeFromOverlappingWaitlists`
(src lines 379-391): pop every id, keep those belonging to other users,
cancel (in the booking table) those belonging to `userId`.  Returns the
rebuilt queue together with the updated booking table. -/
def evictUserFromQueue (userId : String) :
    List (String × Booking) → List String →
    List String × List (String × Booking)
  | bks, [] => ([], bks)
  | bks, id :: rest =>
    match lookupA bks id with
    | some b =>
      if b.userId = userId then
        evictUserFromQueue userId
          (setA bks id { b with status := BookingStatus.CANCELED }) rest
      else
        let r := evictUserFromQueue userId bks rest
        (id :: r.1, r.2)
    | none =>
      let r := evictUserFromQueue userId bks rest
      (id :: r.1, r.2)

/-- One conference's waitlist rebuild inside
`removeFromOverlappingWaitlists`. -/
def evictConf (userId : String) (st : SystemState) (confName : String) :
    SystemState :=
  let r := evictUserFromQueue userId st.bookings (getWaitlist st confName)
  setWaitlist { st with bookings := r.2 } confName r.1

/-- `ConferenceBookingSystem::removeFromOverlappingWaitlists`
(src lines 360-395): for every other conference whose window overlaps the
just-booked one, rebuild its waitlist without this user's entries and
cancel those waitlisted bookings. -/
def removeFromOverlappingWaitlists (st : SystemState) (userId : String)
    (bookedConf : Conference) : SystemState :=
  let conferencesToUpdate :=
    ((st.conferences.filter fun p =>
        decide (p.1 ≠ bookedConf.name) &&
        p.2.isTimeOverlapping bookedConf.startTime bookedConf.endTime).map
      fun p => p.1)
  conferencesToUpdate.foldl (evictConf userId) st

/-- The drain loop of `cancelAllWaitlistedBookings` (src lines 400-408):
cancel each queued booking in the table. -/
def cancelAllQueue : List (String × Booking) → List String →
    List (String × Booking)
  | bks, [] => bks
  | bks, id :: rest =>
    match lookupA bks id with
    | some b =>
      cancelAllQueue (setA bks id { b with status := BookingStatus.CANCELED })
        rest
    | none => cancelAllQueue bks rest

/-- `ConferenceBookingSystem::cancelAllWaitlistedBookings`
(src lines 397-409): cancel every booking on the conference's waitlist and
leave the queue empty. -/
def cancelAllWaitlistedBookings (st : SystemState) (conferenceName : String) :
    SystemState :=
  setWaitlist
    { st with
      bookings := cancelAllQueue st.bookings (getWaitlist st conferenceName) }
    conferenceName []

/-- `setWaitlistConfirmationDeadline` (src lines 331-337): deadline one hour
from now. -/
def setWaitlistConfirmationDeadline (now : Int) (b : Booking) : Booking :=
  { b with confirmationDeadline := some (now + 3600) }

/-- `ConferenceBookingSystem::processWaitlist` (src lines 464-480): peek the
head of the conference's waitlist and stamp its confirmation deadline;
status and slots are untouched. -/
def processWaitlist (st : SystemState) (now : Int) (conferenceName : String) :
    SystemState :=
  { st with
    bookings :=
      match (getWaitlist st conferenceName).head? with
      | none => st.bookings
      | some nextBookingId =>
        match lookupA st.bookings nextBookingId with
        | none => st.bookings
        | some b =>
          setA st.bookings nextBookingId
            (setWaitlistConfirmationDeadline now b) }

/-- `ConferenceBookingSystem::addConference` (src lines 482-492). -/
def addConference (st : SystemState) (name location : String)
    (topics : List String) (start stop : Int) (slots : Int) :
    Res × SystemState :=
  if (lookupA st.conferences name).isSome then
    (.rErr "Conference with this name already exists", st)
  else
    match mkConference name location topics start stop slots with
    | .error m => (.rErr m, st)
    | .ok c => (.rUnit, { st with conferences := emplaceA st.conferences name c })

/-- `ConferenceBookingSystem::addUser` (src lines 494-501). -/
def addUser (st : SystemState) (userId : String) (topics : List String) :
    Res × SystemState :=
  if (lookupA st.users userId).isSome then (.rErr "User already exists", st)
  else
    match mkUser userId topics with
    | .error m => (.rErr m, st)
    | .ok u => (.rUnit, { st with users := emplaceA st.users userId u })

/-- Record the new booking in the user's ledger
(`users.at(userId).addBooking`, src line 550).  The user was validated at
the top of `bookConference`, so the absent case never runs. -/
def ledgerAdd (st : SystemState) (userId bookingId : String)
    (status : BookingStatus) : SystemState :=
  match lookupA st.users userId with
  | some u =>
    { st with users := setA st.users userId (u.addBooking bookingId status) }
  | none => st

/-- Remove a booking from the owner's ledger
(`users.at(...).removeBooking`, src line 459). -/
def ledgerRemove (st : SystemState) (userId bookingId : String) : SystemState :=
  match lookupA st.users userId with
  | some u =>
    { st with users := setA st.users userId (u.removeBooking bookingId) }
  | none => st

/-- The duplicate-booking scan of `bookConference` (src lines 517-523):
first table entry by the same user for the same conference that is not
CANCELED. -/
def findDuplicate (bookings : List (String × Booking))
    (userId conferenceName : String) : Option (String × Booking) :=
  bookings.find? fun p =>
    decide (p.2.userId = userId) &&
    decide (p.2.conferenceName = conferenceName) &&
    decide (p.2.status ≠ BookingStatus.CANCELED)

/-- `ConferenceBookingSystem::bookConference` (src lines 503-560). -/
def bookConference (st : SystemState) (now : Int)
    (userId conferenceName : String) : Res × SystemState :=
  if (lookupA st.users userId).isNone then (.rErr "User not found", st)
  else
    match lookupA st.conferences conferenceName with
    | none => (.rErr "Conference not found", st)
    | some conference =>
      if conference.hasStarted now then
        (.rErr "Cannot book conference that has already started", st)
      else
        match findDuplicate st.bookings userId conferenceName with
        | some p =>
          (.rErr ("User already has an active booking for this conference with ID: "
            ++ p.1), st)
        | none =>
          if hasConflictingBooking st userId conference then
            (.rErr "User has a conflicting booking", st)
          else
            let newBooking := mkBooking userId conferenceName now
            let bookingId := newBooking.bookingId
            match conference.decreaseAvailableSlots with
            | (true, conference2) =>
              let st1 :=
                { st with conferences := setA st.conferences conferenceName conference2 }
              let st2 := removeFromOverlappingWaitlists st1 userId conference2
              let nb := { newBooking with status := BookingStatus.CONFIRMED }
              let st3 := { st2 with bookings := emplaceA st2.bookings bookingId nb }
              (.rId bookingId, ledgerAdd st3 userId bookingId nb.status)
            | (false, _) =>
              let st1 :=
                setWaitlist st conferenceName (getWaitlist st conferenceName ++ [bookingId])
              let nb := { newBooking with status := BookingStatus.WAITLISTED }
              let st2 := { st1 with bookings := emplaceA st1.bookings bookingId nb }
              (.rId bookingId, ledgerAdd st2 userId bookingId nb.status)

/-- `ConferenceBookingSystem::cancelBooking` (src lines 413-462). -/
def cancelBooking (st : SystemState) (now : Int) (bookingId : String) :
    Res × SystemState :=
  match lookupA st.bookings bookingId with
  | none => (.rErr "Booking not found", st)
  | some booking =>
    if booking.status = BookingStatus.CANCELED then
      (.rErr "Booking is already canceled", st)
    else
      match lookupA st.conferences booking.conferenceName with
      | none => (.rErr "map::at", st)
      | some conference =>
        if conference.hasStarted now then
          (.rErr "Cannot cancel booking after conference has started", st)
        else
          let st1 :=
            if booking.status = BookingStatus.CONFIRMED then
              processWaitlist
                { st with
                  conferences := setA st.conferences booking.conferenceName
                    conference.increaseAvailableSlots }
                now booking.conferenceName
            else if booking.status = BookingStatus.WAITLISTED then
              setWaitlist st booking.conferenceName
                (removeId (getWaitlist st booking.conferenceName) bookingId)
            else st
          let st2 := setBookingStatus st1 bookingId BookingStatus.CANCELED
          (.rBool true, ledgerRemove st2 booking.userId bookingId)

/-- `ConferenceBookingSystem::confirmWaitlistedBooking` (src lines 603-691). -/
def confirmWaitlistedBooking (st : SystemState) (now : Int)
    (bookingId : String) : Res × SystemState :=
  match lookupA st.bookings bookingId with
  | none => (.rErr "Booking not found", st)
  | some booking =>
    if booking.status ≠ BookingStatus.WAITLISTED then
      (.rErr "Booking is not in waitlisted state", st)
    else
      match lookupA st.conferences booking.conferenceName with
      | none => (.rErr "map::at", st)
      | some conference =>
        if conference.hasStarted now then
          (.rErr "Cannot confirm booking after conference has started",
           cancelAllWaitlistedBookings st booking.conferenceName)
        else if deadlineExpired now booking.confirmationDeadline then
          let wl := getWaitlist st booking.conferenceName
          let updatedQueue :=
            removeId wl bookingId ++ if bookingId ∈ wl then [bookingId] else []
          let st1 := setWaitlist st booking.conferenceName updatedQueue
          let st2 :=
            if conference.hasSlotAvailable then
              processWaitlist st1 now booking.conferenceName
            else st1
          (.rBool false, st2)
        else if hasConflictingBooking st booking.userId conference then
          (.rErr "User now has a conflicting booking", st)
        else
          match conference.decreaseAvailableSlots with
          | (false, _) => (.rErr "No slots available", st)
          | (true, conference2) =>
            let st1 :=
              { st with
                conferences := setA st.conferences booking.conferenceName conference2 }
            let st2 := setWaitlist st1 booking.conferenceName
              (removeId (getWaitlist st1 booking.conferenceName) bookingId)
            let st3 := setBookingStatus st2 bookingId BookingStatus.CONFIRMED
            (.rBool true,
             removeFromOverlappingWaitlists st3 booking.userId conference2)

/-- One coordinator call with its arguments, the wall clock included. -/
inductive Op where
  | addConf (name location : String) (topics : List String)
      (start stop : Int) (slots : Int)
  | addUsr (userId : String) (topics : List String)
  | book (now : Int) (userId conferenceName : String)
  | cancel (now : Int) (bookingId : String)
  | confirm (now : Int) (bookingId : String)
deriving DecidableEq, Repr

/-- Dispatch one call against the system. -/
def applyOp (st : SystemState) : Op → Res × SystemState
  | .addConf n l t s e sl => addConference st n l t s e sl
  | .addUsr u t => addUser st u t
  | .book now u c => bookConference st now u c
  | .cancel now b => cancelBooking st now b
  | .confirm now b => confirmWaitlistedBooking st now b

/-- Run a sequence of coordinator calls, keeping the state each call left
behind whether it returned normally or threw. -/
def runOps (st : SystemState) : List Op → SystemState
  | [] => st
  | op :: rest => runOps (applyOp st op).2 rest

/-- A step is collision-free when, if it is a successful `bookConference`,
the booking id it generated was not already a key of the booking table
(so the `bookings.emplace` call really inserted). -/
def cleanStep (st : SystemState) : Op → Bool
  | .book now u c =>
    match (bookConference st now u c).1 with
    | .rId id => !(lookupA st.bookings id).isSome
    | _ => true
  | _ => true

/-- Every step of the run is collision-free. -/
def cleanRun (st : SystemState) : List Op → Bool
  | [] => true
  | op :: rest => cleanStep st op && cleanRun (applyOp st op).2 rest

/-- A step avoids the deadline-expired path of `confirmWaitlistedBooking`
(the only way a confirm call returns `false`). -/
def noExpiryStep (st : SystemState) : Op → Bool
  | .confirm now b => !(decide ((confirmWaitlistedBooking st now b).1 = Res.rBool false))
  | _ => true

/-- No confirmation deadline expires anywhere in the run. -/
def noExpiryRun (st : SystemState) : List Op → Bool
  | [] => true
  | op :: rest => noExpiryStep st op && noExpiryRun (applyOp st op).2 rest

/-- Number of CONFIRMED bookings of a conference in the booking table. -/
def confirmedCount (st : SystemState) (cn : String) : Nat :=
  (st.bookings.filter fun p =>
    decide (p.2.status = BookingStatus.CONFIRMED) &&
    decide (p.2.conferenceName = cn)).length

/-! ### Association-list lemmas -/

/-- Keys of a table. -/
def keysOf {α : Type} (m : List (String × α)) : List String :=
  m.map Prod.fst

/-- A table whose keys are pairwise distinct, as every `std::map` is. -/
def keysNodup {α : Type} (m : List (String × α)) : Prop :=
  (keysOf m).Nodup

theorem lookupA_setA_self {α : Type} (m : List (String × α)) (k : String)
    (v : α) : lookupA (setA m k v) k = some v := by
  induction m with
  | nil => simp [setA, lookupA]
  | cons p rest ih =>
    by_cases h : p.1 = k
    · simp [setA, h, lookupA]
    · simp [setA, h, lookupA, ih]

theorem lookupA_setA_ne {α : Type} (m : List (String × α)) (k k' : String)
    (v : α) (h : k' ≠ k) : lookupA (setA m k v) k' = lookupA m k' := by
  induction m with
  | nil => simp [setA, lookupA, Ne.symm h]
  | cons p rest ih =>
    by_cases hk : p.1 = k
    · subst hk
      simp [setA, lookupA, Ne.symm h]
    · simp [setA, hk, lookupA, ih]

theorem lookupA_append {α : Type} (m m' : List (String × α)) (k : String) :
    lookupA (m ++ m') k =
      match lookupA m k with
      | some v => some v
      | none => lookupA m' k := by
  induction m with
  | nil => simp [lookupA]
  | cons p rest ih =>
    by_cases h : p.1 = k <;> simp [lookupA, h, ih]

theorem emplaceA_of_isSome {α : Type} (m : List (String × α)) (k : String)
    (v : α) (h : (lookupA m k).isSome) : emplaceA m k v = m := by
  simp [emplaceA, h]

theorem lookupA_emplaceA_self {α : Type} (m : List (String × α)) (k : String)
    (v : α) (h : lookupA m k = none) :
    lookupA (emplaceA m k v) k = some v := by
  simp [emplaceA, h, lookupA_append, lookupA]

theorem lookupA_emplaceA_ne {α : Type} (m : List (String × α)) (k k' : String)
    (v : α) (h : k' ≠ k) : lookupA (emplaceA m k v) k' = lookupA m k' := by
  by_cases hs : (lookupA m k).isSome
  · simp [emplaceA, hs]
  · rw [emplaceA, if_neg hs, lookupA_append]
    cases hm : lookupA m k' with
    | some v' => simp
    | none => simp [lookupA, Ne.symm h]

theorem lookupA_eraseA_ne {α : Type} (m : List (String × α)) (k k' : String)
    (h : k' ≠ k) : lookupA (eraseA m k) k' = lookupA m k' := by
  induction m with
  | nil => simp [eraseA]
  | cons p rest ih =>
    by_cases hk : p.1 = k
    · subst hk
      simp [eraseA, lookupA, Ne.symm h]
    · by_cases hk' : p.1 = k'
      · subst hk'
        simp [eraseA, hk, lookupA]
      · simp [eraseA, hk, lookupA, hk', ih]

theorem mem_of_lookupA_eq_some {α : Type} {m : List (String × α)}
    {k : String} {v : α} (h : lookupA m k = some v) : (k, v) ∈ m := by
  induction m with
  | nil => simp [lookupA] at h
  | cons p rest ih =>
    by_cases hk : p.1 = k
    · subst hk
      simp only [lookupA, if_pos] at h
      cases p
      simp_all
    · simp only [lookupA, hk, if_neg, not_false_iff] at h
      exact List.mem_cons_of_mem _ (ih h)

theorem lookupA_eq_some_of_mem {α : Type} {m : List (String × α)}
    (hnd : keysNodup m) {p : String × α} (h : p ∈ m) :
    lookupA m p.1 = some p.2 := by
  induction m with
  | nil => simp at h
  | cons q rest ih =>
    simp only [keysNodup, keysOf, List.map_cons, List.nodup_cons] at hnd
    rcases List.mem_cons.mp h with h | h
    · subst h
      simp [lookupA]
    · have hne : q.1 ≠ p.1 := by
        intro he
        exact hnd.1 (he ▸ List.mem_map_of_mem Prod.fst h)
      simp only [lookupA, hne, if_neg, not_false_iff]
      exact ih hnd.2 h

theorem lookupA_eq_none_iff {α : Type} (m : List (String × α)) (k : String) :
    lookupA m k = none ↔ k ∉ keysOf m := by
  induction m with
  | nil => simp [lookupA, keysOf]
  | cons p rest ih =>
    by_cases hk : p.1 = k
    · simp [lookupA, hk, keysOf]
    · simp only [lookupA, hk, if_neg, not_false_iff, keysOf, List.map_cons,
        List.mem_cons, ih, keysOf]
      constructor
      · rintro hnot (h1 | h2)
        · exact hk h1.symm
        · exact hnot h2
      · intro hnot
        exact fun h2 => hnot (Or.inr h2)

theorem lookupA_isSome_iff {α : Type} (m : List (String × α)) (k : String) :
    (lookupA m k).isSome ↔ k ∈ keysOf m := by
  cases h : lookupA m k with
  | none => simpa using (lookupA_eq_none_iff m k).mp h
  | some v =>
    simp only [Option.isSome_some, true_iff]
    by_contra hk
    rw [(lookupA_eq_none_iff m k).mpr hk] at h
    exact Option.noConfusion h

theorem keysOf_setA {α : Type} (m : List (String × α)) (k : String) (v : α) :
    keysOf (setA m k v) = if k ∈ keysOf m then keysOf m else keysOf m ++ [k] := by
  induction m with
  | nil => simp [setA, keysOf]
  | cons p rest ih =>
    by_cases hk : p.1 = k
    · subst hk
      simp [setA, keysOf]
    · simp only [keysOf, List.map_cons] at ih ⊢
      simp only [setA, hk, if_neg, not_false_iff, List.map_cons, ih,
        List.mem_cons]
      by_cases hm : k ∈ List.map Prod.fst rest
      · simp [hm]
      · have hkp : ¬(k = p.1) := fun he => hk he.symm
        simp [hm, hkp]

theorem keysNodup_setA {α : Type} {m : List (String × α)} (k : String) (v : α)
    (h : keysNodup m) : keysNodup (setA m k v) := by
  unfold keysNodup
  rw [keysOf_setA]
  by_cases hk : k ∈ keysOf m
  · simpa [hk] using h
  · simp only [hk, if_neg, not_false_iff]
    refine List.Nodup.append h (List.nodup_singleton k) ?_
    intro a ha hb
    rw [List.mem_singleton] at hb
    subst hb
    exact hk ha

theorem keysNodup_emplaceA {α : Type} {m : List (String × α)} (k : String)
    (v : α) (h : keysNodup m) : keysNodup (emplaceA m k v) := by
  unfold emplaceA
  by_cases hs : (lookupA m k).isSome
  · simpa [hs]
  · rw [if_neg hs]
    have hk : k ∉ keysOf m := by
      rw [← lookupA_isSome_iff]
      exact hs
    unfold keysNodup keysOf
    rw [List.map_append]
    refine List.Nodup.append h (List.nodup_singleton k) ?_
    intro a ha hb
    rw [List.map_singleton, List.mem_singleton] at hb
    subst hb
    exact hk ha

theorem eraseA_sublist {α : Type} (m : List (String × α)) (k : String) :
    List.Sublist (eraseA m k) m := by
  induction m with
  | nil => simp [eraseA]
  | cons p rest ih =>
    by_cases hk : p.1 = k
    · simp only [eraseA, hk, if_pos]
      exact List.sublist_cons_self p rest
    · simp only [eraseA, hk, if_neg, not_false_iff]
      exact List.Sublist.cons₂ p ih


theorem keysNodup_eraseA {α : Type} {m : List (String × α)} (k : String)
    (h : keysNodup m) : keysNodup (eraseA m k) :=
  List.Nodup.sublist (List.Sublist.map Prod.fst (eraseA_sublist m k)) h

theorem mem_setA {α : Type} {m : List (String × α)} (hnd : keysNodup m)
    (k : String) (v : α) (p : String × α) :
    p ∈ setA m k v ↔ p = (k, v) ∨ (p ∈ m ∧ p.1 ≠ k) := by
  induction m with
  | nil => simp [setA]
  | cons q rest ih =>
    simp only [keysNodup, keysOf, List.map_cons, List.nodup_cons] at hnd
    by_cases hk : q.1 = k
    · subst hk
      simp only [setA, if_pos, List.mem_cons]
      constructor
      · rintro (h | h)
        · exact Or.inl h
        · refine Or.inr ⟨Or.inr h, ?_⟩
          intro he
          exact hnd.1 (he ▸ List.mem_map_of_mem Prod.fst h)
      · rintro (h | ⟨h1 | h1, h2⟩)
        · exact Or.inl h
        · exact absurd (h1 ▸ rfl) h2
        · exact Or.inr h1
    · simp only [setA, hk, if_neg, not_false_iff, List.mem_cons, ih hnd.2]
      constructor
      · rintro (h | h | h)
        · refine Or.inr ⟨Or.inl h, ?_⟩
          subst h
          exact hk
        · exact Or.inl h
        · exact Or.inr ⟨Or.inr h.1, h.2⟩
      · rintro (h | ⟨h1 | h1, h2⟩)
        · exact Or.inr (Or.inl h)
        · exact Or.inl h1
        · exact Or.inr (Or.inr ⟨h1, h2⟩)

theorem mem_emplaceA_of_absent {α : Type} {m : List (String × α)}
    (k : String) (v : α) (h : lookupA m k = none) (p : String × α) :
    p ∈ emplaceA m k v ↔ p ∈ m ∨ p = (k, v) := by
  have : ¬(lookupA m k).isSome := by simp [h]
  simp [emplaceA, this]

theorem mem_eraseA {α : Type} {m : List (String × α)} (hnd : keysNodup m)
    (k : String) (p : String × α) :
    p ∈ eraseA m k ↔ p ∈ m ∧ p.1 ≠ k := by
  induction m with
  | nil => simp [eraseA]
  | cons q rest ih =>
    simp only [keysNodup, keysOf, List.map_cons, List.nodup_cons] at hnd
    by_cases hk : q.1 = k
    · subst hk
      simp only [eraseA, if_pos, List.mem_cons]
      constructor
      · intro h
        refine ⟨Or.inr h, ?_⟩
        intro he
        exact hnd.1 (he ▸ List.mem_map_of_mem Prod.fst h)
      · rintro ⟨h1 | h1, h2⟩
        · exact absurd (h1 ▸ rfl) h2
        · exact h1
    · simp only [eraseA, hk, if_neg, not_false_iff, List.mem_cons, ih hnd.2]
      constructor
      · rintro (h | h)
        · subst h
          exact ⟨Or.inl rfl, hk⟩
        · exact ⟨Or.inr h.1, h.2⟩
      · rintro ⟨h1 | h1, h2⟩
        · exact Or.inl h1
        · exact Or.inr ⟨h1, h2⟩

/-! ### Queue lemmas -/

theorem mem_removeId (q : List String) (id x : String) :
    x ∈ removeId q id ↔ x ∈ q ∧ x ≠ id := by
  induction q with
  | nil => simp [removeId]
  | cons y rest ih =>
    by_cases hy : y = id
    · subst hy
      simp only [removeId, if_pos, ih, List.mem_cons]
      constructor
      · exact fun h => ⟨Or.inr h.1, h.2⟩
      · rintro ⟨h1 | h1, h2⟩
        · exact absurd h1 h2
        · exact ⟨h1, h2⟩
    · simp only [removeId, hy, if_neg, not_false_iff, List.mem_cons, ih]
      constructor
      · rintro (h | h)
        · subst h
          exact ⟨Or.inl rfl, hy⟩
        · exact ⟨Or.inr h.1, h.2⟩
      · rintro ⟨h1 | h1, h2⟩
        · exact Or.inl h1
        · exact Or.inr ⟨h1, h2⟩

theorem removeId_sublist (q : List String) (id : String) :
    List.Sublist (removeId q id) q := by
  induction q with
  | nil => simp [removeId]
  | cons y rest ih =>
    by_cases hy : y = id
    · simp only [removeId, hy, if_pos]
      exact List.Sublist.trans ih (List.sublist_cons_self _ rest)
    · simp only [removeId, hy, if_neg, not_false_iff]
      exact List.Sublist.cons₂ y ih

theorem removeId_nodup {q : List String} (id : String) (h : q.Nodup) :
    (removeId q id).Nodup :=
  List.Nodup.sublist (removeId_sublist q id) h

theorem removeId_of_not_mem {q : List String} {id : String}
    (h : id ∉ q) : removeId q id = q := by
  induction q with
  | nil => simp [removeId]
  | cons y rest ih =>
    have hy : ¬(y = id) := fun he => h (he ▸ List.mem_cons_self y rest)
    simp only [removeId, hy, if_neg, not_false_iff]
    rw [ih (fun hm => h (List.mem_cons_of_mem _ hm))]

theorem removeId_of_nodup_cons {q : List String} {id : String}
    (h : (id :: q).Nodup) : removeId (id :: q) id = q := by
  rw [List.nodup_cons] at h
  simp only [removeId, if_pos]
  exact removeId_of_not_mem h.1

/-- In a duplicate-free queue, an element of the tail of any sublist is an
element of the original tail. -/
theorem tail_mem_of_sublist {q r : List String} (hs : List.Sublist r q)
    (hnd : q.Nodup) {x : String} (hx : x ∈ r.tail) : x ∈ q.tail := by
  cases q with
  | nil => cases List.sublist_nil.mp hs; simp at hx
  | cons h t =>
    rw [List.nodup_cons] at hnd
    cases r with
    | nil => simp at hx
    | cons rh rt =>
      simp only [List.tail_cons] at hx ⊢
      rcases List.sublist_cons_iff.mp hs with hsub | ⟨r2, heq, hsub⟩
      · exact (List.Sublist.subset hsub)
          (List.Sublist.subset (List.sublist_cons_self rh rt) hx)
      · cases heq
        exact (List.Sublist.subset hsub) hx

/-! ### Characterization of the eviction and bulk-cancel loops -/

theorem evictUserFromQueue_queue (u : String) (bks : List (String × Booking))
    (q : List String) :
    (evictUserFromQueue u bks q).1 =
      q.filter fun id =>
        match lookupA bks id with
        | some b => decide (b.userId ≠ u)
        | none => true := by
  induction q generalizing bks with
  | nil => simp [evictUserFromQueue]
  | cons id rest ih =>
    cases hb : lookupA bks id with
    | none => simp [evictUserFromQueue, hb, List.filter, ih]
    | some b =>
      by_cases hu : b.userId = u
      · have hpred : ∀ x : String,
            (match lookupA (setA bks id { b with status := BookingStatus.CANCELED }) x with
             | some b2 => decide (b2.userId ≠ u)
             | none => true) =
            (match lookupA bks x with
             | some b2 => decide (b2.userId ≠ u)
             | none => true) := by
          intro x
          by_cases hx : x = id
          · subst hx
            rw [lookupA_setA_self, hb]
          · rw [lookupA_setA_ne _ _ _ _ hx]
        have hstep : (evictUserFromQueue u bks (id :: rest)).1 =
            (evictUserFromQueue u
              (setA bks id { b with status := BookingStatus.CANCELED }) rest).1 := by
          simp [evictUserFromQueue, hb, hu]
        rw [hstep, ih, List.filter_congr (fun x _ => hpred x), List.filter_cons]
        simp [hb, hu]
      · have hstep : (evictUserFromQueue u bks (id :: rest)).1 =
            id :: (evictUserFromQueue u bks rest).1 := by
          simp [evictUserFromQueue, hb, hu]
        rw [hstep, ih, List.filter_cons]
        simp [hb, hu]

theorem evictUserFromQueue_lookup (u : String) (bks : List (String × Booking))
    (q : List String) (id2 : String) :
    lookupA (evictUserFromQueue u bks q).2 id2 =
      match lookupA bks id2 with
      | some b =>
        some (if id2 ∈ q ∧ b.userId = u
              then { b with status := BookingStatus.CANCELED } else b)
      | none => none := by
  induction q generalizing bks with
  | nil =>
    cases hb : lookupA bks id2 <;> simp [evictUserFromQueue, hb]
  | cons id rest ih =>
    cases hb : lookupA bks id with
    | none =>
      simp only [evictUserFromQueue, hb, ih]
      cases hb2 : lookupA bks id2 with
      | none => simp
      | some b2 =>
        have hne : ¬(id2 = id) := by
          intro he
          rw [he, hb] at hb2
          exact Option.noConfusion hb2
        simp [List.mem_cons, hne]
    | some b =>
      by_cases hu : b.userId = u
      · simp only [evictUserFromQueue, hb, hu, if_pos, ih]
        by_cases he : id2 = id
        · subst he
          rw [lookupA_setA_self, hb]
          by_cases hm : id2 ∈ rest <;> simp [hm, hu]
        · rw [lookupA_setA_ne _ _ _ _ he]
          cases hb2 : lookupA bks id2 with
          | none => simp
          | some b2 => simp [List.mem_cons, he]
      · simp only [evictUserFromQueue, hb, hu, if_neg, not_false_iff, ih]
        cases hb2 : lookupA bks id2 with
        | none => simp
        | some b2 =>
          by_cases he : id2 = id
          · subst he
            rw [hb] at hb2
            cases hb2
            simp [List.mem_cons, hu]
          · simp [List.mem_cons, he]

theorem cancelAllQueue_lookup (bks : List (String × Booking))
    (q : List String) (id2 : String) :
    lookupA (cancelAllQueue bks q) id2 =
      match lookupA bks id2 with
      | some b =>
        some (if id2 ∈ q then { b with status := BookingStatus.CANCELED } else b)
      | none => none := by
  induction q generalizing bks with
  | nil => cases hb : lookupA bks id2 <;> simp [cancelAllQueue, hb]
  | cons id rest ih =>
    cases hb : lookupA bks id with
    | none =>
      simp only [cancelAllQueue, hb, ih]
      cases hb2 : lookupA bks id2 with
      | none => simp
      | some b2 =>
        have hne : ¬(id2 = id) := by
          intro he
          rw [he, hb] at hb2
          exact Option.noConfusion hb2
        simp [List.mem_cons, hne]
    | some b =>
      simp only [cancelAllQueue, hb, ih]
      by_cases he : id2 = id
      · subst he
        rw [lookupA_setA_self, hb]
        by_cases hm : id2 ∈ rest <;> simp [hm]
      · rw [lookupA_setA_ne _ _ _ _ he]
        cases hb2 : lookupA bks id2 with
        | none => simp
        | some b2 => simp [List.mem_cons, he]

theorem evictUserFromQueue_keysOf (u : String) (bks : List (String × Booking))
    (q : List String) : keysOf (evictUserFromQueue u bks q).2 = keysOf bks := by
  induction q generalizing bks with
  | nil => simp [evictUserFromQueue]
  | cons id rest ih =>
    cases hb : lookupA bks id with
    | none => simp [evictUserFromQueue, hb, ih]
    | some b =>
      by_cases hu : b.userId = u
      · simp only [evictUserFromQueue, hb, hu, if_pos, ih]
        rw [keysOf_setA]
        have : id ∈ keysOf bks := by
          rw [← lookupA_isSome_iff, hb]
          rfl
        simp [this]
      · simp [evictUserFromQueue, hb, hu, ih]

theorem cancelAllQueue_keysOf (bks : List (String × Booking))
    (q : List String) : keysOf (cancelAllQueue bks q) = keysOf bks := by
  induction q generalizing bks with
  | nil => simp [cancelAllQueue]
  | cons id rest ih =>
    cases hb : lookupA bks id with
    | none => simp [cancelAllQueue, hb, ih]
    | some b =>
      simp only [cancelAllQueue, hb, ih]
      rw [keysOf_setA]
      have : id ∈ keysOf bks := by
        rw [← lookupA_isSome_iff, hb]
        rfl
      simp [this]

/-! ### Invariants of the coordinator state -/

/-- All four tables, and every user's ledger, have pairwise distinct keys,
as every `std::map` does. -/
def NodupInv (st : SystemState) : Prop :=
  keysNodup st.conferences ∧ keysNodup st.users ∧ keysNodup st.bookings ∧
    keysNodup st.waitlists ∧
    ∀ uid u, lookupA st.users uid = some u → keysNodup u.bookingStatuses

/-- Every registered conference is well formed: positive capacity, slot
counter within bounds, start before end. -/
def WfConfs (st : SystemState) : Prop :=
  ∀ cn c, lookupA st.conferences cn = some c →
    c.startTime < c.endTime ∧ 0 < c.totalSlots ∧
    0 ≤ c.availableSlots ∧ c.availableSlots ≤ c.totalSlots

/-- No ledger entry ever stores CANCELED (`addBooking` is only called with
CONFIRMED or WAITLISTED and nothing else writes a ledger status). -/
def LedgerNotCanceled (st : SystemState) : Prop :=
  ∀ uid u, lookupA st.users uid = some u →
    ∀ id s, lookupA u.bookingStatuses id = some s → s ≠ BookingStatus.CANCELED

/-- Every booking in the table that is not CANCELED is indexed in its
owner's ledger. -/
def StatusIndexed (st : SystemState) : Prop :=
  ∀ id b, lookupA st.bookings id = some b →
    b.status ≠ BookingStatus.CANCELED →
    ∃ u, lookupA st.users b.userId = some u ∧
      (lookupA u.bookingStatuses id).isSome

/-- Every booking references a registered conference. -/
def BookingConfExists (st : SystemState) : Prop :=
  ∀ id b, lookupA st.bookings id = some b →
    (lookupA st.conferences b.conferenceName).isSome

/-- The double-booking invariant of the spec: no two distinct CONFIRMED
bookings of the same user have overlapping conference windows. -/
def NoConfirmedOverlap (st : SystemState) : Prop :=
  ∀ id1 b1 id2 b2, lookupA st.bookings id1 = some b1 →
    lookupA st.bookings id2 = some b2 → id1 ≠ id2 →
    b1.userId = b2.userId → b1.status = BookingStatus.CONFIRMED →
    b2.status = BookingStatus.CONFIRMED →
    ∀ c1 c2, lookupA st.conferences b1.conferenceName = some c1 →
    lookupA st.conferences b2.conferenceName = some c2 →
    c1.isTimeOverlapping c2.startTime c2.endTime = false

/-- Every waitlist is duplicate free and holds only ids of WAITLISTED
bookings of its own conference. -/
def QueueInv (st : SystemState) : Prop :=
  ∀ cn, (getWaitlist st cn).Nodup ∧
    ∀ id ∈ getWaitlist st cn, ∃ b, lookupA st.bookings id = some b ∧
      b.status = BookingStatus.WAITLISTED ∧ b.conferenceName = cn

/-- Every WAITLISTED booking sits in its conference's waitlist. -/
def WaitlistedQueued (st : SystemState) : Prop :=
  ∀ id b, lookupA st.bookings id = some b →
    b.status = BookingStatus.WAITLISTED →
    id ∈ getWaitlist st b.conferenceName

/-- The CONFIRMED bookings of a conference account exactly for its used
slots. -/
def CountInv (st : SystemState) : Prop :=
  ∀ cn c, lookupA st.conferences cn = some c →
    (confirmedCount st cn : Int) = c.totalSlots - c.availableSlots

/-- What survives of the spec's ledger-lockstep invariant: every ledger
entry names an existing booking of that user, never stores CANCELED, and a
CONFIRMED ledger entry always agrees with the table. -/
def LedgerLockstep (st : SystemState) : Prop :=
  ∀ uid u, lookupA st.users uid = some u →
    ∀ id s, lookupA u.bookingStatuses id = some s →
      s ≠ BookingStatus.CANCELED ∧
      ∃ b, lookupA st.bookings id = some b ∧ b.userId = uid ∧
        (s = BookingStatus.CONFIRMED → b.status = BookingStatus.CONFIRMED)

/-- Only the head of a waitlist can carry a confirmation deadline: the
promotion trigger stamps the head only. -/
def NonHeadNoDeadline (st : SystemState) : Prop :=
  ∀ cn, ∀ id ∈ (getWaitlist st cn).tail,
    ∀ b, lookupA st.bookings id = some b → b.confirmationDeadline = none

/-! ### Simple state-projection lemmas -/

theorem getWaitlist_setWaitlist_self (st : SystemState) (cn : String)
    (q : List String) : getWaitlist (setWaitlist st cn q) cn = q := by
  simp [getWaitlist, setWaitlist, lookupA_setA_self]

theorem getWaitlist_setWaitlist_ne (st : SystemState) (cn cn' : String)
    (q : List String) (h : cn' ≠ cn) :
    getWaitlist (setWaitlist st cn q) cn' = getWaitlist st cn' := by
  simp [getWaitlist, setWaitlist, lookupA_setA_ne _ _ _ _ h]

theorem overlap_symm (c1 c2 : Conference) :
    c1.isTimeOverlapping c2.startTime c2.endTime =
    c2.isTimeOverlapping c1.startTime c1.endTime := by
  simp only [Conference.isTimeOverlapping, ge_iff_le, decide_eq_true_eq]
  rw [Bool.or_comm]

/-- C8: `isTimeOverlapping` returns true iff NOT (end ≤ selfStart OR
start ≥ selfEnd); the relation is symmetric between two conferences, and
two windows that merely touch at a boundary (one ending exactly when the
other starts) do not overlap. -/
theorem C8_overlap_test :
    (∀ (c : Conference) (s e : Int),
      c.isTimeOverlapping s e = true ↔ ¬(e ≤ c.startTime ∨ s ≥ c.endTime)) ∧
    (∀ c1 c2 : Conference,
      c1.isTimeOverlapping c2.startTime c2.endTime =
      c2.isTimeOverlapping c1.startTime c1.endTime) ∧
    (∀ c1 c2 : Conference, c1.endTime = c2.startTime →
      c1.isTimeOverlapping c2.startTime c2.endTime = false ∧
      c2.isTimeOverlapping c1.startTime c1.endTime = false) := by
  refine ⟨?_, fun c1 c2 => overlap_symm c1 c2, ?_⟩
  · intro c s e
    simp [Conference.isTimeOverlapping]
  · intro c1 c2 he
    constructor
    · simp only [Conference.isTimeOverlapping, Bool.not_eq_false', Bool.or_eq_true,
        decide_eq_true_eq]
      exact Or.inr (ge_of_eq he.symm)
    · simp only [Conference.isTimeOverlapping, Bool.not_eq_false', Bool.or_eq_true,
        decide_eq_true_eq]
      exact Or.inl (le_of_eq he)

/-- Witness for C8 at concrete windows: [0,10) against [10,20) touch at the
boundary and do not overlap, and the raw test agrees with its formula. -/
theorem C8_overlap_test_witness :
    ({ name := "a", location := "l", topics := [], startTime := 0,
       endTime := 10, totalSlots := 1,
       availableSlots := 1 : Conference }.isTimeOverlapping 10 20 = false ∧
     { name := "b", location := "l", topics := [], startTime := 10,
       endTime := 20, totalSlots := 1,
       availableSlots := 1 : Conference }.isTimeOverlapping 0 10 = false) ∧
    ({ name := "a", location := "l", topics := [], startTime := 0,
       endTime := 10, totalSlots := 1,
       availableSlots := 1 : Conference }.isTimeOverlapping 5 7 = true ↔
      ¬((7 : Int) ≤ 0 ∨ (5 : Int) ≥ 10)) :=
  ⟨C8_overlap_test.2.2
    { name := "a", location := "l", topics := [], startTime := 0,
      endTime := 10, totalSlots := 1, availableSlots := 1 }
    { name := "b", location := "l", topics := [], startTime := 10,
      endTime := 20, totalSlots := 1, availableSlots := 1 } rfl,
   C8_overlap_test.1
    { name := "a", location := "l", topics := [], startTime := 0,
      endTime := 10, totalSlots := 1, availableSlots := 1 } 5 7⟩

/-! ### Concrete executions -/

/-- A user books a 1-slot conference, cancels, and books again within the
same clock second: the generated booking id collides. -/
def collisionOps : List Op :=
  [ .addConf "C" "NY" [] 100 200 1
  , .addUsr "u" []
  , .book 5 "u" "C"
  , .cancel 5 "u_C_5"
  , .book 5 "u" "C" ]

/-- The state just before the second (colliding) `bookConference` call. -/
def collisionPre : SystemState :=
  runOps initState (List.take 4 collisionOps)

/-- C9: re-booking the same conference in the same second after a
cancellation generates the same booking id and returns it, while the table
keeps the old CANCELED booking (the new one is silently not inserted), a
slot is reserved anyway, and the user's ledger records the id as active. -/
theorem C9_booking_id_collision :
    (bookConference collisionPre 5 "u" "C").1 = Res.rId "u_C_5" ∧
    lookupA (bookConference collisionPre 5 "u" "C").2.bookings "u_C_5" =
      some { bookingId := "u_C_5", userId := "u", conferenceName := "C",
             status := BookingStatus.CANCELED, confirmationDeadline := none } ∧
    (lookupA (bookConference collisionPre 5 "u" "C").2.conferences "C").map
      Conference.availableSlots = some 0 ∧
    (lookupA collisionPre.conferences "C").map Conference.availableSlots =
      some 1 ∧
    ((lookupA (bookConference collisionPre 5 "u" "C").2.users "u").bind
      (fun u => lookupA u.bookingStatuses "u_C_5")) =
      some BookingStatus.CONFIRMED ∧
    (mkBooking "u" "C" 5).bookingId = "u_C_5" := by
  refine ⟨by decide, by decide, by decide, by decide, by decide, by decide⟩

/-- Counterexample to C1 as stated: after the id collision of
`collisionOps` the conference holds `totalSlots - availableSlots = 1` used
slot but the booking table contains no CONFIRMED booking for it. -/
theorem C1_counterexample :
    ((lookupA (runOps initState collisionOps).conferences "C").map
      (fun c => c.totalSlots - c.availableSlots)) = some 1 ∧
    confirmedCount (runOps initState collisionOps) "C" = 0 := by
  refine ⟨by decide, by decide⟩

/-- A 1-slot conference with one CONFIRMED and one WAITLISTED booking. -/
def startedPre : List Op :=
  [ .addConf "C" "NY" [] 100 200 1
  , .addUsr "A" []
  , .addUsr "B" []
  , .book 5 "A" "C"
  , .book 5 "B" "C" ]

/-- Counterexample to C3 as stated: confirming the waitlisted booking after
the conference has started (now = 150 ≥ start = 100) raises InvalidState
but also cancels the whole waitlist first, so the failing call does not
leave the tables unchanged. -/
theorem C3_counterexample :
    (confirmWaitlistedBooking (runOps initState startedPre) 150 "B_C_5").1 =
      Res.rErr "Cannot confirm booking after conference has started" ∧
    (lookupA (runOps initState startedPre).bookings "B_C_5").map
      Booking.status = some BookingStatus.WAITLISTED ∧
    (lookupA
      (confirmWaitlistedBooking (runOps initState startedPre) 150
        "B_C_5").2.bookings "B_C_5").map Booking.status =
      some BookingStatus.CANCELED ∧
    getWaitlist (runOps initState startedPre) "C" = ["B_C_5"] ∧
    getWaitlist
      (confirmWaitlistedBooking (runOps initState startedPre) 150 "B_C_5").2
      "C" = [] := by
  refine ⟨by decide, by decide, by decide, by decide, by decide⟩

/-- The spec scenario of section 8 driven one step further: B's waitlisted
booking is promoted via `confirmWaitlistedBooking`. -/
def promotionOps : List Op :=
  [ .addConf "C" "NY" [] 100 200 1
  , .addUsr "A" []
  , .addUsr "B" []
  , .book 5 "A" "C"
  , .book 5 "B" "C"
  , .cancel 5 "A_C_5"
  , .confirm 5 "B_C_5" ]

/-- Counterexample to C4 as stated: after the promotion of B's booking the
table says CONFIRMED while B's ledger still says WAITLISTED, so the ledger
is not in lockstep with the booking table. -/
theorem C4_counterexample :
    ((lookupA (runOps initState promotionOps).users "B").bind
      (fun u => lookupA u.bookingStatuses "B_C_5")) =
      some BookingStatus.WAITLISTED ∧
    (lookupA (runOps initState promotionOps).bookings "B_C_5").map
      Booking.status = some BookingStatus.CONFIRMED := by
  refine ⟨by decide, by decide⟩

/-- B waitlists first on a full conference, D waitlists second, B cancels,
the confirmed holder A cancels (freeing the slot and stamping D's
deadline), and D confirms: a clean, expiry-free run. -/
def fifoOps : List Op :=
  [ .addConf "Conf" "NY" [] 1000 2000 1
  , .addUsr "A" []
  , .addUsr "B" []
  , .addUsr "D" []
  , .book 5 "A" "Conf"
  , .book 5 "B" "Conf"
  , .book 5 "D" "Conf"
  , .cancel 5 "B_Conf_5"
  , .cancel 5 "A_Conf_5"
  , .confirm 5 "D_Conf_5" ]

/-- Counterexample to C5 as stated: in the expiry-free run `fifoOps` the
first booking ever waitlisted for the conference is B's, yet the first (and
only) booking promoted to CONFIRMED when the slot frees is D's - B's
booking was canceled while queued and is never promoted. -/
theorem C5_counterexample :
    cleanRun initState fifoOps = true ∧
    noExpiryRun initState fifoOps = true ∧
    getWaitlist (runOps initState (List.take 6 fifoOps)) "Conf" =
      ["B_Conf_5"] ∧
    (confirmWaitlistedBooking (runOps initState (List.take 9 fifoOps)) 5
      "D_Conf_5").1 = Res.rBool true ∧
    (lookupA (runOps initState fifoOps).bookings "D_Conf_5").map
      Booking.status = some BookingStatus.CONFIRMED ∧
    (lookupA (runOps initState fifoOps).bookings "B_Conf_5").map
      Booking.status = some BookingStatus.CANCELED := by
  refine ⟨by decide, by decide, by decide, by decide, by decide, by decide⟩


/-- C3 amended: every coordinator operation that fails with an error leaves
all four tables exactly as they were before the call, with the single
exception of `confirmWaitlistedBooking` failing because the conference has
started, which first cancels every booking on that conference's waitlist. -/
theorem C3_amended :
    ∀ st op msg, (applyOp st op).1 = Res.rErr msg →
      (applyOp st op).2 = st ∨
      (msg = "Cannot confirm booking after conference has started" ∧
       ∃ now bid b, op = Op.confirm now bid ∧
         lookupA st.bookings bid = some b ∧
         (applyOp st op).2 = cancelAllWaitlistedBookings st b.conferenceName) := by
  intro st op msg
  cases op with
  | addConf n l t s e sl =>
    simp only [applyOp, addConference]
    split
    · exact fun _ => Or.inl rfl
    · split
      · exact fun _ => Or.inl rfl
      · intro h
        exact absurd h (by simp)
  | addUsr u t =>
    simp only [applyOp, addUser]
    split
    · exact fun _ => Or.inl rfl
    · split
      · exact fun _ => Or.inl rfl
      · intro h
        exact absurd h (by simp)
  | book now u c =>
    simp only [applyOp, bookConference]
    split
    · exact fun _ => Or.inl rfl
    · split
      · exact fun _ => Or.inl rfl
      · split
        · exact fun _ => Or.inl rfl
        · split
          · exact fun _ => Or.inl rfl
          · split
            · exact fun _ => Or.inl rfl
            · split
              · intro h
                exact absurd h (by simp)
              · intro h
                exact absurd h (by simp)
  | cancel now b =>
    simp only [applyOp, cancelBooking]
    split
    · exact fun _ => Or.inl rfl
    · split
      · exact fun _ => Or.inl rfl
      · split
        · exact fun _ => Or.inl rfl
        · split
          · exact fun _ => Or.inl rfl
          · intro h
            exact absurd h (by simp)
  | confirm now b =>
    simp only [applyOp, confirmWaitlistedBooking]
    split
    · exact fun _ => Or.inl rfl
    · rename_i booking hb
      split
      · exact fun _ => Or.inl rfl
      · split
        · exact fun _ => Or.inl rfl
        · split
          · intro h
            right
            have hmsg : msg = "Cannot confirm booking after conference has started" := by
              have := congrArg (fun r => match r with | Res.rErr m => m | _ => "") h
              simpa using this.symm
            exact ⟨hmsg, now, b, booking, rfl, hb, rfl⟩
          · split
            · intro h
              exact absurd h (by simp)
            · split
              · exact fun _ => Or.inl rfl
              · split
                · exact fun _ => Or.inl rfl
                · intro h
                  exact absurd h (by simp)

/-- Witness for C3 amended: `cancelBooking` of an unknown id fails with
NotFound and leaves the empty system unchanged. -/
theorem C3_amended_witness :
    (applyOp initState (Op.cancel 0 "x")).1 = Res.rErr "Booking not found" ∧
    ((applyOp initState (Op.cancel 0 "x")).2 = initState ∨
     ("Booking not found" = "Cannot confirm booking after conference has started" ∧
      ∃ now bid b, Op.cancel 0 "x" = Op.confirm now bid ∧
        lookupA initState.bookings bid = some b ∧
        (applyOp initState (Op.cancel 0 "x")).2 =
          cancelAllWaitlistedBookings initState b.conferenceName)) :=
  ⟨by decide, C3_amended initState (Op.cancel 0 "x") "Booking not found" (by decide)⟩

/-- C6: confirming a WAITLISTED booking whose stored confirmation deadline
has passed (now > deadline) on a not-yet-started conference returns the
soft-failure value `false` rather than raising an error; the booking stays
WAITLISTED and moves to the tail of its conference's waitlist with the
relative order of all other queued ids preserved (queue becomes
`removeId old bid ++ [bid]`), and when the conference still has a free slot
the promotion trigger is re-run, stamping the new head's deadline with
now + 1 hour. -/
theorem C6_deadline_expiry_requeues (st : SystemState) (now d : Int) (bid : String)
    (b : Booking) (conf : Conference)
    (hb : lookupA st.bookings bid = some b)
    (hw : b.status = BookingStatus.WAITLISTED)
    (hd : b.confirmationDeadline = some d)
    (hnow : now > d)
    (hc : lookupA st.conferences b.conferenceName = some conf)
    (hns : conf.hasStarted now = false)
    (hmem : bid ∈ getWaitlist st b.conferenceName)
    (hids : ∀ id ∈ getWaitlist st b.conferenceName,
      (lookupA st.bookings id).isSome) :
    (confirmWaitlistedBooking st now bid).1 = Res.rBool false ∧
    ((lookupA (confirmWaitlistedBooking st now bid).2.bookings bid).map
      Booking.status = some BookingStatus.WAITLISTED) ∧
    getWaitlist (confirmWaitlistedBooking st now bid).2 b.conferenceName =
      removeId (getWaitlist st b.conferenceName) bid ++ [bid] ∧
    (conf.hasSlotAvailable = true →
      ∀ hid, (removeId (getWaitlist st b.conferenceName) bid ++ [bid]).head? =
          some hid →
        (lookupA (confirmWaitlistedBooking st now bid).2.bookings hid).map
          Booking.confirmationDeadline = some (some (now + 3600))) := by
  have hred : confirmWaitlistedBooking st now bid =
      (Res.rBool false,
        if conf.hasSlotAvailable then
          processWaitlist
            (setWaitlist st b.conferenceName
              (removeId (getWaitlist st b.conferenceName) bid ++ [bid]))
            now b.conferenceName
        else
          setWaitlist st b.conferenceName
            (removeId (getWaitlist st b.conferenceName) bid ++ [bid])) := by
    simp [confirmWaitlistedBooking, hb, hw, hc, hns, hd, deadlineExpired, hnow, hmem]
  rw [hred]
  set q2 := removeId (getWaitlist st b.conferenceName) bid ++ [bid] with hq2
  have hq2ids : ∀ id ∈ q2, (lookupA st.bookings id).isSome := by
    intro id hid
    rcases List.mem_append.mp hid with hid | hid
    · exact hids id ((mem_removeId _ _ _).mp hid).1
    · rw [List.mem_singleton] at hid
      subst hid
      exact hids id hmem
  have hst1bks :
      (setWaitlist st b.conferenceName q2).bookings = st.bookings := rfl
  by_cases hslot : conf.hasSlotAvailable = true
  · simp only [hslot, if_pos]
    cases hhd : q2.head? with
    | none =>
      exfalso
      cases hq : q2 with
      | nil => simp [hq] at hq2
      | cons a t => rw [hq] at hhd; exact absurd hhd (by simp)
    | some hid =>
      have hhidmem : hid ∈ q2 := by
        cases hq : q2 with
        | nil => rw [hq] at hhd; exact absurd hhd (by simp)
        | cons a t =>
          rw [hq] at hhd
          simp only [List.head?_cons, Option.some.injEq] at hhd
          rw [← hhd]
          exact List.mem_cons_self _ _
      have hhidsome := hq2ids hid hhidmem
      cases hbh : lookupA st.bookings hid with
      | none => rw [hbh] at hhidsome; exact absurd hhidsome (by simp)
      | some bh =>
        have hpw : processWaitlist (setWaitlist st b.conferenceName q2) now
            b.conferenceName =
            { setWaitlist st b.conferenceName q2 with
              bookings := setA st.bookings hid
                (setWaitlistConfirmationDeadline now bh) } := by
          simp only [processWaitlist, getWaitlist_setWaitlist_self, hhd,
            hst1bks, hbh]
        rw [hpw]
        refine ⟨trivial, ?_, ?_, ?_⟩
        · by_cases hbidh : bid = hid
          · subst hbidh
            simp only [lookupA_setA_self]
            rw [hbh] at hb
            cases hb
            simp [setWaitlistConfirmationDeadline, hw]
          · show (lookupA (setA st.bookings hid
              (setWaitlistConfirmationDeadline now bh)) bid).map
                Booking.status = some BookingStatus.WAITLISTED
            rw [lookupA_setA_ne _ _ _ _ hbidh, hb]
            simp [hw]
        · exact getWaitlist_setWaitlist_self st b.conferenceName q2
        · intro _ hid2 hhd2
          have he := Option.some.inj hhd2
          subst he
          show (lookupA (setA st.bookings hid
            (setWaitlistConfirmationDeadline now bh)) hid).map
              Booking.confirmationDeadline = some (some (now + 3600))
          rw [lookupA_setA_self]
          simp [setWaitlistConfirmationDeadline]
  · simp only [hslot, if_neg, Bool.false_eq_true, not_false_iff]
    refine ⟨trivial, ?_, getWaitlist_setWaitlist_self st b.conferenceName q2, ?_⟩
    · rw [hst1bks, hb]
      simp [hw]
    · exact fun hs => hs.elim

/-- The state for the C6 witness: a 1-slot conference with a free slot, one
queued WAITLISTED booking whose deadline (10) lies before the clock (50). -/
def c6state : SystemState :=
  { conferences :=
      [("C", { name := "C", location := "NY", topics := [], startTime := 100,
               endTime := 200, totalSlots := 1, availableSlots := 1 })]
    users := [("u", { userId := "u", interestedTopics := [],
                      bookingStatuses := [("w1", BookingStatus.WAITLISTED)] })]
    bookings :=
      [("w1", { bookingId := "w1", userId := "u", conferenceName := "C",
                status := BookingStatus.WAITLISTED,
                confirmationDeadline := some 10 })]
    waitlists := [("C", ["w1"])] }

/-- Witness for C6 at `c6state`: the expired confirm attempt soft-fails and
requeues the booking at the tail. -/
theorem C6_deadline_expiry_requeues_witness :
    (confirmWaitlistedBooking c6state 50 "w1").1 = Res.rBool false ∧
    getWaitlist (confirmWaitlistedBooking c6state 50 "w1").2 "C" =
      removeId (getWaitlist c6state "C") "w1" ++ ["w1"] := by
  have h := C6_deadline_expiry_requeues c6state 50 10 "w1"
    { bookingId := "w1", userId := "u", conferenceName := "C",
      status := BookingStatus.WAITLISTED, confirmationDeadline := some 10 }
    { name := "C", location := "NY", topics := [], startTime := 100,
      endTime := 200, totalSlots := 1, availableSlots := 1 }
    (by decide) (by decide) (by decide) (by decide) (by decide) (by decide)
    (by decide) (by decide)
  exact ⟨h.1, h.2.2.1⟩

/-! ### Projections of the eviction fold -/

theorem foldl_evictConf_conferences (u : String) (l : List String)
    (s : SystemState) :
    (l.foldl (evictConf u) s).conferences = s.conferences := by
  induction l generalizing s with
  | nil => rfl
  | cons cn rest ih => rw [List.foldl_cons, ih]; rfl

theorem foldl_evictConf_users (u : String) (l : List String)
    (s : SystemState) : (l.foldl (evictConf u) s).users = s.users := by
  induction l generalizing s with
  | nil => rfl
  | cons cn rest ih => rw [List.foldl_cons, ih]; rfl

theorem foldl_evictConf_getWaitlist_not_mem (u : String) (l : List String)
    (s : SystemState) (cn : String) (h : cn ∉ l) :
    getWaitlist (l.foldl (evictConf u) s) cn = getWaitlist s cn := by
  induction l generalizing s with
  | nil => rfl
  | cons cn2 rest ih =>
    rw [List.foldl_cons, ih _ (fun hm => h (List.mem_cons_of_mem _ hm))]
    exact getWaitlist_setWaitlist_ne _ _ _ _
      (fun he => h (he ▸ List.mem_cons_self cn2 rest))

theorem removeFromOverlappingWaitlists_conferences (s : SystemState)
    (u : String) (bc : Conference) :
    (removeFromOverlappingWaitlists s u bc).conferences = s.conferences :=
  foldl_evictConf_conferences u _ s

theorem removeFromOverlappingWaitlists_users (s : SystemState) (u : String)
    (bc : Conference) :
    (removeFromOverlappingWaitlists s u bc).users = s.users :=
  foldl_evictConf_users u _ s

theorem removeFromOverlappingWaitlists_own_queue (s : SystemState)
    (u : String) (bc : Conference) :
    getWaitlist (removeFromOverlappingWaitlists s u bc) bc.name =
      getWaitlist s bc.name := by
  refine foldl_evictConf_getWaitlist_not_mem u _ s bc.name ?_
  intro hm
  simp only [List.mem_map, List.mem_filter] at hm
  obtain ⟨p, ⟨hp, hpred⟩, hpe⟩ := hm
  rw [Bool.and_eq_true, decide_eq_true_eq] at hpred
  exact hpred.1 hpe

theorem ledgerAdd_conferences (s : SystemState) (uid id : String)
    (status : BookingStatus) :
    (ledgerAdd s uid id status).conferences = s.conferences := by
  unfold ledgerAdd
  cases lookupA s.users uid <;> rfl

theorem ledgerAdd_waitlists (s : SystemState) (uid id : String)
    (status : BookingStatus) :
    (ledgerAdd s uid id status).waitlists = s.waitlists := by
  unfold ledgerAdd
  cases lookupA s.users uid <;> rfl

theorem ledgerAdd_bookings (s : SystemState) (uid id : String)
    (status : BookingStatus) :
    (ledgerAdd s uid id status).bookings = s.bookings := by
  unfold ledgerAdd
  cases lookupA s.users uid <;> rfl

/-- Looking up the ledger entry just written by `ledgerAdd`. -/
theorem ledgerAdd_ledger_lookup (s : SystemState) (uid id : String)
    (status : BookingStatus) (uu : User)
    (hug : lookupA s.users uid = some uu) :
    ((lookupA (ledgerAdd s uid id status).users uid).bind
      (fun x => lookupA x.bookingStatuses id)) = some status := by
  unfold ledgerAdd
  rw [hug]
  show (lookupA (setA s.users uid (uu.addBooking id status)) uid).bind
    (fun x => lookupA x.bookingStatuses id) = some status
  rw [lookupA_setA_self]
  show lookupA (setA uu.bookingStatuses id status) id = some status
  rw [lookupA_setA_self]

/-- C10: when a conference has a free slot and a non-empty waitlist, a
`bookConference` call by a registered user with no duplicate and no
overlapping CONFIRMED booking immediately reserves the slot and returns a
CONFIRMED booking: the slot counter drops by one, the user's ledger records
the new id as CONFIRMED, and the conference's waitlist is left exactly as
it was - no queued booking is consulted or promoted. -/
theorem C10_book_bypasses_waitlist (st : SystemState) (now : Int) (u c : String)
    (conf : Conference)
    (hu : (lookupA st.users u).isSome)
    (hc : lookupA st.conferences c = some conf)
    (hname : conf.name = c)
    (hns : conf.hasStarted now = false)
    (hslot : conf.availableSlots > 0)
    (hq : getWaitlist st c ≠ [])
    (hdup : findDuplicate st.bookings u c = none)
    (hconf : hasConflictingBooking st u conf = false) :
    (bookConference st now u c).1 =
      Res.rId ((mkBooking u c now).bookingId) ∧
    (lookupA (bookConference st now u c).2.conferences c).map
      Conference.availableSlots = some (conf.availableSlots - 1) ∧
    getWaitlist (bookConference st now u c).2 c = getWaitlist st c ∧
    ((lookupA (bookConference st now u c).2.users u).bind
      (fun uu => lookupA uu.bookingStatuses (mkBooking u c now).bookingId)) =
      some BookingStatus.CONFIRMED := by
  have hune : ¬(lookupA st.users u).isNone := by
    rw [Option.isNone_iff_eq_none]
    intro he
    rw [he] at hu
    exact absurd hu (by simp)
  obtain ⟨conf2, hdec, hc2slots, hc2name⟩ :
      ∃ conf2, conf.decreaseAvailableSlots = (true, conf2) ∧
        conf2.availableSlots = conf.availableSlots - 1 ∧
        conf2.name = conf.name := by
    refine ⟨{ conf with availableSlots := conf.availableSlots - 1 }, ?_, rfl, rfl⟩
    simp [Conference.decreaseAvailableSlots, hslot]
  have hred : bookConference st now u c =
      (Res.rId ((mkBooking u c now).bookingId),
        ledgerAdd
          { removeFromOverlappingWaitlists
              { st with conferences := setA st.conferences c conf2 }
              u conf2 with
            bookings := emplaceA
              (removeFromOverlappingWaitlists
                { st with conferences := setA st.conferences c conf2 }
                u conf2).bookings
              (mkBooking u c now).bookingId
              { mkBooking u c now with status := BookingStatus.CONFIRMED } }
          u (mkBooking u c now).bookingId BookingStatus.CONFIRMED) := by
    simp [bookConference, hune, hc, hns, hdup, hconf, hdec]
  rw [hred]
  set st1 : SystemState :=
    { st with conferences := setA st.conferences c conf2 } with hst1
  set st2 : SystemState := removeFromOverlappingWaitlists st1 u conf2 with hst2
  have hst2u : st2.users = st.users := by
    rw [hst2, removeFromOverlappingWaitlists_users]
  refine ⟨rfl, ?_, ?_, ?_⟩
  · rw [ledgerAdd_conferences]
    show (lookupA st2.conferences c).map Conference.availableSlots = _
    rw [hst2, removeFromOverlappingWaitlists_conferences, hst1]
    show (lookupA (setA st.conferences c conf2) c).map
      Conference.availableSlots = _
    rw [lookupA_setA_self]
    simp [hc2slots]
  · have h1 : getWaitlist (ledgerAdd
        { st2 with bookings := (emplaceA st2.bookings
            ((mkBooking u c now).bookingId)
            { mkBooking u c now with status := BookingStatus.CONFIRMED }) }
        u (mkBooking u c now).bookingId BookingStatus.CONFIRMED) c =
        getWaitlist st2 c := by
      unfold getWaitlist
      rw [ledgerAdd_waitlists]
    have h2 : getWaitlist st2 c = getWaitlist st1 c := by
      rw [hst2]
      have hn : conf2.name = c := by rw [hc2name, hname]
      rw [← hn]
      exact removeFromOverlappingWaitlists_own_queue st1 u conf2
    have h3 : getWaitlist st1 c = getWaitlist st c := rfl
    rw [h1, h2, h3]
  · cases hug : lookupA st.users u with
    | none => rw [hug] at hu; exact absurd hu (by simp)
    | some uu =>
      refine ledgerAdd_ledger_lookup _ u (mkBooking u c now).bookingId
        BookingStatus.CONFIRMED uu ?_
      show lookupA st2.users u = some uu
      rw [hst2u, hug]

/-- The state for the C10 witness: a 2-slot conference with one free slot
and one queued waitlisted booking of another user. -/
def c10state : SystemState :=
  { conferences :=
      [("C", { name := "C", location := "NY", topics := [], startTime := 100,
               endTime := 200, totalSlots := 2, availableSlots := 1 })]
    users :=
      [("u", { userId := "u", interestedTopics := [], bookingStatuses := [] }),
       ("v", { userId := "v", interestedTopics := [],
               bookingStatuses := [("w1", BookingStatus.WAITLISTED)] })]
    bookings :=
      [("w1", { bookingId := "w1", userId := "v", conferenceName := "C",
                status := BookingStatus.WAITLISTED,
                confirmationDeadline := none })]
    waitlists := [("C", ["w1"])] }

/-- Witness for C10 at `c10state`: user u books past the queued booking. -/
theorem C10_book_bypasses_waitlist_witness :
    (bookConference c10state 50 "u" "C").1 =
      Res.rId ((mkBooking "u" "C" 50).bookingId) ∧
    getWaitlist (bookConference c10state 50 "u" "C").2 "C" =
      getWaitlist c10state "C" := by
  have h := C10_book_bypasses_waitlist c10state 50 "u" "C"
    { name := "C", location := "NY", topics := [], startTime := 100,
      endTime := 200, totalSlots := 2, availableSlots := 1 }
    (by decide) (by decide) (by decide) (by decide) (by decide) (by decide)
    (by decide) (by decide)
  exact ⟨h.1, h.2.2.1⟩

/-- Membership in `User::getActiveBookings` unfolded to the ledger. -/
theorem mem_getActiveBookings (uu : User) (id : String) :
    id ∈ uu.getActiveBookings ↔
      ∃ s, (id, s) ∈ uu.bookingStatuses ∧ s ≠ BookingStatus.CANCELED := by
  simp only [User.getActiveBookings, List.mem_map, List.mem_filter]
  constructor
  · rintro ⟨p, ⟨hp, hs⟩, hpe⟩
    rw [decide_eq_true_eq] at hs
    refine ⟨p.2, ?_, hs⟩
    have : (id, p.2) = p := by
      rw [← hpe]
    rw [this]
    exact hp
  · rintro ⟨s, hmem, hs⟩
    exact ⟨(id, s), ⟨hmem, by simpa using hs⟩, rfl⟩

/-- `hasConflictingBooking` holds exactly when the user owns a CONFIRMED
table booking whose conference overlaps the new conference's window. -/
theorem hasConflictingBooking_iff (st : SystemState) (u : String)
    (conf : Conference) (user : User)
    (hu : lookupA st.users u = some user)
    (hndl : keysNodup user.bookingStatuses)
    (hsi : StatusIndexed st)
    (hll : LedgerLockstep st) :
    hasConflictingBooking st u conf = true ↔
      ∃ id b cb, lookupA st.bookings id = some b ∧ b.userId = u ∧
        b.status = BookingStatus.CONFIRMED ∧
        lookupA st.conferences b.conferenceName = some cb ∧
        cb.isTimeOverlapping conf.startTime conf.endTime = true := by
  unfold hasConflictingBooking
  rw [hu]
  rw [List.any_eq_true]
  constructor
  · rintro ⟨id, hidmem, hbody⟩
    split at hbody
    · exact absurd hbody (by simp)
    · rename_i booking hbk
      split at hbody
      · exact absurd hbody (by simp)
      · split at hbody
        · exact absurd hbody (by simp)
        · rename_i hcanc hconf2
          rw [ne_eq, Decidable.not_not] at hconf2
          split at hbody
          · exact absurd hbody (by simp)
          · rename_i cb hcb
            obtain ⟨s, hsmem, hsnc⟩ := (mem_getActiveBookings user id).mp hidmem
            have hsl : lookupA user.bookingStatuses id = some s :=
              lookupA_eq_some_of_mem hndl hsmem
            obtain ⟨-, b2, hb2, hb2u, -⟩ := hll u user hu id s hsl
            rw [hbk] at hb2
            cases hb2
            exact ⟨id, booking, cb, hbk, hb2u, hconf2, hcb, hbody⟩
  · rintro ⟨id, b, cb, hb, hbu, hbc, hcb, hov⟩
    refine ⟨id, ?_, ?_⟩
    · obtain ⟨uu, huu, hsome⟩ := hsi id b hb (by rw [hbc]; simp)
      rw [hbu] at huu
      rw [hu] at huu
      have he := Option.some.inj huu
      subst he
      cases hsl : lookupA user.bookingStatuses id with
      | none => rw [hsl] at hsome; exact absurd hsome (by simp)
      | some s =>
        obtain ⟨hsnc, -⟩ := hll u user hu id s hsl
        exact (mem_getActiveBookings user id).mpr
          ⟨s, mem_of_lookupA_eq_some hsl, hsnc⟩
    · simp only [hb]
      simp [hbc, hcb, hov]

/-- The duplicate scan of `bookConference` succeeds exactly when the user
has a non-CANCELED table booking for the same conference. -/
theorem findDuplicate_isSome_iff (bks : List (String × Booking))
    (hnd : keysNodup bks) (u c : String) :
    (findDuplicate bks u c).isSome ↔
      ∃ id b, lookupA bks id = some b ∧ b.userId = u ∧
        b.conferenceName = c ∧ b.status ≠ BookingStatus.CANCELED := by
  unfold findDuplicate
  rw [List.find?_isSome]
  constructor
  · rintro ⟨p, hp, hpred⟩
    simp only [Bool.and_eq_true, decide_eq_true_eq] at hpred
    exact ⟨p.1, p.2, lookupA_eq_some_of_mem hnd hp, hpred.1.1, hpred.1.2,
      hpred.2⟩
  · rintro ⟨id, b, hb, hbu, hbc, hbs⟩
    refine ⟨(id, b), mem_of_lookupA_eq_some hb, ?_⟩
    simp [hbu, hbc, hbs]

/-- C7: for a registered user and a not-yet-started conference,
`bookConference` fails (and it fails with one of the two Conflict
messages) exactly when the user already has a non-CANCELED booking for
this same conference, or holds a CONFIRMED booking whose conference window
overlaps the requested one; WAITLISTED bookings of other conferences are
never a conflict, since the right-hand side only mentions CONFIRMED ones. -/
theorem C7_conflict_exactly_when (st : SystemState) (now : Int) (u c : String)
    (user : User) (conf : Conference)
    (hu : lookupA st.users u = some user)
    (hc : lookupA st.conferences c = some conf)
    (hns : conf.hasStarted now = false)
    (hnd : keysNodup st.bookings)
    (hndl : keysNodup user.bookingStatuses)
    (hsi : StatusIndexed st)
    (hll : LedgerLockstep st) :
    ((∃ m, (bookConference st now u c).1 = Res.rErr m) ↔
      ((∃ id b, lookupA st.bookings id = some b ∧ b.userId = u ∧
         b.conferenceName = c ∧ b.status ≠ BookingStatus.CANCELED) ∨
       (∃ id b cb, lookupA st.bookings id = some b ∧ b.userId = u ∧
         b.status = BookingStatus.CONFIRMED ∧
         lookupA st.conferences b.conferenceName = some cb ∧
         cb.isTimeOverlapping conf.startTime conf.endTime = true))) ∧
    (∀ m, (bookConference st now u c).1 = Res.rErr m →
      m = "User has a conflicting booking" ∨
      ∃ i, m = "User already has an active booking for this conference with ID: "
        ++ i) := by
  have hune : ¬(lookupA st.users u).isNone := by
    rw [Option.isNone_iff_eq_none, hu]
    simp
  cases hdup : findDuplicate st.bookings u c with
  | some p =>
    have hres : (bookConference st now u c).1 =
        Res.rErr ("User already has an active booking for this conference with ID: "
          ++ p.1) := by
      simp [bookConference, hune, hc, hns, hdup]
    constructor
    · rw [hres]
      constructor
      · intro _
        left
        have : (findDuplicate st.bookings u c).isSome := by
          rw [hdup]
          simp
        exact ((findDuplicate_isSome_iff st.bookings hnd u c).mp this)
      · intro _
        exact ⟨_, rfl⟩
    · intro m hm
      rw [hres] at hm
      right
      exact ⟨p.1, (Res.rErr.inj hm).symm⟩
  | none =>
    by_cases hcf : hasConflictingBooking st u conf = true
    · have hres : (bookConference st now u c).1 =
          Res.rErr "User has a conflicting booking" := by
        simp [bookConference, hune, hc, hns, hdup, hcf]
      constructor
      · rw [hres]
        constructor
        · intro _
          right
          exact (hasConflictingBooking_iff st u conf user hu hndl hsi hll).mp hcf
        · intro _
          exact ⟨_, rfl⟩
      · intro m hm
        rw [hres] at hm
        left
        exact (Res.rErr.inj hm).symm
    · have hcf2 : hasConflictingBooking st u conf = false := by
        simpa using hcf
      have hres : (bookConference st now u c).1 =
          Res.rId ((mkBooking u c now).bookingId) := by
        cases hdec : conf.decreaseAvailableSlots with
        | mk fst snd =>
          cases fst <;>
            simp [bookConference, hune, hc, hns, hdup, hcf2, hdec]
      constructor
      · rw [hres]
        constructor
        · rintro ⟨m, hm⟩
          exact absurd hm (by simp)
        · rintro (hd | hov)
          · exfalso
            have : (findDuplicate st.bookings u c).isSome :=
              (findDuplicate_isSome_iff st.bookings hnd u c).mpr hd
            rw [hdup] at this
            exact absurd this (by simp)
          · exfalso
            have := (hasConflictingBooking_iff st u conf user hu hndl hsi
              hll).mpr hov
            rw [this] at hcf2
            exact absurd hcf2 (by simp)
      · intro m hm
        rw [hres] at hm
        exact absurd hm (by simp)

/-- The state for the C7 witness: user u holds a CONFIRMED booking for C1
(100-200) and asks to book the overlapping, not yet started C2 (150-250). -/
def c7state : SystemState :=
  { conferences :=
      [("C1", { name := "C1", location := "NY", topics := [], startTime := 100,
                endTime := 200, totalSlots := 1, availableSlots := 0 }),
       ("C2", { name := "C2", location := "NY", topics := [], startTime := 150,
                endTime := 250, totalSlots := 1, availableSlots := 1 })]
    users := [("u", { userId := "u", interestedTopics := [],
                      bookingStatuses := [("b1", BookingStatus.CONFIRMED)] })]
    bookings :=
      [("b1", { bookingId := "b1", userId := "u", conferenceName := "C1",
                status := BookingStatus.CONFIRMED,
                confirmationDeadline := none })]
    waitlists := [] }

theorem c7state_statusIndexed : StatusIndexed c7state := by
  intro id b hb _
  have hmem := mem_of_lookupA_eq_some hb
  simp only [c7state, List.mem_singleton, Prod.ext_iff] at hmem
  obtain ⟨h1, h2⟩ := hmem
  subst h1
  subst h2
  exact ⟨{ userId := "u", interestedTopics := [],
           bookingStatuses := [("b1", BookingStatus.CONFIRMED)] },
         by decide, by decide⟩

theorem c7state_ledgerLockstep : LedgerLockstep c7state := by
  intro uid uu huu id s hs
  have hmemu := mem_of_lookupA_eq_some huu
  simp only [c7state, List.mem_singleton, Prod.ext_iff] at hmemu
  obtain ⟨h1, h2⟩ := hmemu
  subst h1
  subst h2
  have hmems := mem_of_lookupA_eq_some hs
  simp only [List.mem_singleton, Prod.ext_iff] at hmems
  obtain ⟨h3, h4⟩ := hmems
  subst h3
  subst h4
  refine ⟨by decide, ?_⟩
  refine ⟨{ bookingId := "b1", userId := "u", conferenceName := "C1",
            status := BookingStatus.CONFIRMED,
            confirmationDeadline := none }, by decide, by decide, by decide⟩

/-- Witness for C7 at `c7state`: the overlapping CONFIRMED booking makes
the book attempt fail with a Conflict error. -/
theorem C7_conflict_exactly_when_witness :
    ∃ m, (bookConference c7state 50 "u" "C2").1 = Res.rErr m :=
  (C7_conflict_exactly_when c7state 50 "u" "C2"
    { userId := "u", interestedTopics := [],
      bookingStatuses := [("b1", BookingStatus.CONFIRMED)] }
    { name := "C2", location := "NY", topics := [], startTime := 150,
      endTime := 250, totalSlots := 1, availableSlots := 1 }
    (by decide) (by decide) (by decide)
    (by unfold keysNodup; decide) (by unfold keysNodup; decide)
    c7state_statusIndexed c7state_ledgerLockstep).1.mpr
    (Or.inr ⟨"b1",
      { bookingId := "b1", userId := "u", conferenceName := "C1",
        status := BookingStatus.CONFIRMED, confirmationDeadline := none },
      { name := "C1", location := "NY", topics := [], startTime := 100,
        endTime := 200, totalSlots := 1, availableSlots := 0 },
      by decide, by decide, by decide, by decide, by decide⟩)

/-! ### Frame relations for invariant preservation -/

/-- The combined C2 invariant bundle. -/
def Inv2 (st : SystemState) : Prop :=
  NodupInv st ∧ WfConfs st ∧ LedgerNotCanceled st ∧ StatusIndexed st ∧
    BookingConfExists st ∧ NoConfirmedOverlap st

/-- One mutation step of the booking table that only stamps deadlines or
cancels entries: keys are unchanged and every entry keeps its user,
conference and (unless canceled) status. -/
def CoreStep (bks bks' : List (String × Booking)) : Prop :=
  keysOf bks' = keysOf bks ∧
  ∀ id b', lookupA bks' id = some b' →
    ∃ b, lookupA bks id = some b ∧ b'.userId = b.userId ∧
      b'.conferenceName = b.conferenceName ∧
      (b'.status = b.status ∨ b'.status = BookingStatus.CANCELED)

/-- One mutation step of the conference table that keeps keys and time
windows (only slot counters may move). -/
def ConfsSameShape (cs cs' : List (String × Conference)) : Prop :=
  keysOf cs' = keysOf cs ∧
  ∀ cn c', lookupA cs' cn = some c' →
    ∃ c, lookupA cs cn = some c ∧ c'.startTime = c.startTime ∧
      c'.endTime = c.endTime

theorem coreStep_refl (bks : List (String × Booking)) : CoreStep bks bks :=
  ⟨rfl, fun id b' h => ⟨b', h, rfl, rfl, Or.inl rfl⟩⟩

theorem CoreStep.trans {b1 b2 b3 : List (String × Booking)}
    (h12 : CoreStep b1 b2) (h23 : CoreStep b2 b3) : CoreStep b1 b3 := by
  refine ⟨h23.1.trans h12.1, ?_⟩
  intro id b' h
  obtain ⟨bm, hbm, hu2, hc2, hs2⟩ := h23.2 id b' h
  obtain ⟨b, hb, hu1, hc1, hs1⟩ := h12.2 id bm hbm
  refine ⟨b, hb, hu2.trans hu1, hc2.trans hc1, ?_⟩
  rcases hs2 with hs2 | hs2
  · rcases hs1 with hs1 | hs1
    · exact Or.inl (hs2.trans hs1)
    · exact Or.inr (hs2.trans hs1)
  · exact Or.inr hs2

theorem confsSameShape_refl (cs : List (String × Conference)) :
    ConfsSameShape cs cs :=
  ⟨rfl, fun cn c' h => ⟨c', h, rfl, rfl⟩⟩

theorem isTimeOverlapping_congr {c c' : Conference}
    (hs : c'.startTime = c.startTime) (he : c'.endTime = c.endTime)
    (s e : Int) : c'.isTimeOverlapping s e = c.isTimeOverlapping s e := by
  unfold Conference.isTimeOverlapping
  rw [hs, he]

theorem lookupA_isSome_of_keysOf_eq {α β : Type}
    {m : List (String × α)} {m' : List (String × β)}
    (h : keysOf m' = keysOf m) (k : String) :
    (lookupA m' k).isSome ↔ (lookupA m k).isSome := by
  rw [lookupA_isSome_iff, lookupA_isSome_iff, h]

/-- Frame lemma: a state step that keeps users, keeps conference keys and
windows, and performs a `CoreStep` on bookings preserves the whole of
`Inv2`, provided the new conference bounds and waitlist keys are still
well formed. -/
theorem inv2_frame (st st' : SystemState)
    (hcw : ConfsSameShape st.conferences st'.conferences)
    (hus : st'.users = st.users)
    (hbk : CoreStep st.bookings st'.bookings)
    (hwfc : WfConfs st')
    (hnodupW : keysNodup st'.waitlists)
    (hInv : Inv2 st) : Inv2 st' := by
  obtain ⟨⟨hnd1, hnd2, hnd3, hnd4, hnd5⟩, hwf, hlnc, hsi, hbce, hnco⟩ := hInv
  refine ⟨⟨?_, ?_, ?_, hnodupW, ?_⟩, hwfc, ?_, ?_, ?_, ?_⟩
  · unfold keysNodup
    rw [hcw.1]
    exact hnd1
  · rw [hus]
    exact hnd2
  · unfold keysNodup
    rw [hbk.1]
    exact hnd3
  · intro uid u hu
    rw [hus] at hu
    exact hnd5 uid u hu
  · intro uid u hu id s hs
    rw [hus] at hu
    exact hlnc uid u hu id s hs
  · intro id b' hb' hnc
    obtain ⟨b, hb, hbu, hbc, hbs⟩ := hbk.2 id b' hb'
    have hnc0 : b.status ≠ BookingStatus.CANCELED := by
      rcases hbs with hbs | hbs
      · rw [← hbs]
        exact hnc
      · exact absurd hbs hnc
    obtain ⟨u, hu, hsome⟩ := hsi id b hb hnc0
    rw [hbu, hus]
    exact ⟨u, hu, hsome⟩
  · intro id b' hb'
    obtain ⟨b, hb, hbu, hbc, hbs⟩ := hbk.2 id b' hb'
    rw [hbc]
    rw [lookupA_isSome_of_keysOf_eq hcw.1]
    exact hbce id b hb
  · intro id1 b1 id2 b2 hb1 hb2 hne hueq hs1 hs2 c1 c2 hc1 hc2
    obtain ⟨b1o, hb1o, hu1, hcn1, hst1⟩ := hbk.2 id1 b1 hb1
    obtain ⟨b2o, hb2o, hu2, hcn2, hst2⟩ := hbk.2 id2 b2 hb2
    have hs1o : b1o.status = BookingStatus.CONFIRMED := by
      rcases hst1 with h | h
      · rw [← h]
        exact hs1
      · rw [h] at hs1
        exact absurd hs1 (by simp)
    have hs2o : b2o.status = BookingStatus.CONFIRMED := by
      rcases hst2 with h | h
      · rw [← h]
        exact hs2
      · rw [h] at hs2
        exact absurd hs2 (by simp)
    rw [hcn1] at hc1
    rw [hcn2] at hc2
    obtain ⟨c1o, hc1o, hsw1, hew1⟩ := hcw.2 _ c1 hc1
    obtain ⟨c2o, hc2o, hsw2, hew2⟩ := hcw.2 _ c2 hc2
    rw [isTimeOverlapping_congr hsw1 hew1, hsw2, hew2]
    exact hnco id1 b1o id2 b2o hb1o hb2o hne
      (by rw [← hu1, ← hu2]; exact hueq) hs1o hs2o c1o c2o hc1o hc2o

theorem coreStep_evictUserFromQueue (u : String)
    (bks : List (String × Booking)) (q : List String) :
    CoreStep bks (evictUserFromQueue u bks q).2 := by
  refine ⟨evictUserFromQueue_keysOf u bks q, ?_⟩
  intro id b' h
  rw [evictUserFromQueue_lookup] at h
  cases hb : lookupA bks id with
  | none => rw [hb] at h; exact absurd h (by simp)
  | some b =>
    rw [hb] at h
    simp only [Option.some.injEq] at h
    by_cases hcond : id ∈ q ∧ b.userId = u
    · rw [if_pos hcond] at h
      exact ⟨b, rfl, by rw [← h], by rw [← h], Or.inr (by rw [← h])⟩
    · rw [if_neg hcond] at h
      exact ⟨b, rfl, by rw [← h], by rw [← h], Or.inl (by rw [← h])⟩

theorem coreStep_cancelAllQueue (bks : List (String × Booking))
    (q : List String) : CoreStep bks (cancelAllQueue bks q) := by
  refine ⟨cancelAllQueue_keysOf bks q, ?_⟩
  intro id b' h
  rw [cancelAllQueue_lookup] at h
  cases hb : lookupA bks id with
  | none => rw [hb] at h; exact absurd h (by simp)
  | some b =>
    rw [hb] at h
    simp only [Option.some.injEq] at h
    by_cases hcond : id ∈ q
    · rw [if_pos hcond] at h
      exact ⟨b, rfl, by rw [← h], by rw [← h], Or.inr (by rw [← h])⟩
    · rw [if_neg hcond] at h
      exact ⟨b, rfl, by rw [← h], by rw [← h], Or.inl (by rw [← h])⟩

theorem processWaitlist_bookings_eq (st : SystemState) (now : Int)
    (cn : String) :
    (processWaitlist st now cn).bookings =
      match (getWaitlist st cn).head? with
      | none => st.bookings
      | some nid =>
        match lookupA st.bookings nid with
        | none => st.bookings
        | some b => setA st.bookings nid (setWaitlistConfirmationDeadline now b) :=
  rfl

theorem processWaitlist_conferences (st : SystemState) (now : Int)
    (cn : String) : (processWaitlist st now cn).conferences = st.conferences :=
  rfl

theorem processWaitlist_users (st : SystemState) (now : Int)
    (cn : String) : (processWaitlist st now cn).users = st.users :=
  rfl

theorem processWaitlist_waitlists (st : SystemState) (now : Int)
    (cn : String) : (processWaitlist st now cn).waitlists = st.waitlists :=
  rfl

theorem coreStep_processWaitlist (st : SystemState) (now : Int)
    (cn : String) : CoreStep st.bookings (processWaitlist st now cn).bookings := by
  rw [processWaitlist_bookings_eq]
  cases (getWaitlist st cn).head? with
  | none => exact coreStep_refl _
  | some nid =>
    show CoreStep st.bookings
      (match lookupA st.bookings nid with
        | none => st.bookings
        | some b => setA st.bookings nid (setWaitlistConfirmationDeadline now b))
    cases hb : lookupA st.bookings nid with
    | none => exact coreStep_refl _
    | some b =>
      show CoreStep st.bookings
        (setA st.bookings nid (setWaitlistConfirmationDeadline now b))
      constructor
      · rw [keysOf_setA]
        have : nid ∈ keysOf st.bookings := by
          rw [← lookupA_isSome_iff, hb]
          rfl
        simp [this]
      · intro id b' h
        by_cases hid : id = nid
        · subst hid
          rw [lookupA_setA_self] at h
          cases h
          exact ⟨b, hb, rfl, rfl, Or.inl rfl⟩
        · rw [lookupA_setA_ne _ _ _ _ hid] at h
          exact ⟨b', h, rfl, rfl, Or.inl rfl⟩

theorem setBookingStatus_bookings_eq (st : SystemState) (id : String)
    (s : BookingStatus) :
    (setBookingStatus st id s).bookings =
      match lookupA st.bookings id with
      | some b => setA st.bookings id { b with status := s }
      | none => st.bookings :=
  rfl

theorem setBookingStatus_conferences (st : SystemState) (id : String)
    (s : BookingStatus) :
    (setBookingStatus st id s).conferences = st.conferences :=
  rfl

theorem setBookingStatus_users (st : SystemState) (id : String)
    (s : BookingStatus) : (setBookingStatus st id s).users = st.users :=
  rfl

theorem setBookingStatus_waitlists (st : SystemState) (id : String)
    (s : BookingStatus) : (setBookingStatus st id s).waitlists = st.waitlists :=
  rfl

theorem coreStep_setBookingStatus_canceled (st : SystemState) (id : String) :
    CoreStep st.bookings
      (setBookingStatus st id BookingStatus.CANCELED).bookings := by
  rw [setBookingStatus_bookings_eq]
  cases hb : lookupA st.bookings id with
  | none => exact coreStep_refl _
  | some b =>
    show CoreStep st.bookings
      (setA st.bookings id { b with status := BookingStatus.CANCELED })
    constructor
    · rw [keysOf_setA]
      have : id ∈ keysOf st.bookings := by
        rw [← lookupA_isSome_iff, hb]
        rfl
      simp [this]
    · intro id2 b' h
      by_cases hid : id2 = id
      · subst hid
        rw [lookupA_setA_self] at h
        cases h
        exact ⟨b, hb, rfl, rfl, Or.inr rfl⟩
      · rw [lookupA_setA_ne _ _ _ _ hid] at h
        exact ⟨b', h, rfl, rfl, Or.inl rfl⟩

theorem coreStep_foldl_evictConf (u : String) (l : List String)
    (s : SystemState) : CoreStep s.bookings (l.foldl (evictConf u) s).bookings := by
  induction l generalizing s with
  | nil => exact coreStep_refl _
  | cons cn rest ih =>
    rw [List.foldl_cons]
    refine CoreStep.trans ?_ (ih (evictConf u s cn))
    show CoreStep s.bookings (evictConf u s cn).bookings
    exact coreStep_evictUserFromQueue u s.bookings (getWaitlist s cn)

theorem keysNodup_foldl_evictConf_waitlists (u : String) (l : List String)
    (s : SystemState) (h : keysNodup s.waitlists) :
    keysNodup (l.foldl (evictConf u) s).waitlists := by
  induction l generalizing s with
  | nil => exact h
  | cons cn rest ih =>
    rw [List.foldl_cons]
    refine ih _ ?_
    exact keysNodup_setA cn _ h

theorem mkConference_ok {n l : String} {t : List String} {s e : Int}
    {sl : Int} {c : Conference} (h : mkConference n l t s e sl = .ok c) :
    c.name = n ∧ c.startTime = s ∧ c.endTime = e ∧ c.totalSlots = sl ∧
      c.availableSlots = sl ∧ s < e ∧ 0 < sl := by
  unfold mkConference at h
  split at h
  · exact absurd h (by simp)
  · split at h
    · exact absurd h (by simp)
    · split at h
      · exact absurd h (by simp)
      · split at h
        · exact absurd h (by simp)
        · rename_i h1 h2 h3 h4
          cases h
          refine ⟨rfl, rfl, rfl, rfl, rfl, by omega, by omega⟩

theorem inv2_addConference (st : SystemState) (n l : String)
    (t : List String) (s e : Int) (sl : Int) (hInv : Inv2 st) :
    Inv2 (addConference st n l t s e sl).2 := by
  unfold addConference
  by_cases hex : (lookupA st.conferences n).isSome
  · simpa [hex]
  · rw [if_neg hex]
    cases hmk : mkConference n l t s e sl with
    | error m => exact hInv
    | ok c =>
      obtain ⟨hname, hstart, hend, htot, havail, hlt, hpos⟩ :=
        mkConference_ok hmk
      have hnone : lookupA st.conferences n = none := by
        cases hl : lookupA st.conferences n
        · rfl
        · rw [hl] at hex
          exact absurd (by simp : (some _).isSome = true) hex
      obtain ⟨⟨hnd1, hnd2, hnd3, hnd4, hnd5⟩, hwf, hlnc, hsi, hbce, hnco⟩ :=
        hInv
      have hlook : ∀ cn, cn ≠ n →
          lookupA (emplaceA st.conferences n c) cn = lookupA st.conferences cn :=
        fun cn hne => lookupA_emplaceA_ne _ _ _ _ hne
      have hpres : ∀ cn, (lookupA st.conferences cn).isSome →
          lookupA (emplaceA st.conferences n c) cn = lookupA st.conferences cn := by
        intro cn hs
        have hne : cn ≠ n := by
          intro he
          rw [he, hnone] at hs
          exact absurd hs (by simp)
        exact hlook cn hne
      refine ⟨⟨keysNodup_emplaceA n c hnd1, hnd2, hnd3, hnd4, hnd5⟩, ?_, hlnc,
        hsi, ?_, ?_⟩
      · intro cn c2 hc2
        by_cases hne : cn = n
        · subst hne
          rw [lookupA_emplaceA_self _ _ _ hnone] at hc2
          cases hc2
          rw [hstart, hend, htot, havail]
          exact ⟨hlt, hpos, by omega, by omega⟩
        · rw [hlook cn hne] at hc2
          exact hwf cn c2 hc2
      · intro id b hb
        have hs := hbce id b hb
        rw [hpres _ hs]
        exact hs
      · intro id1 b1 id2 b2 hb1 hb2 hne hueq hs1 hs2 c1 c2 hc1 hc2
        rw [hpres _ (hbce id1 b1 hb1)] at hc1
        rw [hpres _ (hbce id2 b2 hb2)] at hc2
        exact hnco id1 b1 id2 b2 hb1 hb2 hne hueq hs1 hs2 c1 c2 hc1 hc2

theorem inv2_addUser (st : SystemState) (uid : String) (t : List String)
    (hInv : Inv2 st) : Inv2 (addUser st uid t).2 := by
  unfold addUser
  by_cases hex : (lookupA st.users uid).isSome
  · simpa [hex]
  · rw [if_neg hex]
    cases hmk : mkUser uid t with
    | error m => exact hInv
    | ok u =>
      have hnone : lookupA st.users uid = none := by
        cases hl : lookupA st.users uid
        · rfl
        · rw [hl] at hex
          exact absurd (by simp : (some _).isSome = true) hex
      have hu : u = ⟨uid, t, []⟩ := by
        unfold mkUser at hmk
        split at hmk
        · exact absurd hmk (by simp)
        · cases hmk
          rfl
      obtain ⟨⟨hnd1, hnd2, hnd3, hnd4, hnd5⟩, hwf, hlnc, hsi, hbce, hnco⟩ :=
        hInv
      have hlook : ∀ k, k ≠ uid →
          lookupA (emplaceA st.users uid u) k = lookupA st.users k :=
        fun k hne => lookupA_emplaceA_ne _ _ _ _ hne
      refine ⟨⟨hnd1, keysNodup_emplaceA uid u hnd2, hnd3, hnd4, ?_⟩, hwf, ?_,
        ?_, hbce, hnco⟩
      · intro k u2 hu2
        by_cases hne : k = uid
        · subst hne
          rw [lookupA_emplaceA_self _ _ _ hnone] at hu2
          cases hu2
          rw [hu]
          exact List.nodup_nil
        · rw [hlook k hne] at hu2
          exact hnd5 k u2 hu2
      · intro k u2 hu2 id s hs
        by_cases hne : k = uid
        · subst hne
          rw [lookupA_emplaceA_self _ _ _ hnone] at hu2
          cases hu2
          rw [hu] at hs
          exact absurd hs (by simp [lookupA])
        · rw [hlook k hne] at hu2
          exact hlnc k u2 hu2 id s hs
      · intro id b hb hnc
        obtain ⟨u2, hu2, hsome⟩ := hsi id b hb hnc
        have hne : b.userId ≠ uid := by
          intro he
          rw [he, hnone] at hu2
          exact Option.noConfusion hu2
        rw [hlook _ hne]
        exact ⟨u2, hu2, hsome⟩

/-- When the conflict scan reports false, no CONFIRMED table booking of the
user overlaps the probed conference's window. -/
theorem hasConflicting_false_no_overlap (st : SystemState) (u : String)
    (conf : Conference)
    (hcf : hasConflictingBooking st u conf = false)
    (hsi : StatusIndexed st) (hlnc : LedgerNotCanceled st) :
    ∀ id b cb, lookupA st.bookings id = some b → b.userId = u →
      b.status = BookingStatus.CONFIRMED →
      lookupA st.conferences b.conferenceName = some cb →
      cb.isTimeOverlapping conf.startTime conf.endTime = false := by
  intro id b cb hb hbu hbs hcb
  by_contra hov
  have hov2 : cb.isTimeOverlapping conf.startTime conf.endTime = true := by
    cases h : cb.isTimeOverlapping conf.startTime conf.endTime
    · exact absurd h hov
    · rfl
  obtain ⟨uu, huu, hsome⟩ := hsi id b hb (by rw [hbs]; simp)
  cases hsl : lookupA uu.bookingStatuses id with
  | none => rw [hsl] at hsome; exact absurd hsome (by simp)
  | some s =>
    have hsnc : s ≠ BookingStatus.CANCELED := hlnc b.userId uu huu id s hsl
    have hmem : id ∈ uu.getActiveBookings :=
      (mem_getActiveBookings uu id).mpr ⟨s, mem_of_lookupA_eq_some hsl, hsnc⟩
    have : hasConflictingBooking st u conf = true := by
      unfold hasConflictingBooking
      rw [← hbu, huu]
      rw [List.any_eq_true]
      refine ⟨id, hmem, ?_⟩
      simp only [hb]
      simp [hbs, hcb, hov2]
    rw [this] at hcf
    exact absurd hcf (by simp)

theorem decrease_true {c c2 : Conference}
    (h : c.decreaseAvailableSlots = (true, c2)) :
    c2 = { c with availableSlots := c.availableSlots - 1 } ∧
      c.availableSlots > 0 := by
  unfold Conference.decreaseAvailableSlots at h
  split at h
  · cases h
    exact ⟨rfl, by assumption⟩
  · exact absurd h (by simp)

theorem decrease_false {c c2 : Conference}
    (h : c.decreaseAvailableSlots = (false, c2)) :
    c2 = c ∧ ¬(c.availableSlots > 0) := by
  unfold Conference.decreaseAvailableSlots at h
  split at h
  · exact absurd h (by simp)
  · cases h
    exact ⟨rfl, by assumption⟩

theorem wfconfs_of_confs_eq {st st' : SystemState}
    (h : st'.conferences = st.conferences) (hwf : WfConfs st) : WfConfs st' := by
  intro cn c hc
  rw [h] at hc
  exact hwf cn c hc

/-- A ledger write of a non-CANCELED status preserves `Inv2`. -/
theorem inv2_ledgerAdd (st : SystemState) (u bid : String)
    (s : BookingStatus) (hs : s ≠ BookingStatus.CANCELED)
    (hInv : Inv2 st) : Inv2 (ledgerAdd st u bid s) := by
  obtain ⟨⟨hnd1, hnd2, hnd3, hnd4, hnd5⟩, hwf, hlnc, hsi, hbce, hnco⟩ := hInv
  unfold ledgerAdd
  cases hug : lookupA st.users u with
  | none => exact ⟨⟨hnd1, hnd2, hnd3, hnd4, hnd5⟩, hwf, hlnc, hsi, hbce, hnco⟩
  | some user =>
    have hulook : ∀ k, lookupA (setA st.users u (user.addBooking bid s)) k =
        if k = u then some (user.addBooking bid s) else lookupA st.users k := by
      intro k
      by_cases hk : k = u
      · subst hk
        rw [if_pos rfl, lookupA_setA_self]
      · rw [if_neg hk, lookupA_setA_ne _ _ _ _ hk]
    refine ⟨⟨hnd1, keysNodup_setA u _ hnd2, hnd3, hnd4, ?_⟩, hwf, ?_, ?_,
      hbce, hnco⟩
    · intro k u2 hu2
      rw [hulook] at hu2
      by_cases hk : k = u
      · rw [if_pos hk] at hu2
        cases hu2
        exact keysNodup_setA bid s (hnd5 u user hug)
      · rw [if_neg hk] at hu2
        exact hnd5 k u2 hu2
    · intro k u2 hu2 id s2 hs2
      rw [hulook] at hu2
      by_cases hk : k = u
      · rw [if_pos hk] at hu2
        cases hu2
        by_cases hid : id = bid
        · subst hid
          unfold User.addBooking at hs2
          rw [lookupA_setA_self] at hs2
          cases hs2
          exact hs
        · unfold User.addBooking at hs2
          rw [lookupA_setA_ne _ _ _ _ hid] at hs2
          exact hlnc u user hug id s2 hs2
      · rw [if_neg hk] at hu2
        exact hlnc k u2 hu2 id s2 hs2
    · intro id b hb hnc
      obtain ⟨u2, hu2, hsome⟩ := hsi id b hb hnc
      rw [hulook]
      by_cases hk : b.userId = u
      · rw [if_pos hk]
        refine ⟨user.addBooking bid s, rfl, ?_⟩
        rw [hk, hug] at hu2
        have he := Option.some.inj hu2
        subst he
        by_cases hid : id = bid
        · subst hid
          unfold User.addBooking
          rw [lookupA_setA_self]
          rfl
        · unfold User.addBooking
          show (lookupA (setA user.bookingStatuses bid s) id).isSome
          rw [lookupA_setA_ne _ _ _ _ hid]
          exact hsome
      · rw [if_neg hk]
        exact ⟨u2, hu2, hsome⟩

theorem inv2_insert_confirmed (st : SystemState) (bid : String) (nb : Booking)
    (hInv : Inv2 st)
    (hfresh : lookupA st.bookings bid = none)
    (hnbs : nb.status = BookingStatus.CONFIRMED)
    (husr : (lookupA st.users nb.userId).isSome)
    (hcex : (lookupA st.conferences nb.conferenceName).isSome)
    (hnoov : ∀ id b cb cn2, lookupA st.bookings id = some b →
      b.userId = nb.userId → b.status = BookingStatus.CONFIRMED →
      lookupA st.conferences b.conferenceName = some cb →
      lookupA st.conferences nb.conferenceName = some cn2 →
      cb.isTimeOverlapping cn2.startTime cn2.endTime = false) :
    Inv2 (ledgerAdd { st with bookings := emplaceA st.bookings bid nb }
      nb.userId bid BookingStatus.CONFIRMED) := by
  obtain ⟨⟨hnd1, hnd2, hnd3, hnd4, hnd5⟩, hwf, hlnc, hsi, hbce, hnco⟩ := hInv
  have hbklook : ∀ id, lookupA (emplaceA st.bookings bid nb) id =
      if id = bid then some nb else lookupA st.bookings id := by
    intro id
    by_cases hid : id = bid
    · subst hid
      rw [if_pos rfl, lookupA_emplaceA_self _ _ _ hfresh]
    · rw [if_neg hid, lookupA_emplaceA_ne _ _ _ _ hid]
  cases hug : lookupA st.users nb.userId with
  | none => rw [hug] at husr; exact absurd husr (by simp)
  | some user =>
    have hfin : ledgerAdd { st with bookings := emplaceA st.bookings bid nb }
        nb.userId bid BookingStatus.CONFIRMED =
        { st with
          bookings := emplaceA st.bookings bid nb,
          users := setA st.users nb.userId
            (user.addBooking bid BookingStatus.CONFIRMED) } := by
      unfold ledgerAdd
      show (match lookupA st.users nb.userId with
        | some u2 => _
        | none => _) = _
      rw [hug]
    rw [hfin]
    have hulook : ∀ k, lookupA (setA st.users nb.userId
        (user.addBooking bid BookingStatus.CONFIRMED)) k =
        if k = nb.userId then some (user.addBooking bid BookingStatus.CONFIRMED)
        else lookupA st.users k := by
      intro k
      by_cases hk : k = nb.userId
      · subst hk
        rw [if_pos rfl, lookupA_setA_self]
      · rw [if_neg hk, lookupA_setA_ne _ _ _ _ hk]
    refine ⟨⟨hnd1, keysNodup_setA _ _ hnd2, keysNodup_emplaceA _ _ hnd3, hnd4,
      ?_⟩, hwf, ?_, ?_, ?_, ?_⟩
    · intro k u2 hu2
      rw [hulook] at hu2
      by_cases hk : k = nb.userId
      · rw [if_pos hk] at hu2
        cases hu2
        exact keysNodup_setA bid _ (hnd5 nb.userId user hug)
      · rw [if_neg hk] at hu2
        exact hnd5 k u2 hu2
    · intro k u2 hu2 id s2 hs2
      rw [hulook] at hu2
      by_cases hk : k = nb.userId
      · rw [if_pos hk] at hu2
        cases hu2
        by_cases hid : id = bid
        · subst hid
          unfold User.addBooking at hs2
          rw [lookupA_setA_self] at hs2
          cases hs2
          simp
        · unfold User.addBooking at hs2
          rw [lookupA_setA_ne _ _ _ _ hid] at hs2
          exact hlnc nb.userId user hug id s2 hs2
      · rw [if_neg hk] at hu2
        exact hlnc k u2 hu2 id s2 hs2
    · intro id b hb hnc
      show ∃ u2, lookupA (setA st.users nb.userId
        (user.addBooking bid BookingStatus.CONFIRMED)) b.userId = some u2 ∧
        (lookupA u2.bookingStatuses id).isSome
      rw [hbklook] at hb
      by_cases hid : id = bid
      · rw [if_pos hid] at hb
        cases hb
        rw [hulook, if_pos rfl]
        refine ⟨_, rfl, ?_⟩
        subst hid
        unfold User.addBooking
        rw [lookupA_setA_self]
        rfl
      · rw [if_neg hid] at hb
        obtain ⟨u2, hu2, hsome⟩ := hsi id b hb hnc
        rw [hulook]
        by_cases hk : b.userId = nb.userId
        · rw [if_pos hk]
          refine ⟨_, rfl, ?_⟩
          rw [hk, hug] at hu2
          have he := Option.some.inj hu2
          subst he
          unfold User.addBooking
          show (lookupA (setA user.bookingStatuses bid
            BookingStatus.CONFIRMED) id).isSome
          rw [lookupA_setA_ne _ _ _ _ hid]
          exact hsome
        · rw [if_neg hk]
          exact ⟨u2, hu2, hsome⟩
    · intro id b hb
      rw [hbklook] at hb
      by_cases hid : id = bid
      · rw [if_pos hid] at hb
        cases hb
        exact hcex
      · rw [if_neg hid] at hb
        exact hbce id b hb
    · intro id1 b1 id2 b2 hb1 hb2 hne hueq hs1 hs2 c1 c2 hc1 hc2
      show c1.isTimeOverlapping c2.startTime c2.endTime = false
      rw [hbklook] at hb1 hb2
      by_cases hid1 : id1 = bid
      · rw [if_pos hid1] at hb1
        cases hb1
        have hid2 : ¬(id2 = bid) := fun he => hne (hid1.trans he.symm)
        rw [if_neg hid2] at hb2
        rw [overlap_symm]
        exact hnoov id2 b2 c2 c1 hb2 hueq.symm hs2 hc2 hc1
      · rw [if_neg hid1] at hb1
        by_cases hid2 : id2 = bid
        · rw [if_pos hid2] at hb2
          cases hb2
          exact hnoov id1 b1 c1 c2 hb1 hueq hs1 hc1 hc2
        · rw [if_neg hid2] at hb2
          exact hnco id1 b1 id2 b2 hb1 hb2 hne hueq hs1 hs2 c1 c2 hc1 hc2

theorem inv2_insert_waitlisted (st : SystemState) (bid : String)
    (nb : Booking) (hInv : Inv2 st)
    (hfresh : lookupA st.bookings bid = none)
    (hnbs : nb.status = BookingStatus.WAITLISTED)
    (husr : (lookupA st.users nb.userId).isSome)
    (hcex : (lookupA st.conferences nb.conferenceName).isSome) :
    Inv2 (ledgerAdd { st with bookings := emplaceA st.bookings bid nb }
      nb.userId bid BookingStatus.WAITLISTED) := by
  obtain ⟨⟨hnd1, hnd2, hnd3, hnd4, hnd5⟩, hwf, hlnc, hsi, hbce, hnco⟩ := hInv
  have hbklook : ∀ id, lookupA (emplaceA st.bookings bid nb) id =
      if id = bid then some nb else lookupA st.bookings id := by
    intro id
    by_cases hid : id = bid
    · subst hid
      rw [if_pos rfl, lookupA_emplaceA_self _ _ _ hfresh]
    · rw [if_neg hid, lookupA_emplaceA_ne _ _ _ _ hid]
  cases hug : lookupA st.users nb.userId with
  | none => rw [hug] at husr; exact absurd husr (by simp)
  | some user =>
    have hfin : ledgerAdd { st with bookings := emplaceA st.bookings bid nb }
        nb.userId bid BookingStatus.WAITLISTED =
        { st with
          bookings := emplaceA st.bookings bid nb,
          users := setA st.users nb.userId
            (user.addBooking bid BookingStatus.WAITLISTED) } := by
      unfold ledgerAdd
      show (match lookupA st.users nb.userId with
        | some u2 => _
        | none => _) = _
      rw [hug]
    rw [hfin]
    have hulook : ∀ k, lookupA (setA st.users nb.userId
        (user.addBooking bid BookingStatus.WAITLISTED)) k =
        if k = nb.userId then some (user.addBooking bid BookingStatus.WAITLISTED)
        else lookupA st.users k := by
      intro k
      by_cases hk : k = nb.userId
      · subst hk
        rw [if_pos rfl, lookupA_setA_self]
      · rw [if_neg hk, lookupA_setA_ne _ _ _ _ hk]
    refine ⟨⟨hnd1, keysNodup_setA _ _ hnd2, keysNodup_emplaceA _ _ hnd3, hnd4,
      ?_⟩, hwf, ?_, ?_, ?_, ?_⟩
    · intro k u2 hu2
      rw [hulook] at hu2
      by_cases hk : k = nb.userId
      · rw [if_pos hk] at hu2
        cases hu2
        exact keysNodup_setA bid _ (hnd5 nb.userId user hug)
      · rw [if_neg hk] at hu2
        exact hnd5 k u2 hu2
    · intro k u2 hu2 id s2 hs2
      rw [hulook] at hu2
      by_cases hk : k = nb.userId
      · rw [if_pos hk] at hu2
        cases hu2
        by_cases hid : id = bid
        · subst hid
          unfold User.addBooking at hs2
          rw [lookupA_setA_self] at hs2
          cases hs2
          simp
        · unfold User.addBooking at hs2
          rw [lookupA_setA_ne _ _ _ _ hid] at hs2
          exact hlnc nb.userId user hug id s2 hs2
      · rw [if_neg hk] at hu2
        exact hlnc k u2 hu2 id s2 hs2
    · intro id b hb hnc
      show ∃ u2, lookupA (setA st.users nb.userId
        (user.addBooking bid BookingStatus.WAITLISTED)) b.userId = some u2 ∧
        (lookupA u2.bookingStatuses id).isSome
      rw [hbklook] at hb
      by_cases hid : id = bid
      · rw [if_pos hid] at hb
        cases hb
        rw [hulook, if_pos rfl]
        refine ⟨_, rfl, ?_⟩
        subst hid
        unfold User.addBooking
        rw [lookupA_setA_self]
        rfl
      · rw [if_neg hid] at hb
        obtain ⟨u2, hu2, hsome⟩ := hsi id b hb hnc
        rw [hulook]
        by_cases hk : b.userId = nb.userId
        · rw [if_pos hk]
          refine ⟨_, rfl, ?_⟩
          rw [hk, hug] at hu2
          have he := Option.some.inj hu2
          subst he
          unfold User.addBooking
          show (lookupA (setA user.bookingStatuses bid
            BookingStatus.WAITLISTED) id).isSome
          rw [lookupA_setA_ne _ _ _ _ hid]
          exact hsome
        · rw [if_neg hk]
          exact ⟨u2, hu2, hsome⟩
    · intro id b hb
      rw [hbklook] at hb
      by_cases hid : id = bid
      · rw [if_pos hid] at hb
        cases hb
        exact hcex
      · rw [if_neg hid] at hb
        exact hbce id b hb
    · intro id1 b1 id2 b2 hb1 hb2 hne hueq hs1 hs2 c1 c2 hc1 hc2
      show c1.isTimeOverlapping c2.startTime c2.endTime = false
      rw [hbklook] at hb1 hb2
      by_cases hid1 : id1 = bid
      · rw [if_pos hid1] at hb1
        cases hb1
        rw [hnbs] at hs1
        exact absurd hs1 (by simp)
      · rw [if_neg hid1] at hb1
        by_cases hid2 : id2 = bid
        · rw [if_pos hid2] at hb2
          cases hb2
          rw [hnbs] at hs2
          exact absurd hs2 (by simp)
        · rw [if_neg hid2] at hb2
          exact hnco id1 b1 id2 b2 hb1 hb2 hne hueq hs1 hs2 c1 c2 hc1 hc2

theorem confsSameShape_setA (cs : List (String × Conference)) (c : String)
    (c0 c2 : Conference) (hc : lookupA cs c = some c0)
    (hs : c2.startTime = c0.startTime) (he : c2.endTime = c0.endTime) :
    ConfsSameShape cs (setA cs c c2) := by
  constructor
  · rw [keysOf_setA]
    have : c ∈ keysOf cs := by
      rw [← lookupA_isSome_iff, hc]
      rfl
    simp [this]
  · intro cn c' h
    by_cases hcn : cn = c
    · subst hcn
      rw [lookupA_setA_self] at h
      cases h
      exact ⟨c0, hc, hs, he⟩
    · rw [lookupA_setA_ne _ _ _ _ hcn] at h
      exact ⟨c', h, rfl, rfl⟩

theorem coreStep_rfow (s : SystemState) (u : String) (bc : Conference) :
    CoreStep s.bookings (removeFromOverlappingWaitlists s u bc).bookings :=
  coreStep_foldl_evictConf u _ s

theorem keysNodup_rfow_waitlists (s : SystemState) (u : String)
    (bc : Conference) (h : keysNodup s.waitlists) :
    keysNodup (removeFromOverlappingWaitlists s u bc).waitlists :=
  keysNodup_foldl_evictConf_waitlists u _ s h

theorem inv2_book_confirmed (st : SystemState) (now : Int) (u c : String)
    (conference conference2 : Conference)
    (hInv : Inv2 st)
    (husr : (lookupA st.users u).isSome)
    (hcl : lookupA st.conferences c = some conference)
    (hcf : hasConflictingBooking st u conference = false)
    (hdec : conference.decreaseAvailableSlots = (true, conference2)) :
    Inv2
      (ledgerAdd
        { removeFromOverlappingWaitlists
            { st with conferences := setA st.conferences c conference2 }
            u conference2 with
          bookings := emplaceA
            (removeFromOverlappingWaitlists
              { st with conferences := setA st.conferences c conference2 }
              u conference2).bookings
            (mkBooking u c now).bookingId
            { mkBooking u c now with status := BookingStatus.CONFIRMED } }
        u (mkBooking u c now).bookingId BookingStatus.CONFIRMED) := by
  obtain ⟨hc2eq, hcpos⟩ := decrease_true hdec
  set st1 : SystemState :=
    { st with conferences := setA st.conferences c conference2 } with hst1
  set st2 : SystemState := removeFromOverlappingWaitlists st1 u conference2
    with hst2
  have hshape1 : ConfsSameShape st.conferences st1.conferences :=
    confsSameShape_setA st.conferences c conference conference2 hcl
      (by rw [hc2eq]) (by rw [hc2eq])
  have hwf1 : WfConfs st1 := by
    intro cn c' h
    show c'.startTime < c'.endTime ∧ _
    by_cases hcn : cn = c
    · subst hcn
      have h2 : lookupA (setA st.conferences cn conference2) cn = some c' := h
      rw [lookupA_setA_self] at h2
      cases h2
      obtain ⟨hw1, hw2, hw3, hw4⟩ := (hInv.2.1) cn conference hcl
      rw [hc2eq]
      refine ⟨hw1, hw2, ?_, ?_⟩
      · show (0 : Int) ≤ conference.availableSlots - 1
        omega
      · show conference.availableSlots - 1 ≤ conference.totalSlots
        omega
    · have h2 : lookupA (setA st.conferences c conference2) cn = some c' := h
      rw [lookupA_setA_ne _ _ _ _ hcn] at h2
      exact (hInv.2.1) cn c' h2
  have hInv1 : Inv2 st1 :=
    inv2_frame st st1 hshape1 rfl (coreStep_refl _) hwf1 hInv.1.2.2.2.1 hInv
  have hInv2 : Inv2 st2 := by
    refine inv2_frame st1 st2 ?_ ?_ ?_ ?_ ?_ hInv1
    · rw [hst2, removeFromOverlappingWaitlists_conferences]
      exact confsSameShape_refl _
    · rw [hst2, removeFromOverlappingWaitlists_users]
    · rw [hst2]
      exact coreStep_rfow st1 u conference2
    · refine wfconfs_of_confs_eq ?_ hwf1
      rw [hst2, removeFromOverlappingWaitlists_conferences]
    · rw [hst2]
      exact keysNodup_rfow_waitlists st1 u conference2 hInv1.1.2.2.2.1
  have hst2u : st2.users = st.users := by
    rw [hst2, removeFromOverlappingWaitlists_users]
  have hst2c : st2.conferences = setA st.conferences c conference2 := by
    rw [hst2, removeFromOverlappingWaitlists_conferences]
  set bid := (mkBooking u c now).bookingId with hbid
  set nb := { mkBooking u c now with status := BookingStatus.CONFIRMED }
    with hnb
  have hnbu : nb.userId = u := rfl
  have hnbc : nb.conferenceName = c := rfl
  cases hex : lookupA st2.bookings bid with
  | some bold =>
    have hemp : emplaceA st2.bookings bid nb = st2.bookings :=
      emplaceA_of_isSome _ _ _ (by rw [hex]; rfl)
    have : ({ st2 with bookings := emplaceA st2.bookings bid nb }) = st2 := by
      rw [hemp]
    rw [this]
    exact inv2_ledgerAdd st2 u bid BookingStatus.CONFIRMED (by simp) hInv2
  | none =>
    have happ := inv2_insert_confirmed st2 bid nb hInv2 hex rfl
      (by rw [hnbu, hst2u]; exact husr)
      (by
        rw [hnbc, hst2c, lookupA_setA_self]
        rfl)
      ?_
    · exact happ
    · intro id b cb cn2 hb hbu hbs hcb hcn2
      rw [hnbc, hst2c, lookupA_setA_self] at hcn2
      cases hcn2
      obtain ⟨b0, hb0, hbu0, hbc0, hbs0⟩ := (coreStep_rfow st1 u conference2).2
        id b hb
      have hbs0c : b0.status = BookingStatus.CONFIRMED := by
        rcases hbs0 with h | h
        · rw [← h]; exact hbs
        · rw [h] at hbs; exact absurd hbs (by simp)
      rw [hst2c] at hcb
      by_cases hbcn : b.conferenceName = c
      · rw [hbcn, lookupA_setA_self] at hcb
        cases hcb
        have hov := hasConflicting_false_no_overlap st u conference hcf
          hInv.2.2.2.1 hInv.2.2.1 id b0 conference
          hb0
          (by rw [← hbu0]; exact hbu)
          hbs0c
          (by rw [← hbc0, hbcn]; exact hcl)
        rw [isTimeOverlapping_congr (by rw [hc2eq]) (by rw [hc2eq])]
        have hwsame : conference2.startTime = conference.startTime ∧
            conference2.endTime = conference.endTime := by
          rw [hc2eq]; exact ⟨rfl, rfl⟩
        rw [hwsame.1, hwsame.2]
        exact hov
      · rw [lookupA_setA_ne _ _ _ _ hbcn] at hcb
        have hov := hasConflicting_false_no_overlap st u conference hcf
          hInv.2.2.2.1 hInv.2.2.1 id b0 cb
          hb0
          (by rw [← hbu0]; exact hbu)
          hbs0c
          (by rw [← hbc0]; exact hcb)
        have hwsame : conference2.startTime = conference.startTime ∧
            conference2.endTime = conference.endTime := by
          rw [hc2eq]; exact ⟨rfl, rfl⟩
        rw [hwsame.1, hwsame.2]
        exact hov

theorem inv2_book_waitlisted (st : SystemState) (now : Int) (u c : String)
    (hInv : Inv2 st)
    (husr : (lookupA st.users u).isSome)
    (hcex : (lookupA st.conferences c).isSome) :
    Inv2
      (ledgerAdd
        { setWaitlist st c
            (getWaitlist st c ++ [(mkBooking u c now).bookingId]) with
          bookings := emplaceA
            (setWaitlist st c
              (getWaitlist st c ++ [(mkBooking u c now).bookingId])).bookings
            (mkBooking u c now).bookingId
            { mkBooking u c now with status := BookingStatus.WAITLISTED } }
        u (mkBooking u c now).bookingId BookingStatus.WAITLISTED) := by
  set bid := (mkBooking u c now).bookingId with hbid
  set nb := { mkBooking u c now with status := BookingStatus.WAITLISTED }
    with hnb
  set st1 : SystemState := setWaitlist st c (getWaitlist st c ++ [bid])
    with hst1
  have hInv1 : Inv2 st1 := by
    refine inv2_frame st st1 (confsSameShape_refl _) rfl (coreStep_refl _)
      (wfconfs_of_confs_eq rfl hInv.2.1) ?_ hInv
    exact keysNodup_setA c _ hInv.1.2.2.2.1
  cases hex : lookupA st1.bookings bid with
  | some bold =>
    have hemp : emplaceA st1.bookings bid nb = st1.bookings :=
      emplaceA_of_isSome _ _ _ (by rw [hex]; rfl)
    have heta : ({ st1 with bookings := emplaceA st1.bookings bid nb }) = st1 := by
      rw [hemp]
    rw [heta]
    exact inv2_ledgerAdd st1 u bid BookingStatus.WAITLISTED (by simp) hInv1
  | none =>
    exact inv2_insert_waitlisted st1 bid nb hInv1 hex rfl husr hcex

theorem not_isNone_isSome {α : Type} {o : Option α} (h : ¬(o.isNone = true)) :
    o.isSome := by
  cases o
  · exact absurd rfl h
  · rfl

theorem inv2_bookConference (st : SystemState) (now : Int) (u c : String)
    (hInv : Inv2 st) : Inv2 (bookConference st now u c).2 := by
  simp only [bookConference]
  split
  · exact hInv
  · rename_i husrne
    split
    · exact hInv
    · rename_i conference hcl
      split
      · exact hInv
      · split
        · exact hInv
        · rename_i hdup
          split
          · exact hInv
          · rename_i hcfne
            have hcf : hasConflictingBooking st u conference = false := by
              cases h : hasConflictingBooking st u conference
              · rfl
              · exact absurd h hcfne
            split
            · rename_i conference2 hdec
              exact inv2_book_confirmed st now u c conference conference2 hInv
                (not_isNone_isSome husrne) hcl hcf hdec
            · rename_i c2 hdec
              exact inv2_book_waitlisted st now u c hInv
                (not_isNone_isSome husrne) (by rw [hcl]; rfl)

theorem inv2_ledgerRemove (st : SystemState) (uid bid : String)
    (hInv : Inv2 st)
    (hc : ∀ b, lookupA st.bookings bid = some b →
      b.status = BookingStatus.CANCELED) :
    Inv2 (ledgerRemove st uid bid) := by
  obtain ⟨⟨hnd1, hnd2, hnd3, hnd4, hnd5⟩, hwf, hlnc, hsi, hbce, hnco⟩ := hInv
  unfold ledgerRemove
  cases hug : lookupA st.users uid with
  | none => exact ⟨⟨hnd1, hnd2, hnd3, hnd4, hnd5⟩, hwf, hlnc, hsi, hbce, hnco⟩
  | some user =>
    have hulook : ∀ k, lookupA (setA st.users uid (user.removeBooking bid)) k =
        if k = uid then some (user.removeBooking bid) else lookupA st.users k := by
      intro k
      by_cases hk : k = uid
      · subst hk
        rw [if_pos rfl, lookupA_setA_self]
      · rw [if_neg hk, lookupA_setA_ne _ _ _ _ hk]
    refine ⟨⟨hnd1, keysNodup_setA _ _ hnd2, hnd3, hnd4, ?_⟩, hwf, ?_, ?_,
      hbce, hnco⟩
    · intro k u2 hu2
      rw [hulook] at hu2
      by_cases hk : k = uid
      · rw [if_pos hk] at hu2
        cases hu2
        exact keysNodup_eraseA bid (hnd5 uid user hug)
      · rw [if_neg hk] at hu2
        exact hnd5 k u2 hu2
    · intro k u2 hu2 id s2 hs2
      rw [hulook] at hu2
      by_cases hk : k = uid
      · rw [if_pos hk] at hu2
        cases hu2
        by_cases hid : id = bid
        · subst hid
          unfold User.removeBooking at hs2
          have hnde : keysNodup (eraseA user.bookingStatuses id) :=
            keysNodup_eraseA id (hnd5 uid user hug)
          have hmem := mem_of_lookupA_eq_some hs2
          rw [mem_eraseA (hnd5 uid user hug)] at hmem
          exact absurd rfl hmem.2
        · unfold User.removeBooking at hs2
          rw [lookupA_eraseA_ne _ _ _ hid] at hs2
          exact hlnc uid user hug id s2 hs2
      · rw [if_neg hk] at hu2
        exact hlnc k u2 hu2 id s2 hs2
    · intro id b hb hnc
      obtain ⟨u2, hu2, hsome⟩ := hsi id b hb hnc
      have hid : id ≠ bid := by
        intro he
        subst he
        exact hnc (hc b hb)
      rw [hulook]
      by_cases hk : b.userId = uid
      · rw [if_pos hk]
        refine ⟨_, rfl, ?_⟩
        rw [hk, hug] at hu2
        have he := Option.some.inj hu2
        subst he
        unfold User.removeBooking
        show (lookupA (eraseA user.bookingStatuses bid) id).isSome
        rw [lookupA_eraseA_ne _ _ _ hid]
        exact hsome
      · rw [if_neg hk]
        exact ⟨u2, hu2, hsome⟩

theorem increase_bounds {c : Conference}
    (h : 0 ≤ c.availableSlots ∧ c.availableSlots ≤ c.totalSlots) :
    0 ≤ c.increaseAvailableSlots.availableSlots ∧
      c.increaseAvailableSlots.availableSlots ≤ c.totalSlots := by
  unfold Conference.increaseAvailableSlots
  split
  · constructor
    · show (0 : Int) ≤ c.availableSlots + 1
      omega
    · show c.availableSlots + 1 ≤ c.totalSlots
      omega
  · exact h

theorem increase_windows (c : Conference) :
    c.increaseAvailableSlots.startTime = c.startTime ∧
      c.increaseAvailableSlots.endTime = c.endTime ∧
      c.increaseAvailableSlots.totalSlots = c.totalSlots := by
  unfold Conference.increaseAvailableSlots
  split
  · exact ⟨rfl, rfl, rfl⟩
  · exact ⟨rfl, rfl, rfl⟩

theorem wfconfs_setA_slots (st : SystemState) (cn : String)
    (c0 c2 : Conference)
    (hc : lookupA st.conferences cn = some c0)
    (hs : c2.startTime = c0.startTime) (he : c2.endTime = c0.endTime)
    (ht : c2.totalSlots = c0.totalSlots)
    (hb : 0 ≤ c2.availableSlots ∧ c2.availableSlots ≤ c2.totalSlots)
    (hwf : WfConfs st) :
    WfConfs { st with conferences := setA st.conferences cn c2 } := by
  intro cn2 c' h
  show c'.startTime < c'.endTime ∧ _
  by_cases hcn : cn2 = cn
  · subst hcn
    have h2 : lookupA (setA st.conferences cn2 c2) cn2 = some c' := h
    rw [lookupA_setA_self] at h2
    cases h2
    obtain ⟨hw1, hw2, hw3, hw4⟩ := hwf cn2 c0 hc
    rw [hs, he, ht]
    exact ⟨hw1, hw2, hb.1, ht ▸ hb.2⟩
  · have h2 : lookupA (setA st.conferences cn c2) cn2 = some c' := h
    rw [lookupA_setA_ne _ _ _ _ hcn] at h2
    exact hwf cn2 c' h2

theorem setBookingStatus_canceled_at (st : SystemState) (bid : String) :
    ∀ b, lookupA (setBookingStatus st bid BookingStatus.CANCELED).bookings
      bid = some b → b.status = BookingStatus.CANCELED := by
  intro b h
  rw [setBookingStatus_bookings_eq] at h
  cases hl : lookupA st.bookings bid with
  | none =>
    rw [hl] at h
    have h2 : lookupA st.bookings bid = some b := h
    rw [hl] at h2
    exact absurd h2 (by simp)
  | some b1 =>
    rw [hl] at h
    have h2 : lookupA (setA st.bookings bid
        { b1 with status := BookingStatus.CANCELED }) bid = some b := h
    rw [lookupA_setA_self] at h2
    cases h2
    rfl

theorem inv2_setBookingStatus_canceled (st : SystemState) (bid : String)
    (hInv : Inv2 st) : Inv2 (setBookingStatus st bid BookingStatus.CANCELED) := by
  refine inv2_frame st _ ?_ ?_ ?_ ?_ ?_ hInv
  · rw [setBookingStatus_conferences]
    exact confsSameShape_refl _
  · rw [setBookingStatus_users]
  · exact coreStep_setBookingStatus_canceled st bid
  · exact wfconfs_of_confs_eq (setBookingStatus_conferences st bid _) hInv.2.1
  · rw [setBookingStatus_waitlists]
    exact hInv.1.2.2.2.1

theorem inv2_cancelBooking (st : SystemState) (now : Int) (bid : String)
    (hInv : Inv2 st) : Inv2 (cancelBooking st now bid).2 := by
  simp only [cancelBooking]
  split
  · exact hInv
  · rename_i booking hb
    split
    · exact hInv
    · split
      · exact hInv
      · rename_i conference hcc
        split
        · exact hInv
        · have hInv1 : Inv2
              (if booking.status = BookingStatus.CONFIRMED then
                processWaitlist
                  { st with
                    conferences := setA st.conferences booking.conferenceName
                      conference.increaseAvailableSlots }
                  now booking.conferenceName
              else if booking.status = BookingStatus.WAITLISTED then
                setWaitlist st booking.conferenceName
                  (removeId (getWaitlist st booking.conferenceName) bid)
              else st) := by
            split
            · refine inv2_frame st _ ?_ ?_ ?_ ?_ ?_ hInv
              · rw [processWaitlist_conferences]
                refine confsSameShape_setA st.conferences _ conference
                  conference.increaseAvailableSlots hcc
                  (increase_windows conference).1 (increase_windows conference).2.1
              · rw [processWaitlist_users]
              · exact coreStep_processWaitlist _ now _
              · refine wfconfs_of_confs_eq (processWaitlist_conferences _ now _)
                  ?_
                refine wfconfs_setA_slots st _ conference
                  conference.increaseAvailableSlots hcc
                  (increase_windows conference).1
                  (increase_windows conference).2.1
                  (increase_windows conference).2.2 ?_ hInv.2.1
                have hbnd := hInv.2.1 booking.conferenceName conference hcc
                have h2 := increase_bounds ⟨hbnd.2.2.1, hbnd.2.2.2⟩
                rw [(increase_windows conference).2.2]
                exact h2
              · rw [processWaitlist_waitlists]
                exact hInv.1.2.2.2.1
            · split
              · refine inv2_frame st _ (confsSameShape_refl _) rfl
                  (coreStep_refl _) (wfconfs_of_confs_eq rfl hInv.2.1) ?_ hInv
                exact keysNodup_setA _ _ hInv.1.2.2.2.1
              · exact hInv
          refine inv2_ledgerRemove _ booking.userId bid ?_ ?_
          · exact inv2_setBookingStatus_canceled _ bid hInv1
          · exact setBookingStatus_canceled_at _ bid

theorem inv2_promote_confirmed (st : SystemState) (bid : String)
    (b0 : Booking) (hInv : Inv2 st)
    (hb : lookupA st.bookings bid = some b0)
    (hb0nc : b0.status ≠ BookingStatus.CANCELED)
    (hnoov : ∀ id b cb cn2, lookupA st.bookings id = some b → id ≠ bid →
      b.userId = b0.userId → b.status = BookingStatus.CONFIRMED →
      lookupA st.conferences b.conferenceName = some cb →
      lookupA st.conferences b0.conferenceName = some cn2 →
      cb.isTimeOverlapping cn2.startTime cn2.endTime = false) :
    Inv2 (setBookingStatus st bid BookingStatus.CONFIRMED) := by
  obtain ⟨⟨hnd1, hnd2, hnd3, hnd4, hnd5⟩, hwf, hlnc, hsi, hbce, hnco⟩ := hInv
  have hbk : (setBookingStatus st bid BookingStatus.CONFIRMED).bookings =
      setA st.bookings bid { b0 with status := BookingStatus.CONFIRMED } := by
    rw [setBookingStatus_bookings_eq, hb]
  have hbklook : ∀ id,
      lookupA (setBookingStatus st bid BookingStatus.CONFIRMED).bookings id =
      if id = bid then some { b0 with status := BookingStatus.CONFIRMED }
      else lookupA st.bookings id := by
    intro id
    rw [hbk]
    by_cases hid : id = bid
    · subst hid
      rw [if_pos rfl, lookupA_setA_self]
    · rw [if_neg hid, lookupA_setA_ne _ _ _ _ hid]
  refine ⟨⟨hnd1, hnd2, ?_, hnd4, hnd5⟩, ?_, ?_, ?_, ?_, ?_⟩
  · show keysNodup (setBookingStatus st bid BookingStatus.CONFIRMED).bookings
    rw [hbk]
    exact keysNodup_setA _ _ hnd3
  · exact wfconfs_of_confs_eq (setBookingStatus_conferences _ _ _) hwf
  · intro k u2 hu2 id s2 hs2
    exact hlnc k u2 hu2 id s2 hs2
  · intro id b hbk2 hnc
    rw [hbklook] at hbk2
    show ∃ u2, lookupA (setBookingStatus st bid
      BookingStatus.CONFIRMED).users b.userId = some u2 ∧
      (lookupA u2.bookingStatuses id).isSome
    rw [setBookingStatus_users]
    by_cases hid : id = bid
    · rw [if_pos hid] at hbk2
      cases hbk2
      subst hid
      show ∃ u2, lookupA st.users b0.userId = some u2 ∧
        (lookupA u2.bookingStatuses id).isSome
      exact hsi id b0 hb hb0nc
    · rw [if_neg hid] at hbk2
      exact hsi id b hbk2 hnc
  · intro id b hbk2
    rw [hbklook] at hbk2
    show (lookupA (setBookingStatus st bid
      BookingStatus.CONFIRMED).conferences b.conferenceName).isSome
    rw [setBookingStatus_conferences]
    by_cases hid : id = bid
    · rw [if_pos hid] at hbk2
      cases hbk2
      exact hbce bid b0 hb
    · rw [if_neg hid] at hbk2
      exact hbce id b hbk2
  · intro id1 b1 id2 b2 hb1 hb2 hne hueq hs1 hs2 c1 c2 hc1 hc2
    rw [hbklook] at hb1 hb2
    have hcc : ∀ cn cv, lookupA (setBookingStatus st bid
        BookingStatus.CONFIRMED).conferences cn = some cv →
        lookupA st.conferences cn = some cv := by
      intro cn cv h
      rw [setBookingStatus_conferences] at h
      exact h
    rw [show (setBookingStatus st bid BookingStatus.CONFIRMED).conferences =
      st.conferences from rfl] at hc1 hc2
    by_cases hid1 : id1 = bid
    · rw [if_pos hid1] at hb1
      cases hb1
      by_cases hid2 : id2 = bid
      · exact absurd (hid1.trans hid2.symm) hne
      · rw [if_neg hid2] at hb2
        rw [overlap_symm]
        exact hnoov id2 b2 c2 c1 hb2 hid2 hueq.symm hs2 hc2 hc1
    · rw [if_neg hid1] at hb1
      by_cases hid2 : id2 = bid
      · rw [if_pos hid2] at hb2
        cases hb2
        exact hnoov id1 b1 c1 c2 hb1 hid1 hueq hs1 hc1 hc2
      · rw [if_neg hid2] at hb2
        exact hnco id1 b1 id2 b2 hb1 hb2 hne hueq hs1 hs2 c1 c2 hc1 hc2

theorem inv2_cancelAllWaitlisted (st : SystemState) (cn : String)
    (hInv : Inv2 st) : Inv2 (cancelAllWaitlistedBookings st cn) := by
  refine inv2_frame st _ ?_ ?_ ?_ ?_ ?_ hInv
  · exact confsSameShape_refl _
  · rfl
  · exact coreStep_cancelAllQueue st.bookings (getWaitlist st cn)
  · exact wfconfs_of_confs_eq rfl hInv.2.1
  · exact keysNodup_setA _ _ hInv.1.2.2.2.1

theorem inv2_confirmWaitlistedBooking (st : SystemState) (now : Int)
    (bid : String) (hInv : Inv2 st) :
    Inv2 (confirmWaitlistedBooking st now bid).2 := by
  simp only [confirmWaitlistedBooking]
  split
  · exact hInv
  · rename_i booking hb
    split
    · exact hInv
    · rename_i hwstat
      rw [ne_eq, Decidable.not_not] at hwstat
      split
      · exact hInv
      · rename_i conference hcc
        split
        · exact inv2_cancelAllWaitlisted st booking.conferenceName hInv
        · split
          · split
            · refine inv2_frame st _ (confsSameShape_refl _) ?_ ?_
                (wfconfs_of_confs_eq ?_ hInv.2.1) ?_ hInv
              · rw [processWaitlist_users]
                rfl
              · exact coreStep_processWaitlist _ now _
              · rw [processWaitlist_conferences]
                rfl
              · rw [processWaitlist_waitlists]
                exact keysNodup_setA _ _ hInv.1.2.2.2.1
            · refine inv2_frame st _ (confsSameShape_refl _) rfl
                (coreStep_refl _) (wfconfs_of_confs_eq rfl hInv.2.1) ?_ hInv
              exact keysNodup_setA _ _ hInv.1.2.2.2.1
          · rename_i hexp
            split
            · exact hInv
            · rename_i hcfne
              have hcf : hasConflictingBooking st booking.userId conference =
                  false := by
                cases h : hasConflictingBooking st booking.userId conference
                · rfl
                · exact absurd h hcfne
              split
              · rename_i c2 hdec
                exact hInv
              · rename_i conference2 hdec
                obtain ⟨hc2eq, hcpos⟩ := decrease_true hdec
                set st1 : SystemState :=
                  { st with conferences :=
                      (setA st.conferences booking.conferenceName conference2) }
                  with hst1
                set st2 : SystemState := setWaitlist st1 booking.conferenceName
                  (removeId (getWaitlist st1 booking.conferenceName) bid)
                  with hst2
                have hInv1 : Inv2 st1 := by
                  refine inv2_frame st st1 ?_ rfl (coreStep_refl _) ?_
                    hInv.1.2.2.2.1 hInv
                  · exact confsSameShape_setA st.conferences _ conference
                      conference2 hcc (by rw [hc2eq]) (by rw [hc2eq])
                  · refine wfconfs_setA_slots st _ conference conference2 hcc
                      (by rw [hc2eq]) (by rw [hc2eq]) (by rw [hc2eq]) ?_
                      hInv.2.1
                    obtain ⟨hw1, hw2, hw3, hw4⟩ :=
                      hInv.2.1 booking.conferenceName conference hcc
                    constructor
                    · show (0 : Int) ≤ conference2.availableSlots
                      rw [hc2eq]
                      show (0 : Int) ≤ conference.availableSlots - 1
                      omega
                    · rw [hc2eq]
                      show conference.availableSlots - 1 ≤ conference.totalSlots
                      omega
                have hInv2 : Inv2 st2 := by
                  refine inv2_frame st1 st2 (confsSameShape_refl _) rfl
                    (coreStep_refl _) (wfconfs_of_confs_eq rfl hInv1.2.1) ?_
                    hInv1
                  exact keysNodup_setA _ _ hInv1.1.2.2.2.1
                have hb2 : lookupA st2.bookings bid = some booking := hb
                have hInv3 : Inv2 (setBookingStatus st2 bid
                    BookingStatus.CONFIRMED) := by
                  refine inv2_promote_confirmed st2 bid booking hInv2 hb2
                    (by rw [hwstat]; simp) ?_
                  intro id9 b9 cb9 cn9 hbid9 hne9 hueq9 hsconf9 hcb9 hcn9
                  have hcb' : lookupA st1.conferences b9.conferenceName =
                      some cb9 := hcb9
                  have hcn' : lookupA st1.conferences booking.conferenceName =
                      some cn9 := hcn9
                  have hcne : cn9 = conference2 := by
                    have hx : lookupA (setA st.conferences
                        booking.conferenceName conference2)
                        booking.conferenceName = some cn9 := hcn'
                    rw [lookupA_setA_self] at hx
                    exact (Option.some.inj hx).symm
                  rw [hcne]
                  have hws : conference2.startTime = conference.startTime := by
                    rw [hc2eq]
                  have hwe : conference2.endTime = conference.endTime := by
                    rw [hc2eq]
                  rw [hws, hwe]
                  have hbid0 : lookupA st.bookings id9 = some b9 := hbid9
                  by_cases hbcn : b9.conferenceName = booking.conferenceName
                  · have hx : lookupA (setA st.conferences
                        booking.conferenceName conference2)
                        b9.conferenceName = some cb9 := hcb'
                    rw [hbcn, lookupA_setA_self] at hx
                    have hcbe : cb9 = conference2 := (Option.some.inj hx).symm
                    rw [hcbe, isTimeOverlapping_congr hws hwe]
                    exact hasConflicting_false_no_overlap st
                      booking.userId conference hcf hInv.2.2.2.1 hInv.2.2.1
                      id9 b9 conference hbid0 hueq9 hsconf9
                      (by rw [hbcn]; exact hcc)
                  · have hx : lookupA (setA st.conferences
                        booking.conferenceName conference2)
                        b9.conferenceName = some cb9 := hcb'
                    rw [lookupA_setA_ne _ _ _ _ hbcn] at hx
                    exact hasConflicting_false_no_overlap st
                      booking.userId conference hcf hInv.2.2.2.1 hInv.2.2.1
                      id9 b9 cb9 hbid0 hueq9 hsconf9 hx
                refine inv2_frame _ _ ?_ ?_ ?_ ?_ ?_ hInv3
                · rw [removeFromOverlappingWaitlists_conferences]
                  exact confsSameShape_refl _
                · rw [removeFromOverlappingWaitlists_users]
                · exact coreStep_rfow _ booking.userId conference2
                · exact wfconfs_of_confs_eq
                    (removeFromOverlappingWaitlists_conferences _ _ _)
                    hInv3.2.1
                · exact keysNodup_rfow_waitlists _ booking.userId conference2
                    hInv3.1.2.2.2.1

theorem inv2_applyOp (st : SystemState) (op : Op) (hInv : Inv2 st) :
    Inv2 (applyOp st op).2 := by
  cases op with
  | addConf n l t s e sl => exact inv2_addConference st n l t s e sl hInv
  | addUsr u t => exact inv2_addUser st u t hInv
  | book now u c => exact inv2_bookConference st now u c hInv
  | cancel now b => exact inv2_cancelBooking st now b hInv
  | confirm now b => exact inv2_confirmWaitlistedBooking st now b hInv

theorem inv2_initState : Inv2 initState := by
  refine ⟨⟨?_, ?_, ?_, ?_, ?_⟩, ?_, ?_, ?_, ?_, ?_⟩
  · exact List.nodup_nil
  · exact List.nodup_nil
  · exact List.nodup_nil
  · exact List.nodup_nil
  · intro uid u hu
    exact absurd hu (by simp [initState, lookupA])
  · intro cn c hc
    exact absurd hc (by simp [initState, lookupA])
  · intro uid u hu
    exact absurd hu (by simp [initState, lookupA])
  · intro id b hb _
    exact absurd hb (by simp [initState, lookupA])
  · intro id b hb
    exact absurd hb (by simp [initState, lookupA])
  · intro id1 b1 id2 b2 hb1
    exact absurd hb1 (by simp [initState, lookupA])

theorem inv2_runOps (ops : List Op) : Inv2 (runOps initState ops) := by
  suffices h : ∀ st, Inv2 st → Inv2 (runOps st ops) from h initState inv2_initState
  induction ops with
  | nil => exact fun st h => h
  | cons op rest ih =>
    intro st h
    exact ih (applyOp st op).2 (inv2_applyOp st op h)

/-- C2: after every sequence of coordinator operations, no two distinct
CONFIRMED bookings of the same user lie in conferences with overlapping
time windows. -/
theorem C2_no_confirmed_overlap (ops : List Op) :
    NoConfirmedOverlap (runOps initState ops) :=
  (inv2_runOps ops).2.2.2.2.2

/-- A user holding two CONFIRMED bookings in disjoint windows. -/
def twoConfOps : List Op :=
  [ .addConf "C1" "NY" [] 100 200 1
  , .addConf "C2" "NY" [] 300 400 1
  , .addUsr "u" []
  , .book 5 "u" "C1"
  , .book 5 "u" "C2" ]

/-- Witness for C2: instantiating the invariant at the concrete run
`twoConfOps` and its two CONFIRMED bookings yields that their conference
windows indeed do not overlap. -/
theorem C2_no_confirmed_overlap_witness :
    Conference.isTimeOverlapping
      { name := "C1", location := "NY", topics := [], startTime := 100,
        endTime := 200, totalSlots := 1, availableSlots := 0 }
      300 400 = false :=
  C2_no_confirmed_overlap twoConfOps "u_C1_5"
    { bookingId := "u_C1_5", userId := "u", conferenceName := "C1",
      status := BookingStatus.CONFIRMED, confirmationDeadline := none }
    "u_C2_5"
    { bookingId := "u_C2_5", userId := "u", conferenceName := "C2",
      status := BookingStatus.CONFIRMED, confirmationDeadline := none }
    (by decide) (by decide) (by decide) (by decide) (by decide) (by decide)
    { name := "C1", location := "NY", topics := [], startTime := 100,
      endTime := 200, totalSlots := 1, availableSlots := 0 }
    { name := "C2", location := "NY", topics := [], startTime := 300,
      endTime := 400, totalSlots := 1, availableSlots := 0 }
    (by decide) (by decide)

/-! ### Counting CONFIRMED bookings -/

/-- `confirmedCount` on a raw booking table. -/
def countBks (bks : List (String × Booking)) (cn : String) : Nat :=
  (bks.filter fun p =>
    decide (p.2.status = BookingStatus.CONFIRMED) &&
    decide (p.2.conferenceName = cn)).length

theorem confirmedCount_eq (st : SystemState) (cn : String) :
    confirmedCount st cn = countBks st.bookings cn :=
  rfl

theorem filter_length_setA {α : Type} (p : String × α → Bool)
    (bks : List (String × α)) (id : String) (b v : α)
    (h : lookupA bks id = some b) :
    (List.filter p (setA bks id v)).length + (if p (id, b) then 1 else 0) =
    (List.filter p bks).length + (if p (id, v) then 1 else 0) := by
  induction bks with
  | nil => exact absurd h (by simp [lookupA])
  | cons q rest ih =>
    obtain ⟨k, w⟩ := q
    by_cases hk : k = id
    · subst hk
      rw [lookupA, if_pos rfl] at h
      have hw : w = b := Option.some.inj h
      subst hw
      rw [setA, if_pos rfl]
      rw [List.filter_cons, List.filter_cons]
      by_cases hp1 : p (k, v) = true
      · rw [if_pos hp1]
        by_cases hp2 : p (k, w) = true
        · rw [if_pos hp2]
          simp [hp1, hp2]
        · rw [if_neg hp2]
          simp [hp1, hp2]
      · rw [if_neg hp1]
        by_cases hp2 : p (k, w) = true
        · rw [if_pos hp2]
          simp [hp1, hp2]
        · rw [if_neg hp2]
          simp [hp1, hp2]
    · rw [lookupA, if_neg hk] at h
      rw [setA, if_neg hk]
      rw [List.filter_cons, List.filter_cons]
      by_cases hp : p (k, w) = true
      · rw [if_pos hp, if_pos hp]
        have := ih h
        simp only [List.length_cons]
        omega
      · rw [if_neg hp, if_neg hp]
        exact ih h

theorem countBks_setA (bks : List (String × Booking)) (id : String)
    (b v : Booking) (cn : String) (h : lookupA bks id = some b) :
    countBks (setA bks id v) cn +
      (if b.status = BookingStatus.CONFIRMED ∧ b.conferenceName = cn
       then 1 else 0) =
    countBks bks cn +
      (if v.status = BookingStatus.CONFIRMED ∧ v.conferenceName = cn
       then 1 else 0) := by
  have hfl := filter_length_setA
    (fun p => decide (p.2.status = BookingStatus.CONFIRMED) &&
      decide (p.2.conferenceName = cn)) bks id b v h
  unfold countBks
  simp only [Bool.and_eq_true, decide_eq_true_eq] at hfl ⊢
  convert hfl using 2 <;> simp

theorem countBks_setA_congr (bks : List (String × Booking)) (id : String)
    (b v : Booking) (cn : String) (h : lookupA bks id = some b)
    (hc : (b.status = BookingStatus.CONFIRMED ∧ b.conferenceName = cn) ↔
      (v.status = BookingStatus.CONFIRMED ∧ v.conferenceName = cn)) :
    countBks (setA bks id v) cn = countBks bks cn := by
  have := countBks_setA bks id b v cn h
  by_cases hb : b.status = BookingStatus.CONFIRMED ∧ b.conferenceName = cn
  · rw [if_pos hb, if_pos (hc.mp hb)] at this
    omega
  · rw [if_neg hb, if_neg (fun hv => hb (hc.mpr hv))] at this
    omega

theorem countBks_append_fresh (bks : List (String × Booking)) (id : String)
    (v : Booking) (cn : String) :
    countBks (bks ++ [(id, v)]) cn = countBks bks cn +
      (if v.status = BookingStatus.CONFIRMED ∧ v.conferenceName = cn
       then 1 else 0) := by
  unfold countBks
  rw [List.filter_append, List.length_append]
  congr 1
  rw [List.filter_cons]
  by_cases hp : v.status = BookingStatus.CONFIRMED ∧ v.conferenceName = cn
  · rw [if_pos hp]
    simp [hp.1, hp.2]
  · rw [if_neg hp]
    rcases Decidable.not_and_iff_or_not.mp hp with h | h <;> simp [h]

theorem countBks_evictUserFromQueue (u : String)
    (bks : List (String × Booking)) (q : List String) (cn : String)
    (hnd : q.Nodup)
    (hw : ∀ id ∈ q, ∀ b, lookupA bks id = some b →
      b.status = BookingStatus.WAITLISTED) :
    countBks (evictUserFromQueue u bks q).2 cn = countBks bks cn := by
  induction q generalizing bks with
  | nil => rfl
  | cons id rest ih =>
    have hnd' : rest.Nodup := (List.nodup_cons.mp hnd).2
    have hnm : id ∉ rest := (List.nodup_cons.mp hnd).1
    cases hb : lookupA bks id with
    | none =>
      simp only [evictUserFromQueue, hb]
      exact ih bks hnd' (fun id2 hm b h => hw id2 (List.mem_cons_of_mem _ hm) b h)
    | some b =>
      by_cases hu : b.userId = u
      · simp only [evictUserFromQueue, hb]
        rw [if_pos hu]
        have hbw := hw id (List.mem_cons_self _ _) b hb
        have hcnt : countBks
            (setA bks id { b with status := BookingStatus.CANCELED }) cn =
            countBks bks cn := by
          refine countBks_setA_congr bks id b _ cn hb ?_
          constructor
          · intro hx
            rw [hbw] at hx
            exact absurd hx.1 (by decide)
          · intro hx
            exact BookingStatus.noConfusion hx.1
        have hrest : ∀ id2 ∈ rest, ∀ b2,
            lookupA (setA bks id { b with status := BookingStatus.CANCELED })
              id2 = some b2 → b2.status = BookingStatus.WAITLISTED := by
          intro id2 hm b2 h2
          have hne : id2 ≠ id := fun he => hnm (he ▸ hm)
          rw [lookupA_setA_ne _ _ _ _ hne] at h2
          exact hw id2 (List.mem_cons_of_mem _ hm) b2 h2
        rw [ih _ hnd' hrest, hcnt]
      · simp only [evictUserFromQueue, hb]
        rw [if_neg hu]
        exact ih bks hnd' (fun id2 hm b h => hw id2 (List.mem_cons_of_mem _ hm) b h)

theorem countBks_cancelAllQueue (bks : List (String × Booking))
    (q : List String) (cn : String) (hnd : q.Nodup)
    (hw : ∀ id ∈ q, ∀ b, lookupA bks id = some b →
      b.status = BookingStatus.WAITLISTED) :
    countBks (cancelAllQueue bks q) cn = countBks bks cn := by
  induction q generalizing bks with
  | nil => rfl
  | cons id rest ih =>
    have hnd' : rest.Nodup := (List.nodup_cons.mp hnd).2
    have hnm : id ∉ rest := (List.nodup_cons.mp hnd).1
    cases hb : lookupA bks id with
    | none =>
      simp only [cancelAllQueue, hb]
      exact ih bks hnd' (fun id2 hm b h => hw id2 (List.mem_cons_of_mem _ hm) b h)
    | some b =>
      simp only [cancelAllQueue, hb]
      have hbw := hw id (List.mem_cons_self _ _) b hb
      have hcnt : countBks
          (setA bks id { b with status := BookingStatus.CANCELED }) cn =
          countBks bks cn := by
        refine countBks_setA_congr bks id b _ cn hb ?_
        constructor
        · intro hx
          rw [hbw] at hx
          exact absurd hx.1 (by decide)
        · intro hx
          exact BookingStatus.noConfusion hx.1
      have hrest : ∀ id2 ∈ rest, ∀ b2,
          lookupA (setA bks id { b with status := BookingStatus.CANCELED })
            id2 = some b2 → b2.status = BookingStatus.WAITLISTED := by
        intro id2 hm b2 h2
        have hne : id2 ≠ id := fun he => hnm (he ▸ hm)
        rw [lookupA_setA_ne _ _ _ _ hne] at h2
        exact hw id2 (List.mem_cons_of_mem _ hm) b2 h2
      rw [ih _ hnd' hrest, hcnt]

theorem tail_filter_subset {α : Type} (p : α → Bool) (q : List α) :
    (q.filter p).tail ⊆ q.tail := by
  cases q with
  | nil => simp
  | cons h t =>
    rw [List.filter_cons]
    by_cases hp : p h = true
    · rw [if_pos hp]
      exact fun x hx => List.mem_of_mem_filter hx
    · rw [if_neg hp]
      intro x hx
      exact List.mem_of_mem_filter ((List.tail_sublist (t.filter p)).subset hx)

/-! ### Preservation of the clean-run invariants by the eviction loops -/

theorem evictConf_bookings (u : String) (st : SystemState) (cn : String) :
    (evictConf u st cn).bookings =
      (evictUserFromQueue u st.bookings (getWaitlist st cn)).2 :=
  rfl

theorem evictConf_getWaitlist_self (u : String) (st : SystemState)
    (cn : String) :
    getWaitlist (evictConf u st cn) cn =
      (evictUserFromQueue u st.bookings (getWaitlist st cn)).1 :=
  getWaitlist_setWaitlist_self _ _ _

theorem evictConf_getWaitlist_ne (u : String) (st : SystemState)
    (cn cn2 : String) (h : cn2 ≠ cn) :
    getWaitlist (evictConf u st cn) cn2 = getWaitlist st cn2 :=
  getWaitlist_setWaitlist_ne _ _ _ _ h

theorem queueInv_evictConf (u : String) (st : SystemState) (cn : String)
    (hq : QueueInv st) : QueueInv (evictConf u st cn) := by
  intro cn2
  by_cases hcn : cn2 = cn
  · subst hcn
    rw [evictConf_getWaitlist_self, evictUserFromQueue_queue]
    constructor
    · exact List.Nodup.filter _ (hq cn2).1
    · intro id hid
      obtain ⟨hidq, hpred⟩ := List.mem_filter.mp hid
      obtain ⟨b, hb, hbw, hbc⟩ := (hq cn2).2 id hidq
      simp only [hb, decide_eq_true_eq] at hpred
      refine ⟨b, ?_, hbw, hbc⟩
      rw [evictConf_bookings, evictUserFromQueue_lookup, hb]
      simp [hpred]
  · rw [evictConf_getWaitlist_ne u st cn cn2 hcn]
    refine ⟨(hq cn2).1, ?_⟩
    intro id hid
    obtain ⟨b, hb, hbw, hbc⟩ := (hq cn2).2 id hid
    have hnq : ¬(id ∈ getWaitlist st cn ∧ b.userId = u) := by
      rintro ⟨hiq, _⟩
      obtain ⟨b', hb', _, hbc'⟩ := (hq cn).2 id hiq
      rw [hb] at hb'
      have he : b = b' := Option.some.inj hb'
      rw [← he] at hbc'
      exact hcn (by rw [← hbc, hbc'])
    refine ⟨b, ?_, hbw, hbc⟩
    rw [evictConf_bookings, evictUserFromQueue_lookup, hb]
    simp only [if_neg hnq]

theorem waitlistedQueued_evictConf (u : String) (st : SystemState)
    (cn : String) (hq : QueueInv st) (hwq : WaitlistedQueued st) :
    WaitlistedQueued (evictConf u st cn) := by
  intro id b hb hbw
  rw [evictConf_bookings, evictUserFromQueue_lookup] at hb
  cases hb0 : lookupA st.bookings id with
  | none =>
    rw [hb0] at hb
    exact absurd hb (by simp)
  | some b0 =>
    rw [hb0] at hb
    have hbe := Option.some.inj hb
    by_cases hm : id ∈ getWaitlist st cn ∧ b0.userId = u
    · rw [if_pos hm] at hbe
      rw [← hbe] at hbw
      exact BookingStatus.noConfusion hbw
    · rw [if_neg hm] at hbe
      subst hbe
      have hwq0 := hwq id b0 hb0 hbw
      by_cases hcc : b0.conferenceName = cn
      · rw [hcc]
        rw [hcc] at hwq0
        rw [evictConf_getWaitlist_self, evictUserFromQueue_queue]
        refine List.mem_filter.mpr ⟨hwq0, ?_⟩
        simp only [hb0, decide_eq_true_eq]
        intro he
        exact hm ⟨hwq0, he⟩
      · rw [evictConf_getWaitlist_ne u st cn _ hcc]
        exact hwq0

theorem ledgerLockstep_evictConf (u : String) (st : SystemState)
    (cn : String) (hq : QueueInv st) (hll : LedgerLockstep st) :
    LedgerLockstep (evictConf u st cn) := by
  intro uid uu hu id s hs
  have hu' : lookupA st.users uid = some uu := hu
  obtain ⟨hsnc, b, hb, hbu, hbc⟩ := hll uid uu hu' id s hs
  refine ⟨hsnc, ?_⟩
  by_cases hm : id ∈ getWaitlist st cn ∧ b.userId = u
  · obtain ⟨b', hb', hbw', _⟩ := (hq cn).2 id hm.1
    have he : b = b' := by
      rw [hb] at hb'
      exact Option.some.inj hb'
    refine ⟨{ b with status := BookingStatus.CANCELED }, ?_, hbu, ?_⟩
    · rw [evictConf_bookings, evictUserFromQueue_lookup, hb]
      simp [hm]
    · intro hsC
      have hcf := hbc hsC
      rw [he, hbw'] at hcf
      exact absurd hcf (by decide)
  · refine ⟨b, ?_, hbu, hbc⟩
    rw [evictConf_bookings, evictUserFromQueue_lookup, hb]
    simp [hm]

theorem nonHead_evictConf (u : String) (st : SystemState) (cn : String)
    (hnh : NonHeadNoDeadline st) : NonHeadNoDeadline (evictConf u st cn) := by
  intro cn2 id hid b hb
  rw [evictConf_bookings, evictUserFromQueue_lookup] at hb
  cases hb0 : lookupA st.bookings id with
  | none =>
    rw [hb0] at hb
    exact absurd hb (by simp)
  | some b0 =>
    rw [hb0] at hb
    have hbe := Option.some.inj hb
    have hdl : b.confirmationDeadline = b0.confirmationDeadline := by
      rw [← hbe]
      by_cases hm : id ∈ getWaitlist st cn ∧ b0.userId = u
      · rw [if_pos hm]
      · rw [if_neg hm]
    rw [hdl]
    by_cases hcc : cn2 = cn
    · subst hcc
      rw [evictConf_getWaitlist_self, evictUserFromQueue_queue] at hid
      exact hnh cn2 id (tail_filter_subset _ _ hid) b0 hb0
    · rw [evictConf_getWaitlist_ne u st cn cn2 hcc] at hid
      exact hnh cn2 id hid b0 hb0

theorem confirmedCount_evictConf (u : String) (st : SystemState)
    (cn : String) (hq : QueueInv st) (cn2 : String) :
    confirmedCount (evictConf u st cn) cn2 = confirmedCount st cn2 := by
  rw [confirmedCount_eq, confirmedCount_eq, evictConf_bookings]
  refine countBks_evictUserFromQueue u _ _ cn2 (hq cn).1 ?_
  intro id hm b hb
  obtain ⟨b', hb', hbw, _⟩ := (hq cn).2 id hm
  rw [hb] at hb'
  rw [Option.some.inj hb']
  exact hbw

theorem queueInv_foldl_evictConf (u : String) (l : List String)
    (st : SystemState) (hq : QueueInv st) :
    QueueInv (l.foldl (evictConf u) st) := by
  induction l generalizing st with
  | nil => exact hq
  | cons cn rest ih => exact ih _ (queueInv_evictConf u st cn hq)

theorem waitlistedQueued_foldl_evictConf (u : String) (l : List String)
    (st : SystemState) (hq : QueueInv st) (hwq : WaitlistedQueued st) :
    WaitlistedQueued (l.foldl (evictConf u) st) := by
  induction l generalizing st with
  | nil => exact hwq
  | cons cn rest ih =>
    exact ih _ (queueInv_evictConf u st cn hq)
      (waitlistedQueued_evictConf u st cn hq hwq)

theorem ledgerLockstep_foldl_evictConf (u : String) (l : List String)
    (st : SystemState) (hq : QueueInv st) (hll : LedgerLockstep st) :
    LedgerLockstep (l.foldl (evictConf u) st) := by
  induction l generalizing st with
  | nil => exact hll
  | cons cn rest ih =>
    exact ih _ (queueInv_evictConf u st cn hq)
      (ledgerLockstep_evictConf u st cn hq hll)

theorem nonHead_foldl_evictConf (u : String) (l : List String)
    (st : SystemState) (hnh : NonHeadNoDeadline st) :
    NonHeadNoDeadline (l.foldl (evictConf u) st) := by
  induction l generalizing st with
  | nil => exact hnh
  | cons cn rest ih => exact ih _ (nonHead_evictConf u st cn hnh)

theorem confirmedCount_foldl_evictConf (u : String) (l : List String)
    (st : SystemState) (hq : QueueInv st) (cn2 : String) :
    confirmedCount (l.foldl (evictConf u) st) cn2 = confirmedCount st cn2 := by
  induction l generalizing st with
  | nil => rfl
  | cons cn rest ih =>
    rw [List.foldl_cons, ih _ (queueInv_evictConf u st cn hq),
      confirmedCount_evictConf u st cn hq cn2]

theorem queueInv_rfow (s : SystemState) (u : String) (bc : Conference)
    (hq : QueueInv s) : QueueInv (removeFromOverlappingWaitlists s u bc) :=
  queueInv_foldl_evictConf u _ s hq

theorem waitlistedQueued_rfow (s : SystemState) (u : String) (bc : Conference)
    (hq : QueueInv s) (hwq : WaitlistedQueued s) :
    WaitlistedQueued (removeFromOverlappingWaitlists s u bc) :=
  waitlistedQueued_foldl_evictConf u _ s hq hwq

theorem ledgerLockstep_rfow (s : SystemState) (u : String) (bc : Conference)
    (hq : QueueInv s) (hll : LedgerLockstep s) :
    LedgerLockstep (removeFromOverlappingWaitlists s u bc) :=
  ledgerLockstep_foldl_evictConf u _ s hq hll

theorem nonHead_rfow (s : SystemState) (u : String) (bc : Conference)
    (hnh : NonHeadNoDeadline s) :
    NonHeadNoDeadline (removeFromOverlappingWaitlists s u bc) :=
  nonHead_foldl_evictConf u _ s hnh

theorem confirmedCount_rfow (s : SystemState) (u : String) (bc : Conference)
    (hq : QueueInv s) (cn2 : String) :
    confirmedCount (removeFromOverlappingWaitlists s u bc) cn2 =
      confirmedCount s cn2 :=
  confirmedCount_foldl_evictConf u _ s hq cn2

theorem queueInv_of_eq {st st' : SystemState}
    (h1 : st'.waitlists = st.waitlists) (h2 : st'.bookings = st.bookings)
    (hq : QueueInv st) : QueueInv st' := by
  simpa only [QueueInv, getWaitlist, h1, h2] using hq

theorem waitlistedQueued_of_eq {st st' : SystemState}
    (h1 : st'.waitlists = st.waitlists) (h2 : st'.bookings = st.bookings)
    (hwq : WaitlistedQueued st) : WaitlistedQueued st' := by
  simpa only [WaitlistedQueued, getWaitlist, h1, h2] using hwq

theorem countInv_of_eq {st st' : SystemState}
    (h1 : st'.conferences = st.conferences) (h2 : st'.bookings = st.bookings)
    (hc : CountInv st) : CountInv st' := by
  simpa only [CountInv, confirmedCount, h1, h2] using hc

theorem ledgerLockstep_of_eq {st st' : SystemState}
    (h1 : st'.users = st.users) (h2 : st'.bookings = st.bookings)
    (hll : LedgerLockstep st) : LedgerLockstep st' := by
  simpa only [LedgerLockstep, h1, h2] using hll

theorem nonHead_of_eq {st st' : SystemState}
    (h1 : st'.waitlists = st.waitlists) (h2 : st'.bookings = st.bookings)
    (hnh : NonHeadNoDeadline st) : NonHeadNoDeadline st' := by
  simpa only [NonHeadNoDeadline, getWaitlist, h1, h2] using hnh

/-! ### Preservation by `cancelAllWaitlistedBookings` -/

theorem cancelAll_bookings (st : SystemState) (cn : String) :
    (cancelAllWaitlistedBookings st cn).bookings =
      cancelAllQueue st.bookings (getWaitlist st cn) :=
  rfl

theorem cancelAll_getWaitlist_self (st : SystemState) (cn : String) :
    getWaitlist (cancelAllWaitlistedBookings st cn) cn = [] :=
  getWaitlist_setWaitlist_self _ _ _

theorem cancelAll_getWaitlist_ne (st : SystemState) (cn cn2 : String)
    (h : cn2 ≠ cn) :
    getWaitlist (cancelAllWaitlistedBookings st cn) cn2 = getWaitlist st cn2 :=
  getWaitlist_setWaitlist_ne _ _ _ _ h

theorem queueInv_cancelAll (st : SystemState) (cn : String)
    (hq : QueueInv st) : QueueInv (cancelAllWaitlistedBookings st cn) := by
  intro cn2
  by_cases hcn : cn2 = cn
  · subst hcn
    rw [cancelAll_getWaitlist_self]
    exact ⟨List.nodup_nil, by simp⟩
  · rw [cancelAll_getWaitlist_ne st cn cn2 hcn]
    refine ⟨(hq cn2).1, ?_⟩
    intro id hid
    obtain ⟨b, hb, hbw, hbc⟩ := (hq cn2).2 id hid
    have hnq : id ∉ getWaitlist st cn := by
      intro hiq
      obtain ⟨b', hb', _, hbc'⟩ := (hq cn).2 id hiq
      rw [hb] at hb'
      rw [← Option.some.inj hb'] at hbc'
      exact hcn (by rw [← hbc, hbc'])
    refine ⟨b, ?_, hbw, hbc⟩
    rw [cancelAll_bookings, cancelAllQueue_lookup, hb]
    simp [hnq]

theorem waitlistedQueued_cancelAll (st : SystemState) (cn : String)
    (hq : QueueInv st) (hwq : WaitlistedQueued st) :
    WaitlistedQueued (cancelAllWaitlistedBookings st cn) := by
  intro id b hb hbw
  rw [cancelAll_bookings, cancelAllQueue_lookup] at hb
  cases hb0 : lookupA st.bookings id with
  | none =>
    rw [hb0] at hb
    exact absurd hb (by simp)
  | some b0 =>
    rw [hb0] at hb
    have hbe := Option.some.inj hb
    by_cases hm : id ∈ getWaitlist st cn
    · rw [if_pos hm] at hbe
      rw [← hbe] at hbw
      exact BookingStatus.noConfusion hbw
    · rw [if_neg hm] at hbe
      subst hbe
      have hwq0 := hwq id b0 hb0 hbw
      have hcc : b0.conferenceName ≠ cn := by
        intro he
        rw [he] at hwq0
        exact hm hwq0
      rw [cancelAll_getWaitlist_ne st cn _ hcc]
      exact hwq0

theorem ledgerLockstep_cancelAll (st : SystemState) (cn : String)
    (hq : QueueInv st) (hll : LedgerLockstep st) :
    LedgerLockstep (cancelAllWaitlistedBookings st cn) := by
  intro uid uu hu id s hs
  have hu' : lookupA st.users uid = some uu := hu
  obtain ⟨hsnc, b, hb, hbu, hbc⟩ := hll uid uu hu' id s hs
  refine ⟨hsnc, ?_⟩
  by_cases hm : id ∈ getWaitlist st cn
  · obtain ⟨b', hb', hbw', _⟩ := (hq cn).2 id hm
    have he : b = b' := by
      rw [hb] at hb'
      exact Option.some.inj hb'
    refine ⟨{ b with status := BookingStatus.CANCELED }, ?_, hbu, ?_⟩
    · rw [cancelAll_bookings, cancelAllQueue_lookup, hb]
      simp [hm]
    · intro hsC
      have hcf := hbc hsC
      rw [he, hbw'] at hcf
      exact absurd hcf (by decide)
  · refine ⟨b, ?_, hbu, hbc⟩
    rw [cancelAll_bookings, cancelAllQueue_lookup, hb]
    simp [hm]

theorem nonHead_cancelAll (st : SystemState) (cn : String)
    (hnh : NonHeadNoDeadline st) :
    NonHeadNoDeadline (cancelAllWaitlistedBookings st cn) := by
  intro cn2 id hid b hb
  rw [cancelAll_bookings, cancelAllQueue_lookup] at hb
  cases hb0 : lookupA st.bookings id with
  | none =>
    rw [hb0] at hb
    exact absurd hb (by simp)
  | some b0 =>
    rw [hb0] at hb
    have hbe := Option.some.inj hb
    have hdl : b.confirmationDeadline = b0.confirmationDeadline := by
      rw [← hbe]
      by_cases hm : id ∈ getWaitlist st cn
      · rw [if_pos hm]
      · rw [if_neg hm]
    rw [hdl]
    by_cases hcc : cn2 = cn
    · subst hcc
      rw [cancelAll_getWaitlist_self] at hid
      exact absurd hid (by simp)
    · rw [cancelAll_getWaitlist_ne st cn cn2 hcc] at hid
      exact hnh cn2 id hid b0 hb0

theorem confirmedCount_cancelAll (st : SystemState) (cn : String)
    (hq : QueueInv st) (cn2 : String) :
    confirmedCount (cancelAllWaitlistedBookings st cn) cn2 =
      confirmedCount st cn2 := by
  rw [confirmedCount_eq, confirmedCount_eq, cancelAll_bookings]
  refine countBks_cancelAllQueue _ _ cn2 (hq cn).1 ?_
  intro id hm b hb
  obtain ⟨b', hb', hbw, _⟩ := (hq cn).2 id hm
  rw [hb] at hb'
  rw [Option.some.inj hb']
  exact hbw

/-! ### Preservation by `processWaitlist` -/

theorem processWaitlist_lookup (st : SystemState) (now : Int) (cn id : String) :
    lookupA (processWaitlist st now cn).bookings id =
      match lookupA st.bookings id with
      | none => none
      | some b =>
        some (if (getWaitlist st cn).head? = some id
              then setWaitlistConfirmationDeadline now b else b) := by
  rw [processWaitlist_bookings_eq]
  cases hh : (getWaitlist st cn).head? with
  | none =>
    cases hli : lookupA st.bookings id with
    | none => simp [hli]
    | some b => simp [hli]
  | some nid =>
    cases hl : lookupA st.bookings nid with
    | none =>
      cases hli : lookupA st.bookings id with
      | none => simp [hl, hli]
      | some b =>
        have hne : nid ≠ id := by
          intro he
          rw [he, hli] at hl
          exact Option.noConfusion hl
        simp [hl, hli, hne]
    | some b0 =>
      by_cases he : id = nid
      · subst he
        simp only [hl]
        rw [lookupA_setA_self]
        simp
      · simp only [hl]
        rw [lookupA_setA_ne _ _ _ _ he]
        cases hli : lookupA st.bookings id with
        | none => simp
        | some b => simp [Ne.symm he]

theorem queueInv_processWaitlist (st : SystemState) (now : Int) (cn : String)
    (hq : QueueInv st) : QueueInv (processWaitlist st now cn) := by
  intro cn2
  have hw : getWaitlist (processWaitlist st now cn) cn2 = getWaitlist st cn2 :=
    rfl
  rw [hw]
  refine ⟨(hq cn2).1, ?_⟩
  intro id hid
  obtain ⟨b, hb, hbw, hbc⟩ := (hq cn2).2 id hid
  rw [processWaitlist_lookup, hb]
  by_cases hh : (getWaitlist st cn).head? = some id
  · exact ⟨setWaitlistConfirmationDeadline now b, by simp [hh], hbw, hbc⟩
  · exact ⟨b, by simp [hh], hbw, hbc⟩

theorem waitlistedQueued_processWaitlist (st : SystemState) (now : Int)
    (cn : String) (hwq : WaitlistedQueued st) :
    WaitlistedQueued (processWaitlist st now cn) := by
  intro id b hb hbw
  rw [processWaitlist_lookup] at hb
  cases hb0 : lookupA st.bookings id with
  | none =>
    rw [hb0] at hb
    exact absurd hb (by simp)
  | some b0 =>
    rw [hb0] at hb
    have hbe := Option.some.inj hb
    have hst : b.status = b0.status ∧ b.conferenceName = b0.conferenceName := by
      rw [← hbe]
      by_cases hh : (getWaitlist st cn).head? = some id
      · rw [if_pos hh]
        exact ⟨rfl, rfl⟩
      · rw [if_neg hh]
        exact ⟨rfl, rfl⟩
    rw [hst.1] at hbw
    have hwq0 := hwq id b0 hb0 hbw
    show id ∈ getWaitlist st b.conferenceName
    rw [hst.2]
    exact hwq0

theorem ledgerLockstep_processWaitlist (st : SystemState) (now : Int)
    (cn : String) (hll : LedgerLockstep st) :
    LedgerLockstep (processWaitlist st now cn) := by
  intro uid uu hu id s hs
  have hu' : lookupA st.users uid = some uu := hu
  obtain ⟨hsnc, b, hb, hbu, hbc⟩ := hll uid uu hu' id s hs
  refine ⟨hsnc, ?_⟩
  by_cases hh : (getWaitlist st cn).head? = some id
  · refine ⟨setWaitlistConfirmationDeadline now b, ?_, hbu, ?_⟩
    · rw [processWaitlist_lookup, hb]
      simp [hh]
    · intro hsC
      exact hbc hsC
  · refine ⟨b, ?_, hbu, hbc⟩
    rw [processWaitlist_lookup, hb]
    simp [hh]

theorem nonHead_processWaitlist (st : SystemState) (now : Int) (cn : String)
    (hq : QueueInv st) (hnh : NonHeadNoDeadline st) :
    NonHeadNoDeadline (processWaitlist st now cn) := by
  intro cn2 id hid b hb
  have hw : getWaitlist (processWaitlist st now cn) cn2 = getWaitlist st cn2 :=
    rfl
  rw [hw] at hid
  rw [processWaitlist_lookup] at hb
  cases hb0 : lookupA st.bookings id with
  | none =>
    rw [hb0] at hb
    exact absurd hb (by simp)
  | some b0 =>
    rw [hb0] at hb
    have hbe := Option.some.inj hb
    by_cases hh : (getWaitlist st cn).head? = some id
    · exfalso
      have hmemcn : id ∈ getWaitlist st cn := by
        cases hq2 : getWaitlist st cn with
        | nil => rw [hq2] at hh; exact Option.noConfusion hh
        | cons x t =>
          rw [hq2] at hh
          have hx : x = id := Option.some.inj hh
          rw [hx]
          exact List.mem_cons_self _ _
      by_cases hcc : cn2 = cn
      · subst hcc
        cases hq2 : getWaitlist st cn2 with
        | nil => rw [hq2] at hid; exact absurd hid (by simp)
        | cons x t =>
          rw [hq2] at hid hh
          have hx : x = id := Option.some.inj hh
          have hnd := (hq cn2).1
          rw [hq2, hx] at hnd
          exact (List.nodup_cons.mp hnd).1 hid
      · obtain ⟨b1, hb1, _, hbc1⟩ := (hq cn).2 id hmemcn
        obtain ⟨b2, hb2, _, hbc2⟩ :=
          (hq cn2).2 id ((List.tail_sublist _).subset hid)
        rw [hb1] at hb2
        rw [← Option.some.inj hb2] at hbc2
        exact hcc (by rw [← hbc2, hbc1])
    · rw [← hbe, if_neg hh]
      exact hnh cn2 id hid b0 hb0

theorem confirmedCount_processWaitlist (st : SystemState) (now : Int)
    (cn cn2 : String) :
    confirmedCount (processWaitlist st now cn) cn2 = confirmedCount st cn2 := by
  rw [confirmedCount_eq, confirmedCount_eq, processWaitlist_bookings_eq]
  cases hh : (getWaitlist st cn).head? with
  | none => rfl
  | some nid =>
    show countBks (match lookupA st.bookings nid with
      | none => st.bookings
      | some b => setA st.bookings nid (setWaitlistConfirmationDeadline now b))
      cn2 = countBks st.bookings cn2
    cases hl : lookupA st.bookings nid with
    | none => rfl
    | some b0 =>
      show countBks (setA st.bookings nid
        (setWaitlistConfirmationDeadline now b0)) cn2 = countBks st.bookings cn2
      exact countBks_setA_congr _ nid b0 _ cn2 hl (Iff.rfl)

/-! ### The collision-free-run invariant bundle -/

/-- Invariants that hold on every collision-free run: well-formed waitlists,
waitlisted bookings queued, exact slot accounting, and the surviving ledger
lockstep. -/
def CleanInv (st : SystemState) : Prop :=
  QueueInv st ∧ WaitlistedQueued st ∧ CountInv st ∧ LedgerLockstep st

theorem countBks_absent_conf (st : SystemState) (hnd : keysNodup st.bookings)
    (hbce : BookingConfExists st) (n : String)
    (hn : lookupA st.conferences n = none) : countBks st.bookings n = 0 := by
  unfold countBks
  rw [List.length_eq_zero]
  rw [List.filter_eq_nil]
  intro p hp hpred
  rw [Bool.and_eq_true, decide_eq_true_eq, decide_eq_true_eq] at hpred
  have hl := lookupA_eq_some_of_mem hnd hp
  have hsome := hbce p.1 p.2 hl
  rw [hpred.2, hn] at hsome
  exact absurd hsome (by simp)

theorem cleanInv_addConference (st : SystemState) (n l : String)
    (t : List String) (s e : Int) (sl : Int) (hInv : Inv2 st)
    (hCl : CleanInv st) : CleanInv (addConference st n l t s e sl).2 := by
  unfold addConference
  by_cases hex : (lookupA st.conferences n).isSome
  · rw [if_pos hex]
    exact hCl
  · rw [if_neg hex]
    cases hmk : mkConference n l t s e sl with
    | error m => exact hCl
    | ok c =>
      obtain ⟨hname, hstart, hend, htot, havail, hlt, hpos⟩ :=
        mkConference_ok hmk
      have hnone : lookupA st.conferences n = none := by
        cases hl0 : lookupA st.conferences n
        · rfl
        · rw [hl0] at hex
          exact absurd (by simp : (some _).isSome = true) hex
      obtain ⟨hq, hwq, hcnt, hll⟩ := hCl
      refine ⟨queueInv_of_eq rfl rfl hq, waitlistedQueued_of_eq rfl rfl hwq,
        ?_, ledgerLockstep_of_eq rfl rfl hll⟩
      intro cn c' hc'
      by_cases hcn : cn = n
      · subst hcn
        have hc2 : lookupA (emplaceA st.conferences cn c) cn = some c' := hc'
        rw [lookupA_emplaceA_self _ _ _ hnone] at hc2
        cases hc2
        have hz : confirmedCount
            { st with conferences := emplaceA st.conferences cn c } cn = 0 := by
          rw [confirmedCount_eq]
          exact countBks_absent_conf st hInv.1.2.2.1 hInv.2.2.2.2.1 cn hnone
        rw [hz, havail, htot]
        omega
      · have hc2 : lookupA (emplaceA st.conferences n c) cn = some c' := hc'
        rw [lookupA_emplaceA_ne _ _ _ _ hcn] at hc2
        exact hcnt cn c' hc2

theorem cleanInv_addUser (st : SystemState) (uid : String) (t : List String)
    (hCl : CleanInv st) : CleanInv (addUser st uid t).2 := by
  unfold addUser
  by_cases hex : (lookupA st.users uid).isSome
  · rw [if_pos hex]
    exact hCl
  · rw [if_neg hex]
    cases hmk : mkUser uid t with
    | error m => exact hCl
    | ok u =>
      have hnone : lookupA st.users uid = none := by
        cases hl0 : lookupA st.users uid
        · rfl
        · rw [hl0] at hex
          exact absurd (by simp : (some _).isSome = true) hex
      have hled : u.bookingStatuses = [] := by
        unfold mkUser at hmk
        split at hmk
        · exact absurd hmk (by simp)
        · cases hmk
          rfl
      obtain ⟨hq, hwq, hcnt, hll⟩ := hCl
      refine ⟨queueInv_of_eq rfl rfl hq, waitlistedQueued_of_eq rfl rfl hwq,
        countInv_of_eq rfl rfl hcnt, ?_⟩
      intro uid2 uu hu id s hs
      by_cases he : uid2 = uid
      · subst he
        have hu2 : lookupA (emplaceA st.users uid2 u) uid2 = some uu := hu
        rw [lookupA_emplaceA_self _ _ _ hnone] at hu2
        rw [← Option.some.inj hu2, hled] at hs
        exact absurd hs (by simp [lookupA])
      · have hu2 : lookupA (emplaceA st.users uid u) uid2 = some uu := hu
        rw [lookupA_emplaceA_ne _ _ _ _ he] at hu2
        exact hll uid2 uu hu2 id s hs

theorem cleanInv_book_confirmed (st : SystemState) (now : Int) (u c : String)
    (conference conference2 : Conference)
    (hCl : CleanInv st)
    (husr : (lookupA st.users u).isSome)
    (hcl : lookupA st.conferences c = some conference)
    (hdec : conference.decreaseAvailableSlots = (true, conference2))
    (hfresh : lookupA st.bookings (mkBooking u c now).bookingId = none) :
    CleanInv
      (ledgerAdd
        { removeFromOverlappingWaitlists
            { st with conferences := setA st.conferences c conference2 }
            u conference2 with
          bookings := emplaceA
            (removeFromOverlappingWaitlists
              { st with conferences := setA st.conferences c conference2 }
              u conference2).bookings
            (mkBooking u c now).bookingId
            { mkBooking u c now with status := BookingStatus.CONFIRMED } }
        u (mkBooking u c now).bookingId BookingStatus.CONFIRMED) := by
  obtain ⟨hq, hwq, hcnt, hll⟩ := hCl
  obtain ⟨hc2eq, hcpos⟩ := decrease_true hdec
  set bid := (mkBooking u c now).bookingId with hbid
  set nb : Booking :=
    { mkBooking u c now with status := BookingStatus.CONFIRMED } with hnbdef
  set st1 : SystemState :=
    { st with conferences := setA st.conferences c conference2 } with hst1
  set st2 : SystemState :=
    removeFromOverlappingWaitlists st1 u conference2 with hst2
  have hq1 : QueueInv st1 := queueInv_of_eq rfl rfl hq
  have hwq1 : WaitlistedQueued st1 := waitlistedQueued_of_eq rfl rfl hwq
  have hll1 : LedgerLockstep st1 := ledgerLockstep_of_eq rfl rfl hll
  have hq2 : QueueInv st2 := queueInv_rfow st1 u conference2 hq1
  have hwq2 : WaitlistedQueued st2 :=
    waitlistedQueued_rfow st1 u conference2 hq1 hwq1
  have hll2 : LedgerLockstep st2 := ledgerLockstep_rfow st1 u conference2 hq1 hll1
  have hcount2 : ∀ cn2, confirmedCount st2 cn2 = confirmedCount st cn2 :=
    fun cn2 => confirmedCount_rfow st1 u conference2 hq1 cn2
  have hkeys2 : keysOf st2.bookings = keysOf st.bookings :=
    (coreStep_rfow st1 u conference2).1
  have hfresh2 : lookupA st2.bookings bid = none := by
    rw [lookupA_eq_none_iff, hkeys2, ← lookupA_eq_none_iff]
    exact hfresh
  have hemp : emplaceA st2.bookings bid nb = st2.bookings ++ [(bid, nb)] := by
    unfold emplaceA
    rw [if_neg (by simp [hfresh2])]
  have hconf2 : st2.conferences = setA st.conferences c conference2 :=
    removeFromOverlappingWaitlists_conferences st1 u conference2
  have husers2 : st2.users = st.users :=
    removeFromOverlappingWaitlists_users st1 u conference2
  obtain ⟨uu, huu⟩ := Option.isSome_iff_exists.mp husr
  set st3 : SystemState :=
    { st2 with bookings := emplaceA st2.bookings bid nb } with hst3
  have hu3 : lookupA st3.users u = some uu := by
    show lookupA st2.users u = some uu
    rw [husers2]
    exact huu
  have hfin : ledgerAdd st3 u bid BookingStatus.CONFIRMED =
      { st3 with
        users := setA st3.users u
          (uu.addBooking bid BookingStatus.CONFIRMED) } := by
    unfold ledgerAdd
    rw [hu3]
  rw [hfin]
  refine ⟨?_, ?_, ?_, ?_⟩
  · intro cn2
    refine ⟨(hq2 cn2).1, ?_⟩
    intro id hid
    obtain ⟨b, hb, hbw, hbc⟩ := (hq2 cn2).2 id hid
    have hne : id ≠ bid := by
      intro he
      rw [he, hfresh2] at hb
      exact Option.noConfusion hb
    refine ⟨b, ?_, hbw, hbc⟩
    show lookupA (emplaceA st2.bookings bid nb) id = some b
    rw [lookupA_emplaceA_ne _ _ _ _ hne]
    exact hb
  · intro id b hb hbW
    have hb' : lookupA (emplaceA st2.bookings bid nb) id = some b := hb
    by_cases he : id = bid
    · subst he
      rw [lookupA_emplaceA_self _ _ _ hfresh2] at hb'
      rw [← Option.some.inj hb'] at hbW
      exact BookingStatus.noConfusion hbW
    · rw [lookupA_emplaceA_ne _ _ _ _ he] at hb'
      exact hwq2 id b hb' hbW
  · intro cn2 c' hc'
    have hc2 : lookupA st2.conferences cn2 = some c' := hc'
    rw [hconf2] at hc2
    have hcountF : confirmedCount
        { st3 with
          users := setA st3.users u
            (uu.addBooking bid BookingStatus.CONFIRMED) } cn2 =
        confirmedCount st cn2 +
          (if nb.status = BookingStatus.CONFIRMED ∧ nb.conferenceName = cn2
           then 1 else 0) := by
      rw [confirmedCount_eq]
      show countBks (emplaceA st2.bookings bid nb) cn2 = _
      rw [hemp, countBks_append_fresh, ← confirmedCount_eq, hcount2]
    by_cases hcn : cn2 = c
    · subst hcn
      rw [lookupA_setA_self] at hc2
      rw [← Option.some.inj hc2]
      have horig := hcnt cn2 conference hcl
      rw [hcountF, if_pos ⟨rfl, rfl⟩, hc2eq]
      show ((confirmedCount st cn2 + 1 : Nat) : Int) =
        conference.totalSlots - (conference.availableSlots - 1)
      push_cast
      omega
    · rw [lookupA_setA_ne _ _ _ _ hcn] at hc2
      have horig := hcnt cn2 c' hc2
      rw [hcountF, if_neg ?_]
      · simpa using horig
      · rintro ⟨_, h2⟩
        exact hcn ((show nb.conferenceName = c from rfl) ▸ h2.symm ▸ rfl)
  · intro uid2 uu2 hu2 id s hs
    by_cases he : uid2 = u
    · subst he
      have hu2' : lookupA (setA st3.users uid2
          (uu.addBooking bid BookingStatus.CONFIRMED)) uid2 = some uu2 := hu2
      rw [lookupA_setA_self] at hu2'
      have huu2e := Option.some.inj hu2'
      rw [← huu2e] at hs
      have hs' : lookupA (setA uu.bookingStatuses bid BookingStatus.CONFIRMED)
          id = some s := hs
      by_cases hid : id = bid
      · subst hid
        rw [lookupA_setA_self] at hs'
        have hse := Option.some.inj hs'
        refine ⟨by rw [← hse]; decide, nb, ?_, rfl, fun _ => rfl⟩
        show lookupA (emplaceA st2.bookings bid nb) bid = some nb
        exact lookupA_emplaceA_self _ _ _ hfresh2
      · rw [lookupA_setA_ne _ _ _ _ hid] at hs'
        have huu2 : lookupA st2.users uid2 = some uu := by
          rw [husers2]
          exact huu
        obtain ⟨hsnc, b, hb, hbu, hbc⟩ := hll2 uid2 uu huu2 id s hs'
        refine ⟨hsnc, b, ?_, hbu, hbc⟩
        show lookupA (emplaceA st2.bookings bid nb) id = some b
        rw [lookupA_emplaceA_ne _ _ _ _ hid]
        exact hb
    · have hu2' : lookupA (setA st3.users u
          (uu.addBooking bid BookingStatus.CONFIRMED)) uid2 = some uu2 := hu2
      rw [lookupA_setA_ne _ _ _ _ he] at hu2'
      have hu2'' : lookupA st2.users uid2 = some uu2 := hu2'
      obtain ⟨hsnc, b, hb, hbu, hbc⟩ := hll2 uid2 uu2 hu2'' id s hs
      have hidne : id ≠ bid := by
        intro hee
        rw [hee, hfresh2] at hb
        exact Option.noConfusion hb
      refine ⟨hsnc, b, ?_, hbu, hbc⟩
      show lookupA (emplaceA st2.bookings bid nb) id = some b
      rw [lookupA_emplaceA_ne _ _ _ _ hidne]
      exact hb

theorem cleanInv_book_waitlisted (st : SystemState) (now : Int) (u c : String)
    (hCl : CleanInv st)
    (husr : (lookupA st.users u).isSome)
    (hfresh : lookupA st.bookings (mkBooking u c now).bookingId = none) :
    CleanInv
      (ledgerAdd
        { setWaitlist st c
            (getWaitlist st c ++ [(mkBooking u c now).bookingId]) with
          bookings := emplaceA
            (setWaitlist st c
              (getWaitlist st c ++ [(mkBooking u c now).bookingId])).bookings
            (mkBooking u c now).bookingId
            { mkBooking u c now with status := BookingStatus.WAITLISTED } }
        u (mkBooking u c now).bookingId BookingStatus.WAITLISTED) := by
  obtain ⟨hq, hwq, hcnt, hll⟩ := hCl
  set bid := (mkBooking u c now).bookingId with hbid
  set nb : Booking :=
    { mkBooking u c now with status := BookingStatus.WAITLISTED } with hnbdef
  set st1 : SystemState :=
    setWaitlist st c (getWaitlist st c ++ [bid]) with hst1
  have hemp : emplaceA st.bookings bid nb = st.bookings ++ [(bid, nb)] := by
    unfold emplaceA
    rw [if_neg (by simp [hfresh])]
  have hbidq : bid ∉ getWaitlist st c := by
    intro hm
    obtain ⟨b, hb, _, _⟩ := (hq c).2 bid hm
    rw [hfresh] at hb
    exact Option.noConfusion hb
  obtain ⟨uu, huu⟩ := Option.isSome_iff_exists.mp husr
  set st3 : SystemState :=
    { st1 with bookings := emplaceA st1.bookings bid nb } with hst3
  have hu3 : lookupA st3.users u = some uu := huu
  have hfin : ledgerAdd st3 u bid BookingStatus.WAITLISTED =
      { st3 with
        users := setA st3.users u
          (uu.addBooking bid BookingStatus.WAITLISTED) } := by
    unfold ledgerAdd
    rw [hu3]
  rw [hfin]
  have hwlself2 : getWaitlist
      { st3 with
        users := setA st3.users u
          (uu.addBooking bid BookingStatus.WAITLISTED) } c =
      getWaitlist st c ++ [bid] := getWaitlist_setWaitlist_self st c _
  have hwlne2 : ∀ cn2, cn2 ≠ c → getWaitlist
      { st3 with
        users := setA st3.users u
          (uu.addBooking bid BookingStatus.WAITLISTED) } cn2 =
      getWaitlist st cn2 :=
    fun cn2 hcn => getWaitlist_setWaitlist_ne st c cn2 _ hcn
  refine ⟨?_, ?_, ?_, ?_⟩
  · intro cn2
    by_cases hcn : cn2 = c
    · rw [hcn, hwlself2]
      constructor
      · rw [← List.concat_eq_append]
        exact List.Nodup.concat hbidq (hq c).1
      · intro id hid
        rcases List.mem_append.mp hid with hidl | hidr
        · obtain ⟨b, hb, hbw, hbc⟩ := (hq c).2 id hidl
          have hne : id ≠ bid := by
            intro he
            rw [he, hfresh] at hb
            exact Option.noConfusion hb
          refine ⟨b, ?_, hbw, hbc⟩
          show lookupA (emplaceA st.bookings bid nb) id = some b
          rw [lookupA_emplaceA_ne _ _ _ _ hne]
          exact hb
        · have he : id = bid := by simpa using hidr
          subst he
          refine ⟨nb, ?_, rfl, rfl⟩
          show lookupA (emplaceA st.bookings bid nb) bid = some nb
          exact lookupA_emplaceA_self _ _ _ hfresh
    · rw [hwlne2 cn2 hcn]
      refine ⟨(hq cn2).1, ?_⟩
      intro id hid
      obtain ⟨b, hb, hbw, hbc⟩ := (hq cn2).2 id hid
      have hne : id ≠ bid := by
        intro he
        rw [he, hfresh] at hb
        exact Option.noConfusion hb
      refine ⟨b, ?_, hbw, hbc⟩
      show lookupA (emplaceA st.bookings bid nb) id = some b
      rw [lookupA_emplaceA_ne _ _ _ _ hne]
      exact hb
  · intro id b hb hbW
    have hb' : lookupA (emplaceA st.bookings bid nb) id = some b := hb
    by_cases he : id = bid
    · subst he
      rw [lookupA_emplaceA_self _ _ _ hfresh] at hb'
      rw [← Option.some.inj hb']
      show bid ∈ getWaitlist _ c
      rw [hwlself2]
      exact List.mem_append_right _ (List.mem_singleton.mpr rfl)
    · rw [lookupA_emplaceA_ne _ _ _ _ he] at hb'
      have hmem := hwq id b hb' hbW
      by_cases hcc : b.conferenceName = c
      · rw [hcc]
        rw [hcc] at hmem
        rw [hwlself2]
        exact List.mem_append_left _ hmem
      · rw [hwlne2 _ hcc]
        exact hmem
  · intro cn2 c' hc'
    have hc2 : lookupA st.conferences cn2 = some c' := hc'
    have hcountF : confirmedCount
        { st3 with
          users := setA st3.users u
            (uu.addBooking bid BookingStatus.WAITLISTED) } cn2 =
        confirmedCount st cn2 := by
      have hcond : ¬(nb.status = BookingStatus.CONFIRMED ∧
          nb.conferenceName = cn2) := by
        rintro ⟨h1, _⟩
        exact BookingStatus.noConfusion h1
      rw [confirmedCount_eq]
      show countBks (emplaceA st.bookings bid nb) cn2 = _
      rw [hemp, countBks_append_fresh, ← confirmedCount_eq, if_neg hcond]
      omega
    rw [hcountF]
    exact hcnt cn2 c' hc2
  · intro uid2 uu2 hu2 id s hs
    by_cases he : uid2 = u
    · subst he
      have hu2' : lookupA (setA st3.users uid2
          (uu.addBooking bid BookingStatus.WAITLISTED)) uid2 = some uu2 := hu2
      rw [lookupA_setA_self] at hu2'
      rw [← Option.some.inj hu2'] at hs
      have hs' : lookupA (setA uu.bookingStatuses bid BookingStatus.WAITLISTED)
          id = some s := hs
      by_cases hid : id = bid
      · subst hid
        rw [lookupA_setA_self] at hs'
        have hse := Option.some.inj hs'
        refine ⟨by rw [← hse]; decide, nb, ?_, rfl, ?_⟩
        · show lookupA (emplaceA st.bookings bid nb) bid = some nb
          exact lookupA_emplaceA_self _ _ _ hfresh
        · intro hC
          rw [← hse] at hC
          exact BookingStatus.noConfusion hC
      · rw [lookupA_setA_ne _ _ _ _ hid] at hs'
        obtain ⟨hsnc, b, hb, hbu, hbc⟩ := hll uid2 uu huu id s hs'
        refine ⟨hsnc, b, ?_, hbu, hbc⟩
        show lookupA (emplaceA st.bookings bid nb) id = some b
        rw [lookupA_emplaceA_ne _ _ _ _ hid]
        exact hb
    · have hu2' : lookupA (setA st3.users u
          (uu.addBooking bid BookingStatus.WAITLISTED)) uid2 = some uu2 := hu2
      rw [lookupA_setA_ne _ _ _ _ he] at hu2'
      have hu2'' : lookupA st.users uid2 = some uu2 := hu2'
      obtain ⟨hsnc, b, hb, hbu, hbc⟩ := hll uid2 uu2 hu2'' id s hs
      have hidne : id ≠ bid := by
        intro hee
        rw [hee, hfresh] at hb
        exact Option.noConfusion hb
      refine ⟨hsnc, b, ?_, hbu, hbc⟩
      show lookupA (emplaceA st.bookings bid nb) id = some b
      rw [lookupA_emplaceA_ne _ _ _ _ hidne]
      exact hb

theorem cleanInv_bookConference (st : SystemState) (now : Int) (u c : String)
    (hCl : CleanInv st)
    (hclean : cleanStep st (Op.book now u c) = true) :
    CleanInv (bookConference st now u c).2 := by
  simp only [bookConference]
  split
  · exact hCl
  · rename_i husrne
    split
    · exact hCl
    · rename_i conference hcl
      split
      · exact hCl
      · rename_i hns
        split
        · exact hCl
        · rename_i hdup
          split
          · exact hCl
          · rename_i hcfne
            have hres : (bookConference st now u c).1 =
                Res.rId (mkBooking u c now).bookingId := by
              simp only [bookConference, hcl, hdup]
              rw [if_neg husrne, if_neg hns, if_neg hcfne]
              cases hdec0 : conference.decreaseAvailableSlots with
              | mk b0 c20 => cases b0 <;> rfl
            have hfresh : lookupA st.bookings
                (mkBooking u c now).bookingId = none := by
              have h0 : cleanStep st (Op.book now u c) = true := hclean
              simp only [cleanStep, hres] at h0
              cases hl0 : lookupA st.bookings (mkBooking u c now).bookingId
              · rfl
              · rw [hl0] at h0
                simp at h0
            split
            · rename_i conference2 hdec
              exact cleanInv_book_confirmed st now u c conference conference2
                hCl (not_isNone_isSome husrne) hcl hdec hfresh
            · rename_i c2 hdec
              exact cleanInv_book_waitlisted st now u c hCl
                (not_isNone_isSome husrne) hfresh

theorem setBookingStatus_lookup_ne (st : SystemState) (id : String)
    (s : BookingStatus) (id2 : String) (h : id2 ≠ id) :
    lookupA (setBookingStatus st id s).bookings id2 =
      lookupA st.bookings id2 := by
  rw [setBookingStatus_bookings_eq]
  cases hl : lookupA st.bookings id with
  | none => rfl
  | some b => exact lookupA_setA_ne _ _ _ _ h

theorem setBookingStatus_lookup_self (st : SystemState) (id : String)
    (s : BookingStatus) (b : Booking) (h : lookupA st.bookings id = some b) :
    lookupA (setBookingStatus st id s).bookings id =
      some { b with status := s } := by
  rw [setBookingStatus_bookings_eq, h]
  exact lookupA_setA_self _ _ _

theorem ledgerRemove_conferences (s : SystemState) (uid id : String) :
    (ledgerRemove s uid id).conferences = s.conferences := by
  unfold ledgerRemove
  cases lookupA s.users uid <;> rfl

theorem ledgerRemove_waitlists (s : SystemState) (uid id : String) :
    (ledgerRemove s uid id).waitlists = s.waitlists := by
  unfold ledgerRemove
  cases lookupA s.users uid <;> rfl

theorem ledgerRemove_bookings (s : SystemState) (uid id : String) :
    (ledgerRemove s uid id).bookings = s.bookings := by
  unfold ledgerRemove
  cases lookupA s.users uid <;> rfl

theorem countBks_pos (bks : List (String × Booking)) (bid : String)
    (b : Booking) (cn : String) (h : lookupA bks bid = some b)
    (hs : b.status = BookingStatus.CONFIRMED) (hc : b.conferenceName = cn) :
    1 ≤ countBks bks cn := by
  have hm := mem_of_lookupA_eq_some h
  unfold countBks
  have hmem : (bid, b) ∈ bks.filter fun p =>
      decide (p.2.status = BookingStatus.CONFIRMED) &&
      decide (p.2.conferenceName = cn) :=
    List.mem_filter.mpr ⟨hm, by simp [hs, hc]⟩
  exact List.length_pos_of_mem hmem

theorem cleanInv_cancel_confirmed (st : SystemState) (now : Int) (bid : String)
    (booking : Booking) (conference : Conference)
    (hInv : Inv2 st) (hCl : CleanInv st)
    (hb : lookupA st.bookings bid = some booking)
    (hsc : booking.status = BookingStatus.CONFIRMED)
    (hcc : lookupA st.conferences booking.conferenceName = some conference) :
    CleanInv
      (ledgerRemove
        (setBookingStatus
          (processWaitlist
            { st with conferences := (setA st.conferences
                booking.conferenceName conference.increaseAvailableSlots) }
            now booking.conferenceName)
          bid BookingStatus.CANCELED)
        booking.userId bid) := by
  obtain ⟨hq, hwq, hcnt, hll⟩ := hCl
  set cn := booking.conferenceName with hcndef
  set cinc := conference.increaseAvailableSlots with hcincdef
  set stc : SystemState :=
    { st with conferences := setA st.conferences cn cinc } with hstc
  set st1 : SystemState := processWaitlist stc now cn with hst1
  set st2 : SystemState := setBookingStatus st1 bid BookingStatus.CANCELED
    with hst2
  have hqc : QueueInv stc := queueInv_of_eq rfl rfl hq
  have hq1 : QueueInv st1 := queueInv_processWaitlist stc now cn hqc
  have hwq1 : WaitlistedQueued st1 :=
    waitlistedQueued_processWaitlist stc now cn
      (waitlistedQueued_of_eq rfl rfl hwq)
  have hll1 : LedgerLockstep st1 :=
    ledgerLockstep_processWaitlist stc now cn
      (ledgerLockstep_of_eq rfl rfl hll)
  have hbidnotq : ∀ cn2, bid ∉ getWaitlist st cn2 := by
    intro cn2 hm
    obtain ⟨b', hb', hbw', _⟩ := (hq cn2).2 bid hm
    rw [hb] at hb'
    rw [← Option.some.inj hb'] at hbw'
    rw [hsc] at hbw'
    exact BookingStatus.noConfusion hbw'
  have hb1 : lookupA st1.bookings bid =
      some (if (getWaitlist st cn).head? = some bid
            then setWaitlistConfirmationDeadline now booking else booking) := by
    have h0 := processWaitlist_lookup stc now cn bid
    rw [show lookupA stc.bookings bid = some booking from hb] at h0
    exact h0
  set b1 : Booking := (if (getWaitlist st cn).head? = some bid
      then setWaitlistConfirmationDeadline now booking else booking)
    with hb1def
  have hb1s : b1.status = BookingStatus.CONFIRMED := by
    rw [hb1def]
    by_cases hh : (getWaitlist st cn).head? = some bid
    · rw [if_pos hh]
      exact hsc
    · rw [if_neg hh]
      exact hsc
  have hb1c : b1.conferenceName = cn := by
    rw [hb1def]
    by_cases hh : (getWaitlist st cn).head? = some bid
    · rw [if_pos hh]
      rfl
    · rw [if_neg hh]
  have hb1u : b1.userId = booking.userId := by
    rw [hb1def]
    by_cases hh : (getWaitlist st cn).head? = some bid
    · rw [if_pos hh]
      rfl
    · rw [if_neg hh]
  have h2self : lookupA st2.bookings bid =
      some { b1 with status := BookingStatus.CANCELED } :=
    setBookingStatus_lookup_self st1 bid _ b1 hb1
  have h2ne : ∀ id2, id2 ≠ bid →
      lookupA st2.bookings id2 = lookupA st1.bookings id2 :=
    fun id2 h => setBookingStatus_lookup_ne st1 bid _ id2 h
  have hbks2 : st2.bookings =
      setA st1.bookings bid { b1 with status := BookingStatus.CANCELED } := by
    show (setBookingStatus st1 bid BookingStatus.CANCELED).bookings = _
    rw [setBookingStatus_bookings_eq, hb1]
  have hq2 : QueueInv st2 := by
    intro cn2
    refine ⟨(hq cn2).1, ?_⟩
    intro id hid
    obtain ⟨b, hb', hbw, hbc⟩ :=
      (hq1 cn2).2 id (show id ∈ getWaitlist st1 cn2 from hid)
    have hne : id ≠ bid := fun he => hbidnotq cn2 (he ▸ hid)
    exact ⟨b, by rw [h2ne id hne]; exact hb', hbw, hbc⟩
  have hwq2 : WaitlistedQueued st2 := by
    intro id b hb' hbw
    by_cases he : id = bid
    · subst he
      rw [h2self] at hb'
      rw [← Option.some.inj hb'] at hbw
      exact BookingStatus.noConfusion hbw
    · rw [h2ne id he] at hb'
      exact hwq1 id b hb' hbw
  have hcount1 : ∀ x, confirmedCount st1 x = confirmedCount st x :=
    fun x => confirmedCount_processWaitlist stc now cn x
  have hcountpos : 1 ≤ confirmedCount st cn := by
    rw [confirmedCount_eq]
    exact countBks_pos st.bookings bid booking cn hb hsc rfl
  have hcnt2 : CountInv st2 := by
    intro cn2 c' hc'
    have hc'' : lookupA (setA st.conferences cn cinc) cn2 = some c' := hc'
    have hkey := countBks_setA st1.bookings bid b1
      { b1 with status := BookingStatus.CANCELED } cn2 hb1
    by_cases hcn2 : cn2 = cn
    · subst hcn2
      rw [lookupA_setA_self] at hc''
      rw [← Option.some.inj hc'']
      rw [if_pos ⟨hb1s, hb1c⟩] at hkey
      rw [if_neg (fun hx => BookingStatus.noConfusion hx.1)] at hkey
      have hcA : confirmedCount st2 cn + 1 = confirmedCount st cn := by
        rw [confirmedCount_eq, hbks2]
        rw [← hcount1 cn, confirmedCount_eq]
        omega
      have horig := hcnt cn conference hcc
      have hlt : conference.availableSlots < conference.totalSlots := by
        omega
      have hcincval : cinc =
          { conference with
            availableSlots := conference.availableSlots + 1 } := by
        rw [hcincdef]
        unfold Conference.increaseAvailableSlots
        rw [if_pos hlt]
      rw [hcincval]
      show (confirmedCount st2 cn : Int) =
        conference.totalSlots - (conference.availableSlots + 1)
      omega
    · rw [lookupA_setA_ne _ _ _ _ hcn2] at hc''
      rw [if_neg (fun hx => hcn2 (by rw [← hx.2, hb1c]))] at hkey
      rw [if_neg (fun hx => BookingStatus.noConfusion hx.1)] at hkey
      have hcA : confirmedCount st2 cn2 = confirmedCount st cn2 := by
        rw [confirmedCount_eq, hbks2]
        rw [← hcount1 cn2, confirmedCount_eq]
        omega
      rw [hcA]
      exact hcnt cn2 c' hc''
  refine ⟨queueInv_of_eq (ledgerRemove_waitlists st2 _ _)
      (ledgerRemove_bookings st2 _ _) hq2,
    waitlistedQueued_of_eq (ledgerRemove_waitlists st2 _ _)
      (ledgerRemove_bookings st2 _ _) hwq2,
    countInv_of_eq (ledgerRemove_conferences st2 _ _)
      (ledgerRemove_bookings st2 _ _) hcnt2, ?_⟩
  unfold ledgerRemove
  cases hown : lookupA st2.users booking.userId with
  | none =>
    intro uid2 uu2 hu2 id s hs
    have hu2' : lookupA st1.users uid2 = some uu2 := hu2
    obtain ⟨hsnc, b, hb', hbu, hbc⟩ := hll1 uid2 uu2 hu2' id s hs
    by_cases hide : id = bid
    · exfalso
      subst hide
      rw [hb1] at hb'
      have hbe : b1 = b := Option.some.inj hb'
      rw [← hbe, hb1u] at hbu
      rw [hbu] at hown
      have hown' : lookupA st1.users uid2 = none := hown
      rw [hu2'] at hown'
      exact Option.noConfusion hown'
    · refine ⟨hsnc, b, ?_, hbu, hbc⟩
      show lookupA st2.bookings id = some b
      rw [h2ne id hide]
      exact hb'
  | some owner =>
    intro uid2 uu2 hu2 id s hs
    have hown1 : lookupA st1.users booking.userId = some owner := hown
    by_cases hu2e : uid2 = booking.userId
    · subst hu2e
      have hu2' : lookupA (setA st2.users booking.userId
          (owner.removeBooking bid)) booking.userId = some uu2 := hu2
      rw [lookupA_setA_self] at hu2'
      rw [← Option.some.inj hu2'] at hs
      have hs' : lookupA (eraseA owner.bookingStatuses bid) id = some s := hs
      by_cases hide : id = bid
      · exfalso
        subst hide
        have hmem := mem_of_lookupA_eq_some hs'
        rw [mem_eraseA (hInv.1.2.2.2.2 booking.userId owner hown1) id]
          at hmem
        exact hmem.2 rfl
      · rw [lookupA_eraseA_ne _ _ _ hide] at hs'
        obtain ⟨hsnc, b, hb', hbu, hbc⟩ :=
          hll1 booking.userId owner hown1 id s hs'
        refine ⟨hsnc, b, ?_, hbu, hbc⟩
        show lookupA st2.bookings id = some b
        rw [h2ne id hide]
        exact hb'
    · have hu2' : lookupA (setA st2.users booking.userId
          (owner.removeBooking bid)) uid2 = some uu2 := hu2
      rw [lookupA_setA_ne _ _ _ _ hu2e] at hu2'
      have hu2'' : lookupA st1.users uid2 = some uu2 := hu2'
      obtain ⟨hsnc, b, hb', hbu, hbc⟩ := hll1 uid2 uu2 hu2'' id s hs
      by_cases hide : id = bid
      · exfalso
        subst hide
        rw [hb1] at hb'
        have hbe : b1 = b := Option.some.inj hb'
        rw [← hbe, hb1u] at hbu
        exact hu2e hbu.symm
      · refine ⟨hsnc, b, ?_, hbu, hbc⟩
        show lookupA st2.bookings id = some b
        rw [h2ne id hide]
        exact hb'

theorem cleanInv_cancel_waitlisted (st : SystemState) (bid : String)
    (booking : Booking)
    (hInv : Inv2 st) (hCl : CleanInv st)
    (hb : lookupA st.bookings bid = some booking)
    (hsw : booking.status = BookingStatus.WAITLISTED) :
    CleanInv
      (ledgerRemove
        (setBookingStatus
          (setWaitlist st booking.conferenceName
            (removeId (getWaitlist st booking.conferenceName) bid))
          bid BookingStatus.CANCELED)
        booking.userId bid) := by
  obtain ⟨hq, hwq, hcnt, hll⟩ := hCl
  set cn := booking.conferenceName with hcndef
  set st1 : SystemState :=
    setWaitlist st cn (removeId (getWaitlist st cn) bid) with hst1
  set st2 : SystemState := setBookingStatus st1 bid BookingStatus.CANCELED
    with hst2
  have hb1 : lookupA st1.bookings bid = some booking := hb
  have h2self : lookupA st2.bookings bid =
      some { booking with status := BookingStatus.CANCELED } :=
    setBookingStatus_lookup_self st1 bid _ booking hb1
  have h2ne : ∀ id2, id2 ≠ bid →
      lookupA st2.bookings id2 = lookupA st1.bookings id2 :=
    fun id2 h => setBookingStatus_lookup_ne st1 bid _ id2 h
  have hbks2 : st2.bookings =
      setA st.bookings bid { booking with status := BookingStatus.CANCELED } := by
    show (setBookingStatus st1 bid BookingStatus.CANCELED).bookings = _
    rw [setBookingStatus_bookings_eq, hb1]
    rfl
  have hwlself : getWaitlist st1 cn = removeId (getWaitlist st cn) bid :=
    getWaitlist_setWaitlist_self st cn _
  have hwlne : ∀ cn2, cn2 ≠ cn → getWaitlist st1 cn2 = getWaitlist st cn2 :=
    fun cn2 h => getWaitlist_setWaitlist_ne st cn cn2 _ h
  have hbid_other : ∀ cn2, cn2 ≠ cn → bid ∉ getWaitlist st cn2 := by
    intro cn2 hcn2 hm
    obtain ⟨b', hb', _, hbc'⟩ := (hq cn2).2 bid hm
    rw [hb] at hb'
    rw [← Option.some.inj hb'] at hbc'
    exact hcn2 hbc'.symm
  have hq2 : QueueInv st2 := by
    intro cn2
    by_cases hcn2 : cn2 = cn
    · rw [hcn2]
      rw [show getWaitlist st2 cn = getWaitlist st1 cn from rfl, hwlself]
      constructor
      · exact removeId_nodup bid (hq cn).1
      · intro id hid
        rw [mem_removeId] at hid
        obtain ⟨b, hb', hbw, hbc⟩ := (hq cn).2 id hid.1
        refine ⟨b, ?_, hbw, hbc⟩
        rw [h2ne id hid.2]
        exact hb'
    · rw [show getWaitlist st2 cn2 = getWaitlist st1 cn2 from rfl,
        hwlne cn2 hcn2]
      refine ⟨(hq cn2).1, ?_⟩
      intro id hid
      obtain ⟨b, hb', hbw, hbc⟩ := (hq cn2).2 id hid
      have hne : id ≠ bid := fun he => hbid_other cn2 hcn2 (he ▸ hid)
      refine ⟨b, ?_, hbw, hbc⟩
      rw [h2ne id hne]
      exact hb'
  have hwq2 : WaitlistedQueued st2 := by
    intro id b hb' hbw
    by_cases he : id = bid
    · subst he
      rw [h2self] at hb'
      rw [← Option.some.inj hb'] at hbw
      exact BookingStatus.noConfusion hbw
    · rw [h2ne id he] at hb'
      have hmem := hwq id b hb' hbw
      by_cases hcc : b.conferenceName = cn
      · rw [hcc]
        rw [hcc] at hmem
        show id ∈ getWaitlist st1 cn
        rw [hwlself, mem_removeId]
        exact ⟨hmem, he⟩
      · show id ∈ getWaitlist st1 b.conferenceName
        rw [hwlne _ hcc]
        exact hmem
  have hcnt2 : CountInv st2 := by
    intro cn2 c' hc'
    have hc'' : lookupA st.conferences cn2 = some c' := hc'
    have hkey := countBks_setA st.bookings bid booking
      { booking with status := BookingStatus.CANCELED } cn2 hb
    rw [if_neg (fun hx => BookingStatus.noConfusion (hsw ▸ hx.1))] at hkey
    rw [if_neg (fun hx => BookingStatus.noConfusion hx.1)] at hkey
    have hcA : confirmedCount st2 cn2 = confirmedCount st cn2 := by
      rw [confirmedCount_eq, hbks2, confirmedCount_eq]
      omega
    rw [hcA]
    exact hcnt cn2 c' hc''
  refine ⟨queueInv_of_eq (ledgerRemove_waitlists st2 _ _)
      (ledgerRemove_bookings st2 _ _) hq2,
    waitlistedQueued_of_eq (ledgerRemove_waitlists st2 _ _)
      (ledgerRemove_bookings st2 _ _) hwq2,
    countInv_of_eq (ledgerRemove_conferences st2 _ _)
      (ledgerRemove_bookings st2 _ _) hcnt2, ?_⟩
  unfold ledgerRemove
  cases hown : lookupA st2.users booking.userId with
  | none =>
    intro uid2 uu2 hu2 id s hs
    have hu2' : lookupA st.users uid2 = some uu2 := hu2
    obtain ⟨hsnc, b, hb', hbu, hbc⟩ := hll uid2 uu2 hu2' id s hs
    by_cases hide : id = bid
    · exfalso
      subst hide
      rw [hb] at hb'
      rw [← Option.some.inj hb'] at hbu
      rw [hbu] at hown
      have hown' : lookupA st.users uid2 = none := hown
      rw [hu2'] at hown'
      exact Option.noConfusion hown'
    · refine ⟨hsnc, b, ?_, hbu, hbc⟩
      show lookupA st2.bookings id = some b
      rw [h2ne id hide]
      exact hb'
  | some owner =>
    intro uid2 uu2 hu2 id s hs
    have hown1 : lookupA st.users booking.userId = some owner := hown
    by_cases hu2e : uid2 = booking.userId
    · subst hu2e
      have hu2' : lookupA (setA st2.users booking.userId
          (owner.removeBooking bid)) booking.userId = some uu2 := hu2
      rw [lookupA_setA_self] at hu2'
      rw [← Option.some.inj hu2'] at hs
      have hs' : lookupA (eraseA owner.bookingStatuses bid) id = some s := hs
      by_cases hide : id = bid
      · exfalso
        subst hide
        have hmem := mem_of_lookupA_eq_some hs'
        rw [mem_eraseA (hInv.1.2.2.2.2 booking.userId owner hown1) id]
          at hmem
        exact hmem.2 rfl
      · rw [lookupA_eraseA_ne _ _ _ hide] at hs'
        obtain ⟨hsnc, b, hb', hbu, hbc⟩ :=
          hll booking.userId owner hown1 id s hs'
        refine ⟨hsnc, b, ?_, hbu, hbc⟩
        show lookupA st2.bookings id = some b
        rw [h2ne id hide]
        exact hb'
    · have hu2' : lookupA (setA st2.users booking.userId
          (owner.removeBooking bid)) uid2 = some uu2 := hu2
      rw [lookupA_setA_ne _ _ _ _ hu2e] at hu2'
      have hu2'' : lookupA st.users uid2 = some uu2 := hu2'
      obtain ⟨hsnc, b, hb', hbu, hbc⟩ := hll uid2 uu2 hu2'' id s hs
      by_cases hide : id = bid
      · exfalso
        subst hide
        rw [hb] at hb'
        rw [← Option.some.inj hb'] at hbu
        exact hu2e hbu.symm
      · refine ⟨hsnc, b, ?_, hbu, hbc⟩
        show lookupA st2.bookings id = some b
        rw [h2ne id hide]
        exact hb'

theorem cleanInv_cancelBooking (st : SystemState) (now : Int) (bid : String)
    (hInv : Inv2 st) (hCl : CleanInv st) :
    CleanInv (cancelBooking st now bid).2 := by
  simp only [cancelBooking]
  split
  · exact hCl
  · rename_i booking hb
    split
    · exact hCl
    · rename_i hnc
      split
      · exact hCl
      · rename_i conference hcc
        split
        · exact hCl
        · by_cases hsc : booking.status = BookingStatus.CONFIRMED
          · rw [if_pos hsc]
            exact cleanInv_cancel_confirmed st now bid booking conference
              hInv hCl hb hsc hcc
          · by_cases hsw : booking.status = BookingStatus.WAITLISTED
            · rw [if_neg hsc, if_pos hsw]
              exact cleanInv_cancel_waitlisted st bid booking hInv hCl hb hsw
            · exfalso
              cases hstt : booking.status with
              | CONFIRMED => exact hsc hstt
              | WAITLISTED => exact hsw hstt
              | CANCELED => exact hnc hstt

theorem cleanInv_processWaitlist (st : SystemState) (now : Int) (cn : String)
    (hCl : CleanInv st) : CleanInv (processWaitlist st now cn) := by
  obtain ⟨hq, hwq, hcnt, hll⟩ := hCl
  refine ⟨queueInv_processWaitlist st now cn hq,
    waitlistedQueued_processWaitlist st now cn hwq, ?_,
    ledgerLockstep_processWaitlist st now cn hll⟩
  intro cn2 c' hc'
  rw [confirmedCount_processWaitlist st now cn cn2]
  exact hcnt cn2 c' hc'

theorem cleanInv_cancelAll (st : SystemState) (cn : String)
    (hCl : CleanInv st) : CleanInv (cancelAllWaitlistedBookings st cn) := by
  obtain ⟨hq, hwq, hcnt, hll⟩ := hCl
  refine ⟨queueInv_cancelAll st cn hq,
    waitlistedQueued_cancelAll st cn hq hwq, ?_,
    ledgerLockstep_cancelAll st cn hq hll⟩
  intro cn2 c' hc'
  rw [confirmedCount_cancelAll st cn hq cn2]
  exact hcnt cn2 c' hc'

theorem cleanInv_confirm_success (st : SystemState) (bid : String)
    (booking : Booking) (conference conference2 : Conference)
    (hCl : CleanInv st)
    (hb : lookupA st.bookings bid = some booking)
    (hW : booking.status = BookingStatus.WAITLISTED)
    (hcc : lookupA st.conferences booking.conferenceName = some conference)
    (hdec : conference.decreaseAvailableSlots = (true, conference2)) :
    CleanInv
      (removeFromOverlappingWaitlists
        (setBookingStatus
          (setWaitlist
            { st with conferences := (setA st.conferences
                booking.conferenceName conference2) }
            booking.conferenceName
            (removeId (getWaitlist
              { st with conferences := (setA st.conferences
                  booking.conferenceName conference2) }
              booking.conferenceName) bid))
          bid BookingStatus.CONFIRMED)
        booking.userId conference2) := by
  obtain ⟨hq, hwq, hcnt, hll⟩ := hCl
  obtain ⟨hc2eq, hcpos⟩ := decrease_true hdec
  set cn := booking.conferenceName with hcndef
  set st1 : SystemState :=
    { st with conferences := setA st.conferences cn conference2 } with hst1
  set st2 : SystemState :=
    setWaitlist st1 cn (removeId (getWaitlist st1 cn) bid) with hst2
  set st3 : SystemState := setBookingStatus st2 bid BookingStatus.CONFIRMED
    with hst3
  have hb2 : lookupA st2.bookings bid = some booking := hb
  have h3self : lookupA st3.bookings bid =
      some { booking with status := BookingStatus.CONFIRMED } :=
    setBookingStatus_lookup_self st2 bid _ booking hb2
  have h3ne : ∀ id2, id2 ≠ bid →
      lookupA st3.bookings id2 = lookupA st2.bookings id2 :=
    fun id2 h => setBookingStatus_lookup_ne st2 bid _ id2 h
  have hbks3 : st3.bookings =
      setA st.bookings bid { booking with status := BookingStatus.CONFIRMED } := by
    show (setBookingStatus st2 bid BookingStatus.CONFIRMED).bookings = _
    rw [setBookingStatus_bookings_eq, hb2]
    rfl
  have hwlself : getWaitlist st2 cn = removeId (getWaitlist st cn) bid :=
    getWaitlist_setWaitlist_self st1 cn _
  have hwlne : ∀ cn2, cn2 ≠ cn → getWaitlist st2 cn2 = getWaitlist st cn2 :=
    fun cn2 h => getWaitlist_setWaitlist_ne st1 cn cn2 _ h
  have hbid_other : ∀ cn2, cn2 ≠ cn → bid ∉ getWaitlist st cn2 := by
    intro cn2 hcn2 hm
    obtain ⟨b', hb', _, hbc'⟩ := (hq cn2).2 bid hm
    rw [hb] at hb'
    rw [← Option.some.inj hb'] at hbc'
    exact hcn2 hbc'.symm
  have hq3 : QueueInv st3 := by
    intro cn2
    by_cases hcn2 : cn2 = cn
    · rw [hcn2]
      rw [show getWaitlist st3 cn = getWaitlist st2 cn from rfl, hwlself]
      constructor
      · exact removeId_nodup bid (hq cn).1
      · intro id hid
        rw [mem_removeId] at hid
        obtain ⟨b, hb', hbw, hbc⟩ := (hq cn).2 id hid.1
        refine ⟨b, ?_, hbw, hbc⟩
        rw [h3ne id hid.2]
        exact hb'
    · rw [show getWaitlist st3 cn2 = getWaitlist st2 cn2 from rfl,
        hwlne cn2 hcn2]
      refine ⟨(hq cn2).1, ?_⟩
      intro id hid
      obtain ⟨b, hb', hbw, hbc⟩ := (hq cn2).2 id hid
      have hne : id ≠ bid := fun he => hbid_other cn2 hcn2 (he ▸ hid)
      refine ⟨b, ?_, hbw, hbc⟩
      rw [h3ne id hne]
      exact hb'
  have hwq3 : WaitlistedQueued st3 := by
    intro id b hb' hbw
    by_cases he : id = bid
    · subst he
      rw [h3self] at hb'
      rw [← Option.some.inj hb'] at hbw
      exact BookingStatus.noConfusion hbw
    · rw [h3ne id he] at hb'
      have hmem := hwq id b hb' hbw
      by_cases hcc2 : b.conferenceName = cn
      · rw [hcc2]
        rw [hcc2] at hmem
        show id ∈ getWaitlist st2 cn
        rw [hwlself, mem_removeId]
        exact ⟨hmem, he⟩
      · show id ∈ getWaitlist st2 b.conferenceName
        rw [hwlne _ hcc2]
        exact hmem
  have hcnt3 : CountInv st3 := by
    intro cn2 c' hc'
    have hc'' : lookupA (setA st.conferences cn conference2) cn2 = some c' :=
      hc'
    by_cases hcn2 : cn2 = cn
    · rw [hcn2] at hc'' ⊢
      rw [lookupA_setA_self] at hc''
      rw [← Option.some.inj hc'']
      have hkey := countBks_setA st.bookings bid booking
        { booking with status := BookingStatus.CONFIRMED } cn hb
      rw [if_neg (fun hx => BookingStatus.noConfusion (hW ▸ hx.1))] at hkey
      rw [if_pos ⟨rfl, hcndef.symm⟩] at hkey
      have hcA : confirmedCount st3 cn = confirmedCount st cn + 1 := by
        rw [confirmedCount_eq, hbks3, confirmedCount_eq]
        omega
      have horig := hcnt cn conference hcc
      rw [hcA, hc2eq]
      show ((confirmedCount st cn + 1 : Nat) : Int) =
        conference.totalSlots - (conference.availableSlots - 1)
      push_cast
      omega
    · rw [lookupA_setA_ne _ _ _ _ hcn2] at hc''
      have hkey := countBks_setA st.bookings bid booking
        { booking with status := BookingStatus.CONFIRMED } cn2 hb
      rw [if_neg (fun hx => BookingStatus.noConfusion (hW ▸ hx.1))] at hkey
      rw [if_neg (fun hx => hcn2 (by rw [← hx.2]))] at hkey
      have hcA : confirmedCount st3 cn2 = confirmedCount st cn2 := by
        rw [confirmedCount_eq, hbks3, confirmedCount_eq]
        omega
      rw [hcA]
      exact hcnt cn2 c' hc''
  have hll3 : LedgerLockstep st3 := by
    intro uid2 uu2 hu2 id s hs
    have hu2' : lookupA st.users uid2 = some uu2 := hu2
    obtain ⟨hsnc, b, hb', hbu, hbc⟩ := hll uid2 uu2 hu2' id s hs
    by_cases hide : id = bid
    · subst hide
      rw [hb] at hb'
      have hbe : booking = b := Option.some.inj hb'
      refine ⟨hsnc, { booking with status := BookingStatus.CONFIRMED },
        h3self, ?_, fun _ => rfl⟩
      show booking.userId = uid2
      rw [hbe]
      exact hbu
    · refine ⟨hsnc, b, ?_, hbu, hbc⟩
      rw [h3ne id hide]
      exact hb'
  refine ⟨queueInv_rfow st3 booking.userId conference2 hq3,
    waitlistedQueued_rfow st3 booking.userId conference2 hq3 hwq3, ?_,
    ledgerLockstep_rfow st3 booking.userId conference2 hq3 hll3⟩
  intro cn2 c' hc'
  have hc'' : lookupA st3.conferences cn2 = some c' := by
    rw [← removeFromOverlappingWaitlists_conferences st3 booking.userId
      conference2]
    exact hc'
  rw [confirmedCount_rfow st3 booking.userId conference2 hq3 cn2]
  exact hcnt3 cn2 c' hc''

theorem cleanInv_confirm_expired (st : SystemState) (bid : String)
    (booking : Booking)
    (hCl : CleanInv st)
    (hb : lookupA st.bookings bid = some booking)
    (hW : booking.status = BookingStatus.WAITLISTED) :
    CleanInv
      (setWaitlist st booking.conferenceName
        (removeId (getWaitlist st booking.conferenceName) bid ++
          if bid ∈ getWaitlist st booking.conferenceName then [bid]
          else [])) := by
  obtain ⟨hq, hwq, hcnt, hll⟩ := hCl
  set cn := booking.conferenceName with hcndef
  set uq := removeId (getWaitlist st cn) bid ++
    (if bid ∈ getWaitlist st cn then [bid] else []) with huq
  set st1 := setWaitlist st cn uq with hst1
  have hwlself : getWaitlist st1 cn = uq :=
    getWaitlist_setWaitlist_self st cn uq
  have hwlne : ∀ cn2, cn2 ≠ cn → getWaitlist st1 cn2 = getWaitlist st cn2 :=
    fun cn2 h => getWaitlist_setWaitlist_ne st cn cn2 uq h
  refine ⟨?_, ?_, countInv_of_eq rfl rfl hcnt, ledgerLockstep_of_eq rfl rfl hll⟩
  · intro cn2
    by_cases hcn2 : cn2 = cn
    · rw [hcn2, hwlself, huq]
      constructor
      · by_cases hm : bid ∈ getWaitlist st cn
        · rw [if_pos hm, ← List.concat_eq_append]
          refine List.Nodup.concat ?_ (removeId_nodup bid (hq cn).1)
          intro hmm
          exact ((mem_removeId _ _ _).mp hmm).2 rfl
        · rw [if_neg hm]
          simp only [List.append_nil]
          exact removeId_nodup bid (hq cn).1
      · intro id hid
        rcases List.mem_append.mp hid with hidl | hidr
        · rw [mem_removeId] at hidl
          obtain ⟨b, hb', hbw, hbc⟩ := (hq cn).2 id hidl.1
          exact ⟨b, hb', hbw, hbc⟩
        · by_cases hm : bid ∈ getWaitlist st cn
          · rw [if_pos hm] at hidr
            have he : id = bid := by simpa using hidr
            subst he
            exact ⟨booking, hb, hW, hcndef.symm⟩
          · rw [if_neg hm] at hidr
            exact absurd hidr (by simp)
    · rw [hwlne cn2 hcn2]
      refine ⟨(hq cn2).1, ?_⟩
      intro id hid
      exact (hq cn2).2 id hid
  · intro id b hb' hbw
    have hb'' : lookupA st.bookings id = some b := hb'
    have hmem := hwq id b hb'' hbw
    by_cases hcc2 : b.conferenceName = cn
    · rw [hcc2] at hmem ⊢
      rw [hwlself, huq]
      by_cases he : id = bid
      · rw [he] at hmem ⊢
        rw [if_pos hmem]
        exact List.mem_append_right _ (List.mem_singleton.mpr rfl)
      · refine List.mem_append_left _ ?_
        rw [mem_removeId]
        exact ⟨hmem, he⟩
    · rw [hwlne _ hcc2]
      exact hmem

theorem cleanInv_confirmWaitlistedBooking (st : SystemState) (now : Int)
    (bid : String) (hCl : CleanInv st) :
    CleanInv (confirmWaitlistedBooking st now bid).2 := by
  simp only [confirmWaitlistedBooking]
  split
  · exact hCl
  · rename_i booking hb
    split
    · exact hCl
    · rename_i hwstat
      rw [ne_eq, Decidable.not_not] at hwstat
      split
      · exact hCl
      · rename_i conference hcc
        split
        · exact cleanInv_cancelAll st booking.conferenceName hCl
        · split
          · have hcl1 : CleanInv (setWaitlist st booking.conferenceName
                (removeId (getWaitlist st booking.conferenceName) bid ++
                  if bid ∈ getWaitlist st booking.conferenceName then [bid]
                  else [])) :=
              cleanInv_confirm_expired st bid booking hCl hb hwstat
            split
            · exact cleanInv_processWaitlist _ now _ hcl1
            · exact hcl1
          · split
            · exact hCl
            · split
              · exact hCl
              · rename_i conference2 hdec
                exact cleanInv_confirm_success st bid booking conference
                  conference2 hCl hb hwstat hcc hdec

/-! ### Preservation of `NonHeadNoDeadline` -/

theorem nonHead_setBookingStatus (st : SystemState) (id : String)
    (s : BookingStatus) (hnh : NonHeadNoDeadline st) :
    NonHeadNoDeadline (setBookingStatus st id s) := by
  intro cn2 id2 hid b hb
  rw [setBookingStatus_bookings_eq] at hb
  cases hl : lookupA st.bookings id with
  | none =>
    rw [hl] at hb
    exact hnh cn2 id2 hid b hb
  | some b0 =>
    rw [hl] at hb
    by_cases he : id2 = id
    · rw [he] at hb
      rw [lookupA_setA_self] at hb
      have := hnh cn2 id2 hid b0 (by rw [he]; exact hl)
      rw [← Option.some.inj hb]
      exact this
    · rw [lookupA_setA_ne _ _ _ _ he] at hb
      exact hnh cn2 id2 hid b hb

theorem tail_removeId_subset (q : List String) (bid : String)
    (hnd : q.Nodup) : (removeId q bid).tail ⊆ q.tail := by
  cases q with
  | nil => simp [removeId]
  | cons h t =>
    by_cases hh : h = bid
    · rw [removeId, if_pos hh]
      have hnm : bid ∉ t := by
        rw [← hh]
        exact (List.nodup_cons.mp hnd).1
      rw [removeId_of_not_mem hnm]
      exact fun x hx => (List.tail_sublist t).subset hx
    · rw [removeId, if_neg hh]
      intro x hx
      exact (removeId_sublist t bid).subset hx

theorem nonHead_book_confirmed (st : SystemState) (now : Int) (u c : String)
    (conference2 : Conference)
    (hCl : CleanInv st) (hnh : NonHeadNoDeadline st)
    (hfresh : lookupA st.bookings (mkBooking u c now).bookingId = none) :
    NonHeadNoDeadline
      (ledgerAdd
        { removeFromOverlappingWaitlists
            { st with conferences := setA st.conferences c conference2 }
            u conference2 with
          bookings := emplaceA
            (removeFromOverlappingWaitlists
              { st with conferences := setA st.conferences c conference2 }
              u conference2).bookings
            (mkBooking u c now).bookingId
            { mkBooking u c now with status := BookingStatus.CONFIRMED } }
        u (mkBooking u c now).bookingId BookingStatus.CONFIRMED) := by
  obtain ⟨hq, hwq, hcnt, hll⟩ := hCl
  set bid := (mkBooking u c now).bookingId with hbid
  set nb : Booking :=
    { mkBooking u c now with status := BookingStatus.CONFIRMED } with hnbdef
  set st1 : SystemState :=
    { st with conferences := setA st.conferences c conference2 } with hst1
  set st2 : SystemState :=
    removeFromOverlappingWaitlists st1 u conference2 with hst2
  have hq1 : QueueInv st1 := queueInv_of_eq rfl rfl hq
  have hq2 : QueueInv st2 := queueInv_rfow st1 u conference2 hq1
  have hnh2 : NonHeadNoDeadline st2 :=
    nonHead_rfow st1 u conference2 (nonHead_of_eq rfl rfl hnh)
  have hkeys2 : keysOf st2.bookings = keysOf st.bookings :=
    (coreStep_rfow st1 u conference2).1
  have hfresh2 : lookupA st2.bookings bid = none := by
    rw [lookupA_eq_none_iff, hkeys2, ← lookupA_eq_none_iff]
    exact hfresh
  refine nonHead_of_eq (ledgerAdd_waitlists _ _ _ _)
    (ledgerAdd_bookings _ _ _ _) ?_
  intro cn2 id hid b hb
  have hid2 : id ∈ (getWaitlist st2 cn2).tail := hid
  have hmem : id ∈ getWaitlist st2 cn2 := (List.tail_sublist _).subset hid2
  obtain ⟨b0, hb0, _, _⟩ := (hq2 cn2).2 id hmem
  have hne : id ≠ bid := by
    intro he
    rw [he, hfresh2] at hb0
    exact Option.noConfusion hb0
  have hb' : lookupA (emplaceA st2.bookings bid nb) id = some b := hb
  rw [lookupA_emplaceA_ne _ _ _ _ hne] at hb'
  exact hnh2 cn2 id hid2 b hb'

theorem nonHead_book_waitlisted (st : SystemState) (now : Int) (u c : String)
    (hCl : CleanInv st) (hnh : NonHeadNoDeadline st)
    (hfresh : lookupA st.bookings (mkBooking u c now).bookingId = none) :
    NonHeadNoDeadline
      (ledgerAdd
        { setWaitlist st c
            (getWaitlist st c ++ [(mkBooking u c now).bookingId]) with
          bookings := emplaceA
            (setWaitlist st c
              (getWaitlist st c ++ [(mkBooking u c now).bookingId])).bookings
            (mkBooking u c now).bookingId
            { mkBooking u c now with status := BookingStatus.WAITLISTED } }
        u (mkBooking u c now).bookingId BookingStatus.WAITLISTED) := by
  obtain ⟨hq, hwq, hcnt, hll⟩ := hCl
  set bid := (mkBooking u c now).bookingId with hbid
  set nb : Booking :=
    { mkBooking u c now with status := BookingStatus.WAITLISTED } with hnbdef
  refine nonHead_of_eq (ledgerAdd_waitlists _ _ _ _)
    (ledgerAdd_bookings _ _ _ _) ?_
  have hql : getWaitlist
      { setWaitlist st c (getWaitlist st c ++ [bid]) with
        bookings := emplaceA
          (setWaitlist st c (getWaitlist st c ++ [bid])).bookings bid nb } c =
      getWaitlist st c ++ [bid] := getWaitlist_setWaitlist_self st c _
  have hqlne : ∀ cn2, cn2 ≠ c → getWaitlist
      { setWaitlist st c (getWaitlist st c ++ [bid]) with
        bookings := emplaceA
          (setWaitlist st c (getWaitlist st c ++ [bid])).bookings bid nb }
      cn2 = getWaitlist st cn2 :=
    fun cn2 h => getWaitlist_setWaitlist_ne st c cn2 _ h
  intro cn2 id hid b hb
  have hb0 : lookupA (emplaceA st.bookings bid nb) id = some b := hb
  by_cases hcn : cn2 = c
  · rw [hcn] at hid
    rw [hql] at hid
    cases hqlc : getWaitlist st c with
    | nil =>
      rw [hqlc] at hid
      exact absurd hid (by simp)
    | cons h t =>
      rw [hqlc] at hid
      have hid2 : id ∈ t ++ [bid] := hid
      rcases List.mem_append.mp hid2 with hl | hr
      · have hidq : id ∈ getWaitlist st c := by
          rw [hqlc]
          exact List.mem_cons_of_mem _ hl
        obtain ⟨b1, hb1, _, _⟩ := (hq c).2 id hidq
        have hne : id ≠ bid := by
          intro he
          rw [he, hfresh] at hb1
          exact Option.noConfusion hb1
        rw [lookupA_emplaceA_ne _ _ _ _ hne] at hb0
        refine hnh c id ?_ b hb0
        rw [hqlc]
        exact hl
      · have he : id = bid := by simpa using hr
        rw [he] at hb0
        rw [lookupA_emplaceA_self _ _ _ hfresh] at hb0
        rw [← Option.some.inj hb0]
        rfl
  · rw [hqlne cn2 hcn] at hid
    have hidq : id ∈ getWaitlist st cn2 := (List.tail_sublist _).subset hid
    obtain ⟨b1, hb1, _, _⟩ := (hq cn2).2 id hidq
    have hne : id ≠ bid := by
      intro he
      rw [he, hfresh] at hb1
      exact Option.noConfusion hb1
    rw [lookupA_emplaceA_ne _ _ _ _ hne] at hb0
    exact hnh cn2 id hid b hb0

theorem nonHead_bookConference (st : SystemState) (now : Int) (u c : String)
    (hCl : CleanInv st) (hnh : NonHeadNoDeadline st)
    (hclean : cleanStep st (Op.book now u c) = true) :
    NonHeadNoDeadline (bookConference st now u c).2 := by
  simp only [bookConference]
  split
  · exact hnh
  · rename_i husrne
    split
    · exact hnh
    · rename_i conference hcl
      split
      · exact hnh
      · rename_i hns
        split
        · exact hnh
        · rename_i hdup
          split
          · exact hnh
          · rename_i hcfne
            have hres : (bookConference st now u c).1 =
                Res.rId (mkBooking u c now).bookingId := by
              simp only [bookConference, hcl, hdup]
              rw [if_neg husrne, if_neg hns, if_neg hcfne]
              cases hdec0 : conference.decreaseAvailableSlots with
              | mk b0 c20 => cases b0 <;> rfl
            have hfresh : lookupA st.bookings
                (mkBooking u c now).bookingId = none := by
              have h0 : cleanStep st (Op.book now u c) = true := hclean
              simp only [cleanStep, hres] at h0
              cases hl0 : lookupA st.bookings (mkBooking u c now).bookingId
              · rfl
              · rw [hl0] at h0
                simp at h0
            split
            · rename_i conference2 hdec
              exact nonHead_book_confirmed st now u c conference2 hCl hnh hfresh
            · rename_i c2 hdec
              exact nonHead_book_waitlisted st now u c hCl hnh hfresh

theorem nonHead_cancelBooking (st : SystemState) (now : Int) (bid : String)
    (hCl : CleanInv st) (hnh : NonHeadNoDeadline st) :
    NonHeadNoDeadline (cancelBooking st now bid).2 := by
  obtain ⟨hq, hwq, hcnt, hll⟩ := hCl
  simp only [cancelBooking]
  split
  · exact hnh
  · rename_i booking hb
    split
    · exact hnh
    · rename_i hnc
      split
      · exact hnh
      · rename_i conference hcc
        split
        · exact hnh
        · have hnh1 : ∀ st1 : SystemState, NonHeadNoDeadline st1 →
              NonHeadNoDeadline
                (ledgerRemove
                  (setBookingStatus st1 bid BookingStatus.CANCELED)
                  booking.userId bid) := by
            intro st1 h1
            exact nonHead_of_eq (ledgerRemove_waitlists _ _ _)
              (ledgerRemove_bookings _ _ _)
              (nonHead_setBookingStatus st1 bid _ h1)
          by_cases hsc : booking.status = BookingStatus.CONFIRMED
          · rw [if_pos hsc]
            refine hnh1 _ ?_
            refine nonHead_processWaitlist _ now _ (queueInv_of_eq rfl rfl hq)
              (nonHead_of_eq rfl rfl hnh)
          · by_cases hsw : booking.status = BookingStatus.WAITLISTED
            · rw [if_neg hsc, if_pos hsw]
              refine hnh1 _ ?_
              intro cn2 id hid b hb'
              have hb'' : lookupA st.bookings id = some b := hb'
              by_cases hcn2 : cn2 = booking.conferenceName
              · rw [hcn2] at hid
                have hid2 : id ∈ (removeId
                    (getWaitlist st booking.conferenceName) bid).tail := by
                  have hself : getWaitlist
                      (setWaitlist st booking.conferenceName
                        (removeId (getWaitlist st booking.conferenceName) bid))
                      booking.conferenceName =
                      removeId (getWaitlist st booking.conferenceName) bid :=
                    getWaitlist_setWaitlist_self st _ _
                  rw [hself] at hid
                  exact hid
                have hid3 := tail_removeId_subset _ bid
                  (hq booking.conferenceName).1 hid2
                exact hnh booking.conferenceName id hid3 b hb''
              · have hne : getWaitlist
                    (setWaitlist st booking.conferenceName
                      (removeId (getWaitlist st booking.conferenceName) bid))
                    cn2 = getWaitlist st cn2 :=
                  getWaitlist_setWaitlist_ne st _ cn2 _ hcn2
                rw [hne] at hid
                exact hnh cn2 id hid b hb''
            · exfalso
              cases hstt : booking.status with
              | CONFIRMED => exact hsc hstt
              | WAITLISTED => exact hsw hstt
              | CANCELED => exact hnc hstt

theorem nonHead_confirmWaitlistedBooking (st : SystemState) (now : Int)
    (bid : String) (hCl : CleanInv st) (hnh : NonHeadNoDeadline st)
    (hnoexp : noExpiryStep st (Op.confirm now bid) = true) :
    NonHeadNoDeadline (confirmWaitlistedBooking st now bid).2 := by
  obtain ⟨hq, hwq, hcnt, hll⟩ := hCl
  simp only [confirmWaitlistedBooking]
  split
  · exact hnh
  · rename_i booking hb
    split
    · exact hnh
    · rename_i hwstat
      rw [ne_eq, Decidable.not_not] at hwstat
      split
      · exact hnh
      · rename_i conference hcc
        split
        · exact nonHead_cancelAll st booking.conferenceName hnh
        · rename_i hns
          split
          · rename_i hexp
            exfalso
            have hres : (confirmWaitlistedBooking st now bid).1 =
                Res.rBool false := by
              simp only [confirmWaitlistedBooking, hb, hcc]
              rw [if_neg (fun hx => hx hwstat), if_neg hns, if_pos hexp]
            have h0 : noExpiryStep st (Op.confirm now bid) = true := hnoexp
            simp only [noExpiryStep, hres] at h0
            simp at h0
          · split
            · exact hnh
            · split
              · exact hnh
              · rename_i conference2 hdec
                have hnh2 : NonHeadNoDeadline
                    (setWaitlist
                      { st with conferences := (setA st.conferences
                          booking.conferenceName conference2) }
                      booking.conferenceName
                      (removeId (getWaitlist
                        { st with conferences := (setA st.conferences
                            booking.conferenceName conference2) }
                        booking.conferenceName) bid)) := by
                  intro cn2 id hid b hb'
                  have hb'' : lookupA st.bookings id = some b := hb'
                  by_cases hcn2 : cn2 = booking.conferenceName
                  · rw [hcn2] at hid
                    have hself : getWaitlist
                        (setWaitlist
                          { st with conferences := (setA st.conferences
                              booking.conferenceName conference2) }
                          booking.conferenceName
                          (removeId (getWaitlist
                            { st with conferences := (setA st.conferences
                                booking.conferenceName conference2) }
                            booking.conferenceName) bid))
                        booking.conferenceName =
                        removeId (getWaitlist
                          { st with conferences := (setA st.conferences
                              booking.conferenceName conference2) }
                          booking.conferenceName) bid :=
                      getWaitlist_setWaitlist_self _ _ _
                    rw [hself] at hid
                    have hid3 := tail_removeId_subset
                      (getWaitlist
                        { st with conferences := (setA st.conferences
                            booking.conferenceName conference2) }
                        booking.conferenceName) bid
                      (hq booking.conferenceName).1 hid
                    exact hnh booking.conferenceName id hid3 b hb''
                  · have hne : getWaitlist
                        (setWaitlist
                          { st with conferences := (setA st.conferences
                              booking.conferenceName conference2) }
                          booking.conferenceName
                          (removeId (getWaitlist
                            { st with conferences := (setA st.conferences
                                booking.conferenceName conference2) }
                            booking.conferenceName) bid))
                        cn2 = getWaitlist st cn2 :=
                      getWaitlist_setWaitlist_ne _ _ cn2 _ hcn2
                    rw [hne] at hid
                    exact hnh cn2 id hid b hb''
                exact nonHead_rfow _ booking.userId conference2
                  (nonHead_setBookingStatus _ bid _ hnh2)

theorem nonHead_addConference (st : SystemState) (n l : String)
    (t : List String) (s e : Int) (sl : Int) (hnh : NonHeadNoDeadline st) :
    NonHeadNoDeadline (addConference st n l t s e sl).2 := by
  unfold addConference
  by_cases hex : (lookupA st.conferences n).isSome
  · rw [if_pos hex]
    exact hnh
  · rw [if_neg hex]
    cases hmk : mkConference n l t s e sl with
    | error m => exact hnh
    | ok c => exact nonHead_of_eq rfl rfl hnh

theorem nonHead_addUser (st : SystemState) (uid : String) (t : List String)
    (hnh : NonHeadNoDeadline st) : NonHeadNoDeadline (addUser st uid t).2 := by
  unfold addUser
  by_cases hex : (lookupA st.users uid).isSome
  · rw [if_pos hex]
    exact hnh
  · rw [if_neg hex]
    cases hmk : mkUser uid t with
    | error m => exact hnh
    | ok u => exact nonHead_of_eq rfl rfl hnh

/-! ### The invariants along collision-free runs -/

theorem cleanInv_applyOp (st : SystemState) (op : Op) (hInv : Inv2 st)
    (hCl : CleanInv st) (hclean : cleanStep st op = true) :
    CleanInv (applyOp st op).2 := by
  cases op with
  | addConf n l t s e sl => exact cleanInv_addConference st n l t s e sl hInv hCl
  | addUsr u t => exact cleanInv_addUser st u t hCl
  | book now u c => exact cleanInv_bookConference st now u c hCl hclean
  | cancel now b => exact cleanInv_cancelBooking st now b hInv hCl
  | confirm now b => exact cleanInv_confirmWaitlistedBooking st now b hCl

theorem nonHead_applyOp (st : SystemState) (op : Op)
    (hCl : CleanInv st) (hnh : NonHeadNoDeadline st)
    (hclean : cleanStep st op = true) (hnoexp : noExpiryStep st op = true) :
    NonHeadNoDeadline (applyOp st op).2 := by
  cases op with
  | addConf n l t s e sl => exact nonHead_addConference st n l t s e sl hnh
  | addUsr u t => exact nonHead_addUser st u t hnh
  | book now u c => exact nonHead_bookConference st now u c hCl hnh hclean
  | cancel now b => exact nonHead_cancelBooking st now b hCl hnh
  | confirm now b =>
    exact nonHead_confirmWaitlistedBooking st now b hCl hnh hnoexp

theorem cleanInv_initState : CleanInv initState := by
  refine ⟨?_, ?_, ?_, ?_⟩
  · intro cn
    constructor
    · show (getWaitlist initState cn).Nodup
      simp [getWaitlist, initState, lookupA]
    · intro id hid
      simp [getWaitlist, initState, lookupA] at hid
  · intro id b hb
    simp [initState, lookupA] at hb
  · intro cn c hc
    simp [initState, lookupA] at hc
  · intro uid u hu
    simp [initState, lookupA] at hu

theorem nonHead_initState : NonHeadNoDeadline initState := by
  intro cn id hid b hb
  simp [initState, lookupA] at hb

theorem cleanInv_runOps_aux : ∀ (ops : List Op) (st : SystemState),
    Inv2 st → CleanInv st → cleanRun st ops = true → CleanInv (runOps st ops)
  | [], _, _, hCl, _ => hCl
  | op :: rest, st, hInv, hCl, hrun => by
    rw [cleanRun, Bool.and_eq_true] at hrun
    exact cleanInv_runOps_aux rest _ (inv2_applyOp st op hInv)
      (cleanInv_applyOp st op hInv hCl hrun.1) hrun.2

theorem nonHead_runOps_aux : ∀ (ops : List Op) (st : SystemState),
    Inv2 st → CleanInv st → NonHeadNoDeadline st → cleanRun st ops = true →
    noExpiryRun st ops = true → NonHeadNoDeadline (runOps st ops)
  | [], _, _, _, hnh, _, _ => hnh
  | op :: rest, st, hInv, hCl, hnh, hrun, hexp => by
    rw [cleanRun, Bool.and_eq_true] at hrun
    rw [noExpiryRun, Bool.and_eq_true] at hexp
    exact nonHead_runOps_aux rest _ (inv2_applyOp st op hInv)
      (cleanInv_applyOp st op hInv hCl hrun.1)
      (nonHead_applyOp st op hCl hnh hrun.1 hexp.1) hrun.2 hexp.2

/-- C1 amended: after every sequence of coordinator operations the slot
counter of every conference stays within `0 ≤ availableSlots ≤ totalSlots`
unconditionally, and on every collision-free run (no `bookConference` call
re-generates an id that is already a key of the booking table) the number
of CONFIRMED bookings of each conference equals
`totalSlots - availableSlots`.  The count clause needs the collision-free
hypothesis: `C1_counterexample` shows an id collision leaks a slot. -/
theorem C1_slot_accounting (ops : List Op) :
    (∀ cn c, lookupA (runOps initState ops).conferences cn = some c →
      0 ≤ c.availableSlots ∧ c.availableSlots ≤ c.totalSlots) ∧
    (cleanRun initState ops = true →
      ∀ cn c, lookupA (runOps initState ops).conferences cn = some c →
        (confirmedCount (runOps initState ops) cn : Int) =
          c.totalSlots - c.availableSlots) := by
  constructor
  · intro cn c hc
    have hwf := (inv2_runOps ops).2.1 cn c hc
    exact ⟨hwf.2.2.1, hwf.2.2.2⟩
  · intro hrun cn c hc
    exact (cleanInv_runOps_aux ops initState inv2_initState cleanInv_initState
      hrun).2.2.1 cn c hc

/-- A small collision-free run: one conference with two slots, one user,
one successful CONFIRMED booking. -/
def c1wops : List Op :=
  [ .addConf "W" "L" [] 100 200 2
  , .addUsr "w" []
  , .book 5 "w" "W" ]

theorem C1_slot_accounting_witness :
    cleanRun initState c1wops = true ∧
    lookupA (runOps initState c1wops).conferences "W" =
      some { name := "W", location := "L", topics := [],
             startTime := 100, endTime := 200, totalSlots := 2,
             availableSlots := 1 } ∧
    (confirmedCount (runOps initState c1wops) "W" : Int) = (2 : Int) - 1 :=
  ⟨by decide, by decide,
    (C1_slot_accounting c1wops).2 (by decide) "W"
      { name := "W", location := "L", topics := [], startTime := 100,
        endTime := 200, totalSlots := 2, availableSlots := 1 } (by decide)⟩

/-- C4 amended: on every collision-free run the surviving half of the
ledger-lockstep invariant holds after every operation: each ledger entry
names a booking that exists in the coordinator's table and belongs to that
user, never stores CANCELED, and a CONFIRMED ledger entry always maps to a
CONFIRMED table booking.  The converse direction of the lockstep is false
in the source: `C4_counterexample` shows a promotion that flips the table
to CONFIRMED while the ledger keeps WAITLISTED, and eviction cancels table
bookings without ever touching the ledger. -/
theorem C4_ledger_lockstep (ops : List Op)
    (hrun : cleanRun initState ops = true) :
    LedgerLockstep (runOps initState ops) :=
  (cleanInv_runOps_aux ops initState inv2_initState cleanInv_initState
    hrun).2.2.2

theorem C4_ledger_lockstep_witness :
    BookingStatus.CONFIRMED ≠ BookingStatus.CANCELED ∧
    ∃ b, lookupA (runOps initState c1wops).bookings "w_W_5" = some b ∧
      b.userId = "w" ∧
      (BookingStatus.CONFIRMED = BookingStatus.CONFIRMED →
        b.status = BookingStatus.CONFIRMED) :=
  C4_ledger_lockstep c1wops (by decide) "w"
    { userId := "w", interestedTopics := [],
      bookingStatuses := [("w_W_5", BookingStatus.CONFIRMED)] }
    (by decide) "w_W_5" BookingStatus.CONFIRMED (by decide)

/-! ### FIFO promotion machinery -/

theorem confirm_success_is_head (st : SystemState) (now : Int) (bid : String)
    (hq : QueueInv st) (hwq : WaitlistedQueued st)
    (hnh : NonHeadNoDeadline st)
    (hsucc : (confirmWaitlistedBooking st now bid).1 = Res.rBool true) :
    ∃ b, lookupA st.bookings bid = some b ∧
      (getWaitlist st b.conferenceName).head? = some bid := by
  simp only [confirmWaitlistedBooking] at hsucc
  split at hsucc
  · exact absurd hsucc (by simp)
  · rename_i booking hb
    split at hsucc
    · exact absurd hsucc (by simp)
    · rename_i hwstat
      rw [ne_eq, Decidable.not_not] at hwstat
      split at hsucc
      · exact absurd hsucc (by simp)
      · rename_i conference hcc
        split at hsucc
        · exact absurd hsucc (by simp)
        · split at hsucc
          · exact absurd hsucc (by simp)
          · rename_i hexp
            split at hsucc
            · exact absurd hsucc (by simp)
            · split at hsucc
              · exact absurd hsucc (by simp)
              · refine ⟨booking, hb, ?_⟩
                have hmem := hwq bid booking hb hwstat
                cases hql : getWaitlist st booking.conferenceName with
                | nil =>
                  rw [hql] at hmem
                  exact absurd hmem (by simp)
                | cons h t =>
                  rw [hql] at hmem
                  rcases List.mem_cons.mp hmem with he | ht
                  · rw [he]
                    rfl
                  · exfalso
                    have hdl := hnh booking.conferenceName bid
                      (by rw [hql]; exact ht) booking hb
                    rw [hdl] at hexp
                    exact hexp (by rfl)

theorem head_after_foldl_evictConf (u : String) (l : List String)
    (s : SystemState) (cn bid : String) (b : Booking)
    (hhead : (getWaitlist s cn).head? = some bid)
    (hb : lookupA s.bookings bid = some b)
    (hbnc : b.status ≠ BookingStatus.CANCELED)
    (b' : Booking)
    (hb' : lookupA (l.foldl (evictConf u) s).bookings bid = some b')
    (hbnc' : b'.status ≠ BookingStatus.CANCELED) :
    (getWaitlist (l.foldl (evictConf u) s) cn).head? = some bid := by
  induction l generalizing s with
  | nil => exact hhead
  | cons cn2 rest ih =>
    rw [List.foldl_cons] at hb' ⊢
    by_cases hm : bid ∈ getWaitlist s cn2 ∧ b.userId = u
    · exfalso
      have hlk : lookupA (evictConf u s cn2).bookings bid =
          some { b with status := BookingStatus.CANCELED } := by
        rw [evictConf_bookings, evictUserFromQueue_lookup, hb]
        simp [hm]
      obtain ⟨b0, hb0, _, _, hst⟩ :=
        (coreStep_foldl_evictConf u rest (evictConf u s cn2)).2 bid b' hb'
      rw [hlk] at hb0
      rw [← Option.some.inj hb0] at hst
      rcases hst with hst | hst
      · exact hbnc' hst
      · exact hbnc' hst
    · have hlk : lookupA (evictConf u s cn2).bookings bid = some b := by
        rw [evictConf_bookings, evictUserFromQueue_lookup, hb]
        simp [hm]
      have hhead2 : (getWaitlist (evictConf u s cn2) cn).head? = some bid := by
        by_cases hcc : cn = cn2
        · rw [hcc] at hhead ⊢
          rw [evictConf_getWaitlist_self, evictUserFromQueue_queue]
          cases hql : getWaitlist s cn2 with
          | nil =>
            rw [hql] at hhead
            exact absurd hhead (by simp)
          | cons h t =>
            rw [hql] at hhead
            have hhb : h = bid := Option.some.inj hhead
            subst hhb
            have hmm : h ∈ getWaitlist s cn2 := by
              rw [hql]
              exact List.mem_cons_self _ _
            have hpred : (match lookupA s.bookings h with
                | some b2 => decide (b2.userId ≠ u)
                | none => true) = true := by
              rw [hb]
              simp only [decide_eq_true_eq]
              intro hu
              exact hm ⟨hmm, hu⟩
            rw [List.filter_cons, if_pos hpred]
            rfl
        · rw [evictConf_getWaitlist_ne u s cn2 cn hcc]
          exact hhead
      exact ih _ hhead2 hlk hb'

theorem head_after_rfow (s : SystemState) (u : String) (bc : Conference)
    (cn bid : String) (b : Booking)
    (hhead : (getWaitlist s cn).head? = some bid)
    (hb : lookupA s.bookings bid = some b)
    (hbnc : b.status ≠ BookingStatus.CANCELED)
    (b' : Booking)
    (hb' : lookupA (removeFromOverlappingWaitlists s u bc).bookings bid =
      some b')
    (hbnc' : b'.status ≠ BookingStatus.CANCELED) :
    (getWaitlist (removeFromOverlappingWaitlists s u bc) cn).head? =
      some bid :=
  head_after_foldl_evictConf u _ s cn bid b hhead hb hbnc b' hb' hbnc'

theorem bookConference_cases (st : SystemState) (now : Int) (u c : String) :
    (bookConference st now u c).2 = st ∨
    ((bookConference st now u c).1 = Res.rId (mkBooking u c now).bookingId ∧
      ∃ conference2,
      (bookConference st now u c).2 =
        ledgerAdd
          { removeFromOverlappingWaitlists
              { st with conferences := (setA st.conferences c conference2) }
              u conference2 with
            bookings := emplaceA
              (removeFromOverlappingWaitlists
                { st with conferences := (setA st.conferences c conference2) }
                u conference2).bookings
              (mkBooking u c now).bookingId
              { mkBooking u c now with status := BookingStatus.CONFIRMED } }
          u (mkBooking u c now).bookingId BookingStatus.CONFIRMED) ∨
    ((bookConference st now u c).1 = Res.rId (mkBooking u c now).bookingId ∧
      (bookConference st now u c).2 =
        ledgerAdd
          { setWaitlist st c
              (getWaitlist st c ++ [(mkBooking u c now).bookingId]) with
            bookings := emplaceA
              (setWaitlist st c
                (getWaitlist st c ++
                  [(mkBooking u c now).bookingId])).bookings
              (mkBooking u c now).bookingId
              { mkBooking u c now with status := BookingStatus.WAITLISTED } }
          u (mkBooking u c now).bookingId BookingStatus.WAITLISTED) := by
  simp only [bookConference]
  split
  · exact Or.inl rfl
  · split
    · exact Or.inl rfl
    · split
      · exact Or.inl rfl
      · split
        · exact Or.inl rfl
        · split
          · exact Or.inl rfl
          · split
            · rename_i conference2 hdec
              exact Or.inr (Or.inl ⟨rfl, conference2, rfl⟩)
            · exact Or.inr (Or.inr ⟨rfl, rfl⟩)

theorem head_stable_book (st : SystemState) (now : Int) (u c : String)
    (cn bid : String)
    (hCl : CleanInv st)
    (hclean : cleanStep st (Op.book now u c) = true)
    (hhead : (getWaitlist st cn).head? = some bid)
    (b' : Booking)
    (hb' : lookupA (bookConference st now u c).2.bookings bid = some b')
    (hbW : b'.status = BookingStatus.WAITLISTED) :
    (getWaitlist (bookConference st now u c).2 cn).head? = some bid := by
  obtain ⟨hq, hwq, hcnt, hll⟩ := hCl
  have hmem0 : bid ∈ getWaitlist st cn := by
    cases hql : getWaitlist st cn with
    | nil =>
      rw [hql] at hhead
      exact absurd hhead (by simp)
    | cons h t =>
      rw [hql] at hhead
      rw [← Option.some.inj hhead]
      exact List.mem_cons_self _ _
  obtain ⟨b, hb, hbw, hbc⟩ := (hq cn).2 bid hmem0
  rcases bookConference_cases st now u c with hst2 | ⟨hres, conference2, hst2⟩ |
      ⟨hres, hst2⟩
  · rw [hst2]
    exact hhead
  · have hfresh : lookupA st.bookings (mkBooking u c now).bookingId = none := by
      have h0 : cleanStep st (Op.book now u c) = true := hclean
      simp only [cleanStep, hres] at h0
      cases hl0 : lookupA st.bookings (mkBooking u c now).bookingId
      · rfl
      · rw [hl0] at h0
        simp at h0
    have hne : bid ≠ (mkBooking u c now).bookingId := by
      intro he
      rw [he, hfresh] at hb
      exact Option.noConfusion hb
    rw [hst2] at hb' ⊢
    rw [ledgerAdd_bookings] at hb'
    have hb'2 : lookupA
        (removeFromOverlappingWaitlists
          { st with conferences := (setA st.conferences c conference2) }
          u conference2).bookings bid = some b' := by
      have hb'3 : lookupA (emplaceA
          (removeFromOverlappingWaitlists
            { st with conferences := (setA st.conferences c conference2) }
            u conference2).bookings
          (mkBooking u c now).bookingId
          { mkBooking u c now with status := BookingStatus.CONFIRMED })
          bid = some b' := hb'
      rw [lookupA_emplaceA_ne _ _ _ _ hne] at hb'3
      exact hb'3
    have hqlF : getWaitlist
        (ledgerAdd
          { removeFromOverlappingWaitlists
              { st with conferences := (setA st.conferences c conference2) }
              u conference2 with
            bookings := emplaceA
              (removeFromOverlappingWaitlists
                { st with conferences := (setA st.conferences c conference2) }
                u conference2).bookings
              (mkBooking u c now).bookingId
              { mkBooking u c now with status := BookingStatus.CONFIRMED } }
          u (mkBooking u c now).bookingId BookingStatus.CONFIRMED) cn =
        getWaitlist
          (removeFromOverlappingWaitlists
            { st with conferences := (setA st.conferences c conference2) }
            u conference2) cn := by
      show (lookupA (ledgerAdd _ u _ BookingStatus.CONFIRMED).waitlists
        cn).getD [] = _
      rw [ledgerAdd_waitlists]
      rfl
    rw [hqlF]
    refine head_after_rfow _ u conference2 cn bid b hhead hb ?_ b' hb'2 ?_
    · rw [hbw]
      exact fun hx => BookingStatus.noConfusion hx
    · rw [hbW]
      exact fun hx => BookingStatus.noConfusion hx
  · rw [hst2]
    have hqlF : ∀ cn2, getWaitlist
        (ledgerAdd
          { setWaitlist st c
              (getWaitlist st c ++ [(mkBooking u c now).bookingId]) with
            bookings := emplaceA
              (setWaitlist st c
                (getWaitlist st c ++
                  [(mkBooking u c now).bookingId])).bookings
              (mkBooking u c now).bookingId
              { mkBooking u c now with status := BookingStatus.WAITLISTED } }
          u (mkBooking u c now).bookingId BookingStatus.WAITLISTED) cn2 =
        getWaitlist
          (setWaitlist st c
            (getWaitlist st c ++ [(mkBooking u c now).bookingId])) cn2 := by
      intro cn2
      show (lookupA (ledgerAdd _ u _ BookingStatus.WAITLISTED).waitlists
        cn2).getD [] = _
      rw [ledgerAdd_waitlists]
      rfl
    rw [hqlF]
    by_cases hcn : cn = c
    · rw [hcn] at hhead ⊢
      rw [getWaitlist_setWaitlist_self]
      cases hql : getWaitlist st c with
      | nil =>
        rw [hql] at hhead
        exact absurd hhead (by simp)
      | cons h t =>
        rw [hql] at hhead
        rw [List.cons_append]
        exact hhead
    · rw [getWaitlist_setWaitlist_ne st c cn _ hcn]
      exact hhead

theorem cancelBooking_cases (st : SystemState) (now : Int) (tgt : String) :
    (cancelBooking st now tgt).2 = st ∨
    (∃ booking conference,
      lookupA st.bookings tgt = some booking ∧
      booking.status = BookingStatus.CONFIRMED ∧
      lookupA st.conferences booking.conferenceName = some conference ∧
      (cancelBooking st now tgt).2 =
        ledgerRemove
          (setBookingStatus
            (processWaitlist
              { st with conferences := (setA st.conferences
                  booking.conferenceName
                  conference.increaseAvailableSlots) }
              now booking.conferenceName)
            tgt BookingStatus.CANCELED)
          booking.userId tgt) ∨
    (∃ booking,
      lookupA st.bookings tgt = some booking ∧
      booking.status = BookingStatus.WAITLISTED ∧
      (cancelBooking st now tgt).2 =
        ledgerRemove
          (setBookingStatus
            (setWaitlist st booking.conferenceName
              (removeId (getWaitlist st booking.conferenceName) tgt))
            tgt BookingStatus.CANCELED)
          booking.userId tgt) := by
  simp only [cancelBooking]
  split
  · exact Or.inl rfl
  · rename_i booking hb
    split
    · exact Or.inl rfl
    · rename_i hnc
      split
      · exact Or.inl rfl
      · rename_i conference hcc
        split
        · exact Or.inl rfl
        · by_cases hsc : booking.status = BookingStatus.CONFIRMED
          · rw [if_pos hsc]
            exact Or.inr (Or.inl ⟨booking, conference, hb, hsc, hcc, rfl⟩)
          · by_cases hsw : booking.status = BookingStatus.WAITLISTED
            · rw [if_neg hsc, if_pos hsw]
              exact Or.inr (Or.inr ⟨booking, hb, hsw, rfl⟩)
            · exfalso
              cases hstt : booking.status with
              | CONFIRMED => exact hsc hstt
              | WAITLISTED => exact hsw hstt
              | CANCELED => exact hnc hstt

theorem confirmWaitlistedBooking_cases (st : SystemState) (now : Int)
    (tgt : String) :
    (confirmWaitlistedBooking st now tgt).2 = st ∨
    (∃ booking, lookupA st.bookings tgt = some booking ∧
      (confirmWaitlistedBooking st now tgt).2 =
        cancelAllWaitlistedBookings st booking.conferenceName) ∨
    ((confirmWaitlistedBooking st now tgt).1 = Res.rBool false) ∨
    (∃ booking conference2,
      lookupA st.bookings tgt = some booking ∧
      booking.status = BookingStatus.WAITLISTED ∧
      (confirmWaitlistedBooking st now tgt).2 =
        removeFromOverlappingWaitlists
          (setBookingStatus
            (setWaitlist
              { st with conferences := (setA st.conferences
                  booking.conferenceName conference2) }
              booking.conferenceName
              (removeId (getWaitlist
                { st with conferences := (setA st.conferences
                    booking.conferenceName conference2) }
                booking.conferenceName) tgt))
            tgt BookingStatus.CONFIRMED)
          booking.userId conference2) := by
  simp only [confirmWaitlistedBooking]
  split
  · exact Or.inl rfl
  · rename_i booking hb
    split
    · exact Or.inl rfl
    · rename_i hwstat
      rw [ne_eq, Decidable.not_not] at hwstat
      split
      · exact Or.inl rfl
      · rename_i conference hcc
        split
        · exact Or.inr (Or.inl ⟨booking, hb, rfl⟩)
        · split
          · exact Or.inr (Or.inr (Or.inl rfl))
          · split
            · exact Or.inl rfl
            · split
              · exact Or.inl rfl
              · rename_i conference2 hdec
                exact Or.inr (Or.inr (Or.inr
                  ⟨booking, conference2, hb, hwstat, rfl⟩))

theorem head_stable_cancel (st : SystemState) (now : Int) (tgt : String)
    (cn bid : String)
    (hCl : CleanInv st)
    (hhead : (getWaitlist st cn).head? = some bid)
    (b' : Booking)
    (hb' : lookupA (cancelBooking st now tgt).2.bookings bid = some b')
    (hbW : b'.status = BookingStatus.WAITLISTED) :
    (getWaitlist (cancelBooking st now tgt).2 cn).head? = some bid := by
  obtain ⟨hq, hwq, hcnt, hll⟩ := hCl
  rcases cancelBooking_cases st now tgt with hst2 |
      ⟨booking, conference, hb0, hsc, hcc, hst2⟩ | ⟨booking, hb0, hsw, hst2⟩
  · rw [hst2]
    exact hhead
  · rw [hst2]
    have hql : getWaitlist
        (ledgerRemove
          (setBookingStatus
            (processWaitlist
              { st with conferences := (setA st.conferences
                  booking.conferenceName
                  conference.increaseAvailableSlots) }
              now booking.conferenceName)
            tgt BookingStatus.CANCELED)
          booking.userId tgt) cn = getWaitlist st cn := by
      show (lookupA (ledgerRemove _ booking.userId tgt).waitlists cn).getD []
        = _
      rw [ledgerRemove_waitlists]
      rfl
    rw [hql]
    exact hhead
  · by_cases he : tgt = bid
    · exfalso
      rw [hst2] at hb'
      rw [ledgerRemove_bookings] at hb'
      rw [he] at hb0 hb'
      have hb'2 := setBookingStatus_lookup_self
        (setWaitlist st booking.conferenceName
          (removeId (getWaitlist st booking.conferenceName) bid))
        bid BookingStatus.CANCELED booking hb0
      rw [hb'2] at hb'
      rw [← Option.some.inj hb'] at hbW
      exact BookingStatus.noConfusion hbW
    · rw [hst2]
      have hql : ∀ cn2, getWaitlist
          (ledgerRemove
            (setBookingStatus
              (setWaitlist st booking.conferenceName
                (removeId (getWaitlist st booking.conferenceName) tgt))
              tgt BookingStatus.CANCELED)
            booking.userId tgt) cn2 =
          getWaitlist
            (setWaitlist st booking.conferenceName
              (removeId (getWaitlist st booking.conferenceName) tgt)) cn2 := by
        intro cn2
        show (lookupA (ledgerRemove _ booking.userId tgt).waitlists
          cn2).getD [] = _
        rw [ledgerRemove_waitlists]
        rfl
      rw [hql]
      by_cases hcn : cn = booking.conferenceName
      · rw [← hcn]
        rw [getWaitlist_setWaitlist_self]
        cases hqlc : getWaitlist st cn with
        | nil =>
          rw [hqlc] at hhead
          exact absurd hhead (by simp)
        | cons h t =>
          rw [hqlc] at hhead
          have hhb : h = bid := Option.some.inj hhead
          have hne2 : ¬(h = tgt) := by
            intro hx
            rw [hx] at hhb
            exact he hhb
          rw [removeId, if_neg hne2]
          rw [hhb]
          rfl
      · rw [getWaitlist_setWaitlist_ne st _ cn _ hcn]
        exact hhead

theorem head_stable_confirm (st : SystemState) (now : Int) (tgt : String)
    (cn bid : String)
    (hCl : CleanInv st)
    (hnoexp : noExpiryStep st (Op.confirm now tgt) = true)
    (hhead : (getWaitlist st cn).head? = some bid)
    (b' : Booking)
    (hb' : lookupA (confirmWaitlistedBooking st now tgt).2.bookings bid =
      some b')
    (hbW : b'.status = BookingStatus.WAITLISTED) :
    (getWaitlist (confirmWaitlistedBooking st now tgt).2 cn).head? =
      some bid := by
  obtain ⟨hq, hwq, hcnt, hll⟩ := hCl
  have hmem0 : bid ∈ getWaitlist st cn := by
    cases hql : getWaitlist st cn with
    | nil =>
      rw [hql] at hhead
      exact absurd hhead (by simp)
    | cons h t =>
      rw [hql] at hhead
      rw [← Option.some.inj hhead]
      exact List.mem_cons_self _ _
  obtain ⟨b, hb, hbw, hbc⟩ := (hq cn).2 bid hmem0
  rcases confirmWaitlistedBooking_cases st now tgt with hst2 |
      ⟨booking, hb0, hst2⟩ | hfail | ⟨booking, conference2, hb0, hsw, hst2⟩
  · rw [hst2]
    exact hhead
  · by_cases hcn : cn = booking.conferenceName
    · exfalso
      rw [hst2] at hb'
      rw [cancelAll_bookings, cancelAllQueue_lookup, hb] at hb'
      rw [← hcn] at hb'
      have hb'' : some (if bid ∈ getWaitlist st cn
          then { b with status := BookingStatus.CANCELED } else b) =
          some b' := hb'
      rw [if_pos hmem0] at hb''
      rw [← Option.some.inj hb''] at hbW
      exact BookingStatus.noConfusion hbW
    · rw [hst2]
      rw [cancelAll_getWaitlist_ne st _ cn hcn]
      exact hhead
  · exfalso
    have h0 : noExpiryStep st (Op.confirm now tgt) = true := hnoexp
    simp only [noExpiryStep, hfail] at h0
    simp at h0
  · by_cases he : tgt = bid
    · exfalso
      rw [hst2] at hb'
      rw [← he] at hb'
      obtain ⟨bm, hbm, _, _, hst⟩ :=
        (coreStep_rfow
          (setBookingStatus
            (setWaitlist
              { st with conferences := (setA st.conferences
                  booking.conferenceName conference2) }
              booking.conferenceName
              (removeId (getWaitlist
                { st with conferences := (setA st.conferences
                    booking.conferenceName conference2) }
                booking.conferenceName) tgt))
            tgt BookingStatus.CONFIRMED)
          booking.userId conference2).2 tgt b' hb'
      have hbm2 := setBookingStatus_lookup_self
        (setWaitlist
          { st with conferences := (setA st.conferences
              booking.conferenceName conference2) }
          booking.conferenceName
          (removeId (getWaitlist
            { st with conferences := (setA st.conferences
                booking.conferenceName conference2) }
            booking.conferenceName) tgt))
        tgt BookingStatus.CONFIRMED booking hb0
      rw [hbm2] at hbm
      rw [← Option.some.inj hbm] at hst
      rcases hst with hst | hst
      · rw [hbW] at hst
        exact BookingStatus.noConfusion hst
      · rw [hbW] at hst
        exact BookingStatus.noConfusion hst
    · rw [hst2] at hb' ⊢
      have hb3 : lookupA
          (setBookingStatus
            (setWaitlist
              { st with conferences := (setA st.conferences
                  booking.conferenceName conference2) }
              booking.conferenceName
              (removeId (getWaitlist
                { st with conferences := (setA st.conferences
                    booking.conferenceName conference2) }
                booking.conferenceName) tgt))
            tgt BookingStatus.CONFIRMED).bookings bid = some b := by
        rw [setBookingStatus_lookup_ne _ _ _ _
          (fun hx => he hx.symm)]
        exact hb
      have hhead3 : (getWaitlist
          (setBookingStatus
            (setWaitlist
              { st with conferences := (setA st.conferences
                  booking.conferenceName conference2) }
              booking.conferenceName
              (removeId (getWaitlist
                { st with conferences := (setA st.conferences
                    booking.conferenceName conference2) }
                booking.conferenceName) tgt))
            tgt BookingStatus.CONFIRMED) cn).head? = some bid := by
        by_cases hcn : cn = booking.conferenceName
        · rw [hcn]
          show (getWaitlist
            (setWaitlist
              { st with conferences := (setA st.conferences
                  booking.conferenceName conference2) }
              booking.conferenceName
              (removeId (getWaitlist
                { st with conferences := (setA st.conferences
                    booking.conferenceName conference2) }
                booking.conferenceName) tgt))
            booking.conferenceName).head? = some bid
          rw [getWaitlist_setWaitlist_self]
          have hql0 : getWaitlist
              { st with conferences := (setA st.conferences
                  booking.conferenceName conference2) }
              booking.conferenceName = getWaitlist st cn := by
            rw [← hcn]
            rfl
          rw [hql0]
          cases hqlc : getWaitlist st cn with
          | nil =>
            rw [hqlc] at hhead
            exact absurd hhead (by simp)
          | cons h t =>
            rw [hqlc] at hhead
            have hhb : h = bid := Option.some.inj hhead
            have hne2 : ¬(h = tgt) := by
              intro hx
              rw [hx] at hhb
              exact he hhb
            rw [removeId, if_neg hne2]
            rw [hhb]
            rfl
        · show (getWaitlist
            (setWaitlist
              { st with conferences := (setA st.conferences
                  booking.conferenceName conference2) }
              booking.conferenceName
              (removeId (getWaitlist
                { st with conferences := (setA st.conferences
                    booking.conferenceName conference2) }
                booking.conferenceName) tgt))
            cn).head? = some bid
          rw [getWaitlist_setWaitlist_ne _ _ cn _ hcn]
          exact hhead
      refine head_after_rfow _ booking.userId conference2 cn bid b hhead3
        hb3 ?_ b' hb' ?_
      · rw [hbw]
        exact fun hx => BookingStatus.noConfusion hx
      · rw [hbW]
        exact fun hx => BookingStatus.noConfusion hx

theorem head_stable_applyOp (st : SystemState) (op : Op) (cn bid : String)
    (hCl : CleanInv st)
    (hclean : cleanStep st op = true) (hnoexp : noExpiryStep st op = true)
    (hhead : (getWaitlist st cn).head? = some bid)
    (b' : Booking)
    (hb' : lookupA (applyOp st op).2.bookings bid = some b')
    (hbW : b'.status = BookingStatus.WAITLISTED) :
    (getWaitlist (applyOp st op).2 cn).head? = some bid := by
  cases op with
  | addConf n l t s e sl =>
    show (getWaitlist (addConference st n l t s e sl).2 cn).head? = some bid
    unfold addConference
    by_cases hex : (lookupA st.conferences n).isSome
    · rw [if_pos hex]
      exact hhead
    · rw [if_neg hex]
      cases hmk : mkConference n l t s e sl with
      | error m => exact hhead
      | ok c0 => exact hhead
  | addUsr u t =>
    show (getWaitlist (addUser st u t).2 cn).head? = some bid
    unfold addUser
    by_cases hex : (lookupA st.users u).isSome
    · rw [if_pos hex]
      exact hhead
    · rw [if_neg hex]
      cases hmk : mkUser u t with
      | error m => exact hhead
      | ok u0 => exact hhead
  | book now u c =>
    exact head_stable_book st now u c cn bid hCl hclean hhead b' hb' hbW
  | cancel now tgt =>
    exact head_stable_cancel st now tgt cn bid hCl hhead b' hb' hbW
  | confirm now tgt =>
    exact head_stable_confirm st now tgt cn bid hCl hnoexp hhead b' hb' hbW

/-- C5 (amended): in every collision-free execution in which no
confirmation deadline expires, (1) whenever a `confirmWaitlistedBooking`
call on the reached state succeeds, the confirmed booking was at the head
of its conference's waitlist - promotions happen in queue order - and (2)
the head spot is stable: a booking at the head of a waitlist that is still
WAITLISTED after one more collision-free, expiry-free operation is still at
the head.  Together: the first booking waitlisted, as long as it stays
WAITLISTED, is the first promoted.  The unconditional claim is false:
`C5_counterexample` cancels the first-waitlisted booking, and the second
queued booking is promoted first. -/
theorem C5_fifo_promotion (ops : List Op)
    (hclean : cleanRun initState ops = true)
    (hnoexp : noExpiryRun initState ops = true) :
    (∀ now bid,
      (confirmWaitlistedBooking (runOps initState ops) now bid).1 =
        Res.rBool true →
      ∃ b, lookupA (runOps initState ops).bookings bid = some b ∧
        (getWaitlist (runOps initState ops) b.conferenceName).head? =
          some bid) ∧
    (∀ op cn bid b', cleanStep (runOps initState ops) op = true →
      noExpiryStep (runOps initState ops) op = true →
      (getWaitlist (runOps initState ops) cn).head? = some bid →
      lookupA (applyOp (runOps initState ops) op).2.bookings bid = some b' →
      b'.status = BookingStatus.WAITLISTED →
      (getWaitlist (applyOp (runOps initState ops) op).2 cn).head? =
        some bid) := by
  have hInv := inv2_runOps ops
  have hCl := cleanInv_runOps_aux ops initState inv2_initState
    cleanInv_initState hclean
  have hnh := nonHead_runOps_aux ops initState inv2_initState
    cleanInv_initState nonHead_initState hclean hnoexp
  constructor
  · intro now bid hsucc
    exact confirm_success_is_head _ now bid hCl.1 hCl.2.1 hnh hsucc
  · intro op cn bid b' h1 h2 h3 h4 h5
    exact head_stable_applyOp _ op cn bid hCl h1 h2 h3 b' h4 h5

/-- The promotion scenario one step short of the confirm. -/
def c5ops : List Op := List.take 6 promotionOps

theorem C5_fifo_promotion_witness :
    (∃ b, lookupA (runOps initState c5ops).bookings "B_C_5" = some b ∧
      (getWaitlist (runOps initState c5ops) b.conferenceName).head? =
        some "B_C_5") ∧
    (getWaitlist (applyOp (runOps initState c5ops) (Op.addUsr "Z" [])).2
      "C").head? = some "B_C_5" :=
  ⟨(C5_fifo_promotion c5ops (by decide) (by decide)).1 5 "B_C_5" (by decide),
   (C5_fifo_promotion c5ops (by decide) (by decide)).2 (Op.addUsr "Z" []) "C"
     "B_C_5"
     { bookingId := "B_C_5", userId := "B", conferenceName := "C",
       status := BookingStatus.WAITLISTED, confirmationDeadline := some 3605 }
     (by decide) (by decide) (by decide) (by decide) (by decide)⟩
